import Mathlib

set_option autoImplicit false

/-!
# The hwcomposer filter pipeline

A shallow embedding of `src/common/filter/filtermanager.cpp`,
`src/common/filter/visiblerectfilter.cpp` and `src/public/spinlock.h`,
followed by theorems about the embedded functions.

Conventions of the embedding

* Preprocessor switches that the sources test but never define are fields of
  `Build`; every function that contains an `#if`/`#ifdef` takes the build.
* A call that can stop the process (`LOG_FATAL_IF`, `ALOG_ASSERT`), spin for
  ever (`SpinLock::lock` on a held lock) or index a vector out of bounds
  returns `Except Abort`.
* Pointers are compared by address only, so a filter handle carries an address
  and a content reference is a value of an arbitrary type `ρ` with decidable
  equality; `σ` is the state of everything the filters own.
* Logging and tracing macros have no effect on the modelled state.
-/

namespace hwcomposer

/-! ## Build configuration -/

/-- Preprocessor configuration of one build of the sources. `uncomment` is the
macro tested by `#ifdef uncomment`, `internalBuild` is
`INTEL_HWC_INTERNAL_BUILD`, `fatalChecks` says whether `LOG_FATAL_IF` and
`ALOG_ASSERT` stop the process in this build, and `displayManager` is the
value of `FilterPosition::DisplayManager`. -/
structure Build where
  uncomment : Bool
  internalBuild : Bool
  fatalChecks : Bool
  displayManager : Nat
deriving DecidableEq, Repr

/-- Ways in which a call does not return a defined result: the process is
stopped by a fatal check, the caller spins on a held lock, a vector is indexed
out of bounds, or a loop of the embedding was given too few steps. -/
inductive Abort where
  | fatal
  | spin
  | outOfBounds
  | steps
deriving DecidableEq, Repr

/-! ## Content model -/

/-- The type `HwcRect<int>`. -/
structure HwcRect where
  left : Int
  top : Int
  right : Int
  bottom : Int
deriving DecidableEq, Repr, Inhabited

/-- A layer, reduced to the attributes the filters read and write: destination
rectangle, visible regions, and the per-frame bookkeeping refreshed by
`onUpdateFrameState`. -/
structure Layer where
  mDst : HwcRect
  mVisibleRegions : List HwcRect
  mFrameState : Nat
deriving DecidableEq, Repr, Inhabited

/-- The type `Content::Display`; its layer stack is the list of its layers and
its frame index is an unsigned 32-bit counter. -/
structure Display where
  mbEnabled : Bool
  mFrameIndex : Nat
  mbGeometryChanged : Bool
  mLayerStack : List Layer
deriving DecidableEq, Repr, Inhabited

/-- A `Content` is the sequence of its displays. -/
abbrev Content := List Display

/-! ## SpinLock -/

/-- The method `SpinLock::lock`, for a single thread of control: `test_and_set`
on a clear flag sets it and leaves the loop, on a set flag the loop never
ends. -/
def SpinLock.lock (atomic_lock_ : Bool) : Except Abort Bool :=
  if atomic_lock_ then .error .spin else .ok true

/-- The method `SpinLock::unlock`: clears the flag. -/
def SpinLock.unlock (_atomic_lock_ : Bool) : Bool := false

/-! ## FilterManager: registry -/

/-- A filter seen through the `AbstractFilter` interface: its address (the
identity `remove` compares), `outputsPhysicalDisplays()` and `onApply`. -/
structure AbstractFilter (σ ρ : Type) where
  addr : Nat
  outputsPhysicalDisplays : Bool
  onApply : σ → ρ → ρ × σ

/-- The type `FilterManager::Entry`. -/
structure Entry (σ ρ : Type) where
  mpFilter : AbstractFilter σ ρ
  mPosition : Nat

/-- The state of a `FilterManager`: the registry, the lock flag and the
snapshot `mOldContent` kept by internal builds. -/
structure FilterManager (σ ρ : Type) where
  mFilters : List (Entry σ ρ)
  mLock : Bool
  mOldContent : Content

/-- Conversion of an unsigned 32-bit value to `int`. -/
def toInt32 (u : Nat) : Int :=
  if u % 2 ^ 32 < 2 ^ 31 then (u % 2 ^ 32 : Nat) else ((u % 2 ^ 32 : Nat) : Int) - 2 ^ 32

/-- The function `FilterManager::compareFilterPositions`: both positions are
cast to `uint32_t`, subtracted there, and the difference is returned as
`int`. -/
def compareFilterPositions {σ ρ : Type} (lhs rhs : Entry σ ρ) : Int :=
  toInt32 ((lhs.mPosition % 2 ^ 32 + 2 ^ 32 - rhs.mPosition % 2 ^ 32) % 2 ^ 32)

/-- Modelled from the spec: one insertion of the registry container's `sort`,
which is not in `src`; `e` goes in front of the first element the comparator
ranks above it. -/
def sortInsert {α : Type} (cmp : α → α → Int) (e : α) : List α → List α
  | [] => [e]
  | x :: xs => if 0 < cmp x e then e :: x :: xs else x :: sortInsert cmp e xs

/-- Modelled from the spec: the registry container's `sort(compare)`, which is
not in `src`, re-sorts the registry by the comparator; it is taken to be the
stable insertion sort driven by the sign of the comparator. -/
def vectorSort {α : Type} (cmp : α → α → Int) : List α → List α
  | [] => []
  | x :: xs => sortInsert cmp x (vectorSort cmp xs)

/-- The body of `FilterManager::add` between `lock` and `unlock`. -/
def addBody {σ ρ : Type} (b : Build) (mFilters : List (Entry σ ρ))
    (filter : AbstractFilter σ ρ) (position : Nat) : Except Abort (List (Entry σ ρ)) :=
  let e : Entry σ ρ := { mpFilter := filter, mPosition := position }
  if b.uncomment then
    if b.fatalChecks && (decide (position < b.displayManager) && filter.outputsPhysicalDisplays) then
      .error .fatal
    else if b.fatalChecks && (decide (b.displayManager ≤ position) && !filter.outputsPhysicalDisplays) then
      .error .fatal
    else
      .ok (vectorSort compareFilterPositions (mFilters ++ [e]))
  else
    .ok mFilters

/-- The method `FilterManager::add`. -/
def FilterManager.add {σ ρ : Type} (b : Build) (m : FilterManager σ ρ)
    (filter : AbstractFilter σ ρ) (position : Nat) : Except Abort (FilterManager σ ρ) :=
  match SpinLock.lock m.mLock with
  | .error a => .error a
  | .ok held =>
    match addBody b m.mFilters filter position with
    | .error a => .error a
    | .ok fs => .ok { m with mFilters := fs, mLock := SpinLock.unlock held }

/-- The loop of `FilterManager::remove`: the first entry whose filter is the
given one ends the loop, and is taken out only where `removeAt` is compiled. -/
def removeLoop {σ ρ : Type} (b : Build) (filter : Nat) : List (Entry σ ρ) → List (Entry σ ρ)
  | [] => []
  | e :: rest =>
    if e.mpFilter.addr = filter then
      (if b.uncomment then rest else e :: rest)
    else e :: removeLoop b filter rest

/-- The method `FilterManager::remove`. -/
def FilterManager.remove {σ ρ : Type} (b : Build) (m : FilterManager σ ρ)
    (filter : AbstractFilter σ ρ) : Except Abort (FilterManager σ ρ) :=
  match SpinLock.lock m.mLock with
  | .error a => .error a
  | .ok held =>
    .ok { m with mFilters := removeLoop b filter.addr m.mFilters, mLock := SpinLock.unlock held }

/-! ## FilterManager: validation of the geometry-change flag -/

/-- Modelled from the spec: `Content::snapshotOf`, which is not in `src`, makes
the snapshot a deep copy of the new content. -/
def snapshotOf (newContent : Content) : Content := newContent

/-- The value of `getFrameIndex() + 1` for the frame index `frameIndex`: the
sum is taken in unsigned 32-bit arithmetic, so the index after `2 ^ 32 - 1` is
0. -/
def frameAfter (frameIndex : Nat) : Nat := (frameIndex + 1) % 2 ^ 32

/-- The loop of `FilterManager::validateGeometryChange`, from display index
`d` on; the pair is `(bError, bWarning)`. `dispMatches old new` stands for
`oldDisplay.matches(newDisplay)`, which is not in `src`. -/
def validateLoop (dispMatches : Display → Display → Bool) (oldContent : Content) :
    List Display → Nat → Bool × Bool → Bool × Bool
  | [], _, acc => acc
  | newDisplay :: rest, d, (bError, bWarning) =>
    match oldContent[d]? with
    | none => validateLoop dispMatches oldContent rest (d + 1) (bError, bWarning)
    | some oldDisplay =>
      if !oldDisplay.mbEnabled || !newDisplay.mbEnabled then
        validateLoop dispMatches oldContent rest (d + 1) (bError, bWarning)
      else if newDisplay.mFrameIndex != frameAfter oldDisplay.mFrameIndex then
        validateLoop dispMatches oldContent rest (d + 1) (bError, bWarning)
      else if dispMatches oldDisplay newDisplay then
        (if newDisplay.mbGeometryChanged then
          validateLoop dispMatches oldContent rest (d + 1) (bError, true)
         else validateLoop dispMatches oldContent rest (d + 1) (bError, bWarning))
      else
        (if !newDisplay.mbGeometryChanged then
          validateLoop dispMatches oldContent rest (d + 1) (true, bWarning)
         else validateLoop dispMatches oldContent rest (d + 1) (bError, bWarning))

/-- The function `FilterManager::validateGeometryChange`: the returned pair is
the result and the new value of `oldContent`. The assertion on the two
display-count constants, which are not in `src`, is taken to hold. -/
def validateGeometryChange (b : Build) (dispMatches : Display → Display → Bool)
    (newContent oldContent : Content) : Except Abort (Bool × Content) :=
  let r := validateLoop dispMatches oldContent newContent 0 (false, false)
  if r.1 && b.fatalChecks then .error .fatal
  else .ok (!r.1 && !r.2, snapshotOf newContent)

/-! ## FilterManager: dispatch -/

/-- One filter invocation, as recorded by the dispatch loop: the entry's filter
and position, the reference handed to the filter and the reference it
returned. -/
structure Invocation (ρ : Type) where
  filter : Nat
  position : Nat
  input : ρ
  output : ρ
deriving DecidableEq, Repr

/-- What the dispatch loop carries: the current reference `pRef`, the state of
the filters, the snapshots `mOldOutput` of the filters (by filter address) and
the invocations made so far. -/
structure Pass (σ ρ : Type) where
  pRef : ρ
  state : σ
  mOldOutput : Nat → Content
  invoked : List (Invocation ρ)

/-- The loop of `FilterManager::onApply` over the registry. `deref` reads the
content behind a reference. -/
def applyLoop {σ ρ : Type} [DecidableEq ρ] (b : Build) (dispMatches : Display → Display → Bool)
    (deref : σ → ρ → Content) (first last : Nat) :
    List (Entry σ ρ) → Pass σ ρ → Except Abort (Pass σ ρ)
  | [], s => .ok s
  | e :: rest, s =>
    if e.mPosition < first then applyLoop b dispMatches deref first last rest s
    else if last < e.mPosition then .ok s
    else
      let pFilter := e.mpFilter
      let out := pFilter.onApply s.state s.pRef
      let pNewRef := out.1
      let checked : Except Abort (Nat → Content) :=
        if b.internalBuild then
          match validateGeometryChange b dispMatches (deref out.2 pNewRef)
              (s.mOldOutput pFilter.addr) with
          | .error a => .error a
          | .ok r => .ok (fun a => if a = pFilter.addr then r.2 else s.mOldOutput a)
        else .ok s.mOldOutput
      match checked with
      | .error a => .error a
      | .ok old =>
        applyLoop b dispMatches deref first last rest
          { pRef := if pNewRef ≠ s.pRef then pNewRef else s.pRef
            state := out.2
            mOldOutput := old
            invoked := s.invoked ++
              [{ filter := pFilter.addr, position := e.mPosition, input := s.pRef,
                 output := pNewRef }] }

/-- What `FilterManager::onApply` leaves behind: the returned reference, the
manager, the state of the filters with their snapshots, and the invocations
made. -/
structure Applied (σ ρ : Type) where
  ref : ρ
  manager : FilterManager σ ρ
  state : σ
  mOldOutput : Nat → Content
  invoked : List (Invocation ρ)

/-- The method `FilterManager::onApply`. -/
def FilterManager.onApply {σ ρ : Type} [DecidableEq ρ] (b : Build)
    (dispMatches : Display → Display → Bool) (deref : σ → ρ → Content)
    (m : FilterManager σ ρ) (state : σ) (mOldOutput : Nat → Content)
    (ref : ρ) (first last : Nat) : Except Abort (Applied σ ρ) :=
  let entry : Except Abort Content :=
    if b.internalBuild then
      match validateGeometryChange b dispMatches (deref state ref) m.mOldContent with
      | .error a => .error a
      | .ok r => .ok r.2
    else .ok m.mOldContent
  match entry with
  | .error a => .error a
  | .ok old =>
    match SpinLock.lock m.mLock with
    | .error a => .error a
    | .ok held =>
      match applyLoop b dispMatches deref first last m.mFilters
          { pRef := ref, state := state, mOldOutput := mOldOutput, invoked := [] } with
      | .error a => .error a
      | .ok s =>
        .ok { ref := s.pRef
              manager := { m with mLock := SpinLock.unlock held, mOldContent := old }
              state := s.state
              mOldOutput := s.mOldOutput
              invoked := s.invoked }

/-! ## VisibleRectFilter -/

/-- The state of a `VisibleRectFilter`: the owned content `mReference` and, per
display index, the scratch array `mDisplayState[d].mLayers`. -/
structure VisibleRectFilter where
  mReference : Content
  mDisplayState : Nat → List Layer

/-- The body of the loop of `getVisibleRegionBoundingBox`: `visibleRect` after
the region `rect` has been taken in. -/
def extendBox (visibleRect rect : HwcRect) : HwcRect :=
  { left := min visibleRect.left rect.left
    top := min visibleRect.top rect.top
    right := max visibleRect.right rect.right
    bottom := max visibleRect.bottom rect.bottom }

/-- The function `VisibleRectFilter::getVisibleRegionBoundingBox`; reading
`visibleRegions[0]` of an empty vector is out of bounds. -/
def getVisibleRegionBoundingBox (layer : Layer) : Except Abort HwcRect :=
  match layer.mVisibleRegions with
  | [] => .error .outOfBounds
  | r0 :: rest => .ok (rest.foldl extendBox r0)

/-- Modelled from the spec: the scratch vector's `resize(n)`, which is not in
`src`. Shrinking keeps the first `n` slots, growing appends fresh layers when
the allocation succeeds (`ok`) and leaves the vector as it is when it does
not. -/
def vectorResize (ok : Bool) (v : List Layer) (n : Nat) : List Layer :=
  if n ≤ v.length then v.take n
  else if ok then v ++ List.replicate (n - v.length) default
  else v

/-- The function `VisibleRectFilter::displayStatePrepare` on the scratch array
of display `d`: the returned pair is the result and the array afterwards. -/
def displayStatePrepare (ok : Bool) (mLayers : List Layer) (layerCount : Nat) :
    Bool × List Layer :=
  if mLayers.length ≠ layerCount then
    let resized := vectorResize ok mLayers layerCount
    if resized.length < layerCount then (false, resized) else (true, resized)
  else (true, mLayers)

/-- Intersection of two rectangles. -/
def HwcRect.intersect (a b : HwcRect) : HwcRect :=
  { left := max a.left b.left
    top := max a.top b.top
    right := min a.right b.right
    bottom := min a.bottom b.bottom }

/-- A rectangle without area. -/
def HwcRect.isEmpty (r : HwcRect) : Bool :=
  decide (r.right ≤ r.left) || decide (r.bottom ≤ r.top)

/-- Modelled from the spec: `clipLayerToDestRect` is not in `src`. It
intersects the layer's destination with the given rectangle and reports
whether the intersection is a non-empty rectangle. The source crop it adjusts
along with the destination is not an attribute of `Layer` here. -/
def clipLayerToDestRect (layer : Layer) (rect : HwcRect) : Layer × Bool :=
  ({ layer with mDst := layer.mDst.intersect rect }, !(layer.mDst.intersect rect).isEmpty)

/-- Modelled from the spec: `Layer::onUpdateFrameState` is not in `src`. It
refreshes the per-frame bookkeeping from the given layer and keeps the rest. -/
def Layer.onUpdateFrameState (self other : Layer) : Layer :=
  { self with mFrameState := other.mFrameState }

/-- What the layer loop of `VisibleRectFilter::onApply` works on: the layer
stack of the display, the scratch array of the display, and `bModified`. -/
structure LayerPass where
  layerStack : List Layer
  mLayers : List Layer
  bModified : Bool
deriving DecidableEq, Repr

/-- The layer loop of `VisibleRectFilter::onApply`, from index `ly` on, run for
at most the given number of iterations; `layerStack[ly]?` is `none` exactly
when the loop condition `ly < layerStack.size()` fails. `clip` stands for
`clipLayerToDestRect`. A layer stack entry set from a scratch slot holds the
value of the slot. -/
def layerLoop (clip : Layer → HwcRect → Layer × Bool) :
    Nat → Nat → LayerPass → Except Abort LayerPass
  | 0, ly, s => if ly < s.layerStack.length then .error .steps else .ok s
  | n + 1, ly, s =>
    match s.layerStack[ly]? with
    | none => .ok s
    | some layer =>
      match getVisibleRegionBoundingBox layer with
      | .error a => .error a
      | .ok visibleRect =>
        if layer.mDst = visibleRect then layerLoop clip n (ly + 1) s
        else if ly < s.mLayers.length then
          let clipped := clip (Layer.onUpdateFrameState layer layer) visibleRect
          if clipped.2 then
            layerLoop clip n (ly + 1)
              { layerStack := s.layerStack.set ly clipped.1
                mLayers := s.mLayers.set ly clipped.1
                bModified := true }
          else
            layerLoop clip n ly
              { layerStack := s.layerStack.eraseIdx ly
                mLayers := s.mLayers.set ly clipped.1
                bModified := true }
        else .error .outOfBounds

/-- What the display loop of `VisibleRectFilter::onApply` produces: the
displays of `mReference` from the current index on, the scratch arrays, and
`bModified`. -/
structure DisplayPass where
  displays : List Display
  mDisplayState : Nat → List Layer
  bModified : Bool

/-- The display loop of `VisibleRectFilter::onApply`, from display index `d`
on. `alloc d` says whether growing the scratch array of display `d`
succeeds. -/
def displayLoop (clip : Layer → HwcRect → Layer × Bool) (alloc : Nat → Bool) :
    List Display → Nat → (Nat → List Layer) → Bool → Except Abort DisplayPass
  | [], _, mDisplayState, bModified =>
    .ok { displays := [], mDisplayState := mDisplayState, bModified := bModified }
  | display :: rest, d, mDisplayState, bModified =>
    if display.mbEnabled then
      let prepared := displayStatePrepare (alloc d) (mDisplayState d) display.mLayerStack.length
      match layerLoop clip display.mLayerStack.length 0
          { layerStack := display.mLayerStack, mLayers := prepared.2, bModified := bModified } with
      | .error a => .error a
      | .ok s =>
        match displayLoop clip alloc rest (d + 1)
            (fun i => if i = d then s.mLayers else mDisplayState i) s.bModified with
        | .error a => .error a
        | .ok p => .ok { p with displays := { display with mLayerStack := s.layerStack } :: p.displays }
    else
      match displayLoop clip alloc rest (d + 1) mDisplayState bModified with
      | .error a => .error a
      | .ok p => .ok { p with displays := display :: p.displays }

/-- What `VisibleRectFilter::onApply` returns: whether the returned reference
is the input `ref` (otherwise it is the filter's `mReference`), the content
behind the returned reference, and the filter afterwards. -/
structure Filtered where
  returnsInput : Bool
  content : Content
  self : VisibleRectFilter

/-- The method `VisibleRectFilter::onApply`. -/
def VisibleRectFilter.onApply (clip : Layer → HwcRect → Layer × Bool) (alloc : Nat → Bool)
    (self : VisibleRectFilter) (ref : Content) : Except Abort Filtered :=
  match displayLoop clip alloc ref 0 self.mDisplayState false with
  | .error a => .error a
  | .ok p =>
    if p.bModified = false then
      .ok { returnsInput := true
            content := ref
            self := { mReference := if p.displays.length ≠ 0 then [] else p.displays
                      mDisplayState := p.mDisplayState } }
    else
      .ok { returnsInput := false
            content := p.displays
            self := { mReference := p.displays, mDisplayState := p.mDisplayState } }

/-! ## Reference semantics used by the statements -/

/-- The registry is in ascending order of position. -/
def Ascending {σ ρ : Type} (l : List (Entry σ ρ)) : Prop :=
  l.Pairwise (fun a c => a.mPosition ≤ c.mPosition)

instance {σ ρ : Type} (l : List (Entry σ ρ)) : Decidable (Ascending l) := by
  unfold Ascending; infer_instance

/-- The entry's position lies in `[p1, p2]`. -/
def inRange {σ ρ : Type} (p1 p2 : Nat) (e : Entry σ ρ) : Bool :=
  decide (p1 ≤ e.mPosition) && decide (e.mPosition ≤ p2)

/-- Applying the filters of the given entries individually, one after the
other, each to the reference returned by the one before: the final reference
and filter state. -/
def applyIndividually {σ ρ : Type} : List (Entry σ ρ) → σ → ρ → ρ × σ
  | [], state, ref => (ref, state)
  | e :: rest, state, ref =>
    applyIndividually rest (e.mpFilter.onApply state ref).2 (e.mpFilter.onApply state ref).1

/-- The invocations made when the filters of the given entries are applied
individually, one after the other. -/
def invocationsOf {σ ρ : Type} : List (Entry σ ρ) → σ → ρ → List (Invocation ρ)
  | [], _, _ => []
  | e :: rest, state, ref =>
    { filter := e.mpFilter.addr, position := e.mPosition, input := ref,
      output := (e.mpFilter.onApply state ref).1 } ::
      invocationsOf rest (e.mpFilter.onApply state ref).2 (e.mpFilter.onApply state ref).1

/-! ## Sequences of registry operations -/

/-- A sequence of `add` calls, each on the manager left by the call before. -/
def addAll {σ ρ : Type} (b : Build) (m : FilterManager σ ρ) :
    List (AbstractFilter σ ρ × Nat) → Except Abort (FilterManager σ ρ)
  | [] => .ok m
  | call :: rest =>
    match m.add b call.1 call.2 with
    | .error a => .error a
    | .ok m' => addAll b m' rest

/-- The largest value of a 32-bit position, the upper end of a full-range
apply. -/
def maxPosition : Nat := 2 ^ 32 - 1

/-- The filter's declared output space contradicts the position: the position
is below `FilterPosition::DisplayManager` and the filter outputs physical
displays, or the position is at or above it and the filter does not. -/
def contradictsPosition {σ ρ : Type} (b : Build) (filter : AbstractFilter σ ρ)
    (position : Nat) : Bool :=
  (decide (position < b.displayManager) && filter.outputsPhysicalDisplays) ||
    (decide (b.displayManager ≤ position) && !filter.outputsPhysicalDisplays)

/-- The entry refers to the filter at the given address. -/
def refersTo {σ ρ : Type} (filter : Nat) (e : Entry σ ρ) : Bool :=
  decide (e.mpFilter.addr = filter)

/-- The layer's destination rectangle equals its visible-region bounding
box. -/
def dstIsBox (layer : Layer) : Bool :=
  match getVisibleRegionBoundingBox layer with
  | .ok box => decide (layer.mDst = box)
  | .error _ => false

/-- What one iteration of the layer loop leaves at the slot of a layer: the
layer itself when its destination is its bounding box, else the clipped copy
when `clip` reports it visible, else nothing. -/
def layerStep (clip : Layer → HwcRect → Layer × Bool) (layer : Layer) : Option Layer :=
  match getVisibleRegionBoundingBox layer with
  | .error _ => none
  | .ok box =>
    if layer.mDst = box then some layer
    else if (clip (Layer.onUpdateFrameState layer layer) box).2 then
      some (clip (Layer.onUpdateFrameState layer layer) box).1
    else none

/-- What the display loop leaves of a display: a disabled display as it is, an
enabled display with every layer replaced by what `layerStep` leaves of it. -/
def displayStep (clip : Layer → HwcRect → Layer × Bool) (display : Display) : Display :=
  if display.mbEnabled then
    { display with mLayerStack := display.mLayerStack.filterMap (layerStep clip) }
  else display

/-- Some layer of an enabled display has a destination other than its bounding
box. -/
def needsClipping (display : Display) : Bool :=
  display.mbEnabled && display.mLayerStack.any (fun l => !dstIsBox l)

/-- Every layer of every enabled display has at least one visible region. -/
def HasVisibleRegions (ref : Content) : Prop :=
  ∀ display ∈ ref, display.mbEnabled = true →
    ∀ layer ∈ display.mLayerStack, layer.mVisibleRegions ≠ []

/-- In every enabled display every layer's destination rectangle equals its
visible-region bounding box. -/
def AllDstAreBoxes (ref : Content) : Prop :=
  ∀ display ∈ ref, display.mbEnabled = true →
    ∀ layer ∈ display.mLayerStack, getVisibleRegionBoundingBox layer = .ok layer.mDst

/-- The clipping of one layer in the words of the specification: a layer whose
destination equals its bounding box is kept as it is, a layer whose
destination differs from the bounding box but intersects it becomes a copy
whose destination is the intersection, and a layer whose destination differs
from the bounding box and does not intersect it is dropped. -/
def clippedLayer (layer : Layer) : Option Layer :=
  match getVisibleRegionBoundingBox layer with
  | .error _ => none
  | .ok box =>
    if layer.mDst = box then some layer
    else if (layer.mDst.intersect box).isEmpty then none
    else some { layer with mDst := layer.mDst.intersect box }

/-- The content in the words of the specification: disabled displays as they
are, enabled displays with their layer list walked once in original order and
every layer clipped. -/
def clippedContent (ref : Content) : Content :=
  ref.map (fun display =>
    if display.mbEnabled then
      { display with mLayerStack := display.mLayerStack.filterMap clippedLayer }
    else display)

/-- The layer's destination rectangle has an empty intersection with its
visible-region bounding box. -/
def emptyIntersection (layer : Layer) : Bool :=
  match getVisibleRegionBoundingBox layer with
  | .ok box => (layer.mDst.intersect box).isEmpty
  | .error _ => false

/-- The layer's destination rectangle differs from its visible-region bounding
box and has an empty intersection with it. -/
def vanishes (layer : Layer) : Bool :=
  !dstIsBox layer && emptyIntersection layer

/-- The validator compares the two displays: both are enabled and the new
frame index is the one after the old one. -/
def compared (oldDisplay newDisplay : Display) : Bool :=
  oldDisplay.mbEnabled && newDisplay.mbEnabled &&
    decide (newDisplay.mFrameIndex = frameAfter oldDisplay.mFrameIndex)

/-- The warning fires for the pair: the displays are compared and match, and
the new geometry-changed flag is set. -/
def warns (dispMatches : Display → Display → Bool) (oldDisplay newDisplay : Display) : Bool :=
  compared oldDisplay newDisplay && dispMatches oldDisplay newDisplay &&
    newDisplay.mbGeometryChanged

/-- The error fires for the pair: the displays are compared and do not match,
and the new geometry-changed flag is not set. -/
def errs (dispMatches : Display → Display → Bool) (oldDisplay newDisplay : Display) : Bool :=
  compared oldDisplay newDisplay && !dispMatches oldDisplay newDisplay &&
    !newDisplay.mbGeometryChanged

/-- A warning fired: it fires for some display index present in both
contents. -/
def WarningFired (dispMatches : Display → Display → Bool) (newContent oldContent : Content) :
    Prop :=
  ∃ (d : Nat) (oldDisplay newDisplay : Display), oldContent[d]? = some oldDisplay ∧
    newContent[d]? = some newDisplay ∧ warns dispMatches oldDisplay newDisplay = true

/-- An error fired: it fires for some display index present in both
contents. -/
def ErrorFired (dispMatches : Display → Display → Bool) (newContent oldContent : Content) :
    Prop :=
  ∃ (d : Nat) (oldDisplay newDisplay : Display), oldContent[d]? = some oldDisplay ∧
    newContent[d]? = some newDisplay ∧ errs dispMatches oldDisplay newDisplay = true

/-- The flag of every compared pair of displays is right: the displays match
exactly when the new geometry-changed flag is not set. -/
def FlagsRight (dispMatches : Display → Display → Bool) (newContent oldContent : Content) :
    Prop :=
  ∀ (d : Nat) (oldDisplay newDisplay : Display), oldContent[d]? = some oldDisplay →
    newContent[d]? = some newDisplay →
    oldDisplay.mbEnabled = true → newDisplay.mbEnabled = true →
    newDisplay.mFrameIndex = frameAfter oldDisplay.mFrameIndex →
    (dispMatches oldDisplay newDisplay = true ↔ newDisplay.mbGeometryChanged = false)

/-- The rectangle `outer` contains the rectangle `inner`. -/
def HwcRect.contains (outer inner : HwcRect) : Prop :=
  outer.left ≤ inner.left ∧ outer.top ≤ inner.top ∧
    inner.right ≤ outer.right ∧ inner.bottom ≤ outer.bottom

/-! ## Concrete inputs -/

/-- A production build: nothing optional is compiled in. -/
def productionBuild : Build :=
  { uncomment := false, internalBuild := false, fatalChecks := false, displayManager := 5 }

/-- A build in which the blocks under `#ifdef uncomment` are compiled and the
fatal checks stop the process. -/
def checkedBuild : Build :=
  { uncomment := true, internalBuild := false, fatalChecks := true, displayManager := 5 }

/-- An internal build whose fatal checks stop the process. -/
def internalBuild : Build :=
  { uncomment := true, internalBuild := true, fatalChecks := true, displayManager := 5 }

/-- A filter over references that are numbers: it returns its input plus `k`
and counts its invocations in the state. -/
def addingFilter (addr k : Nat) (physical : Bool) : AbstractFilter Nat Nat :=
  { addr := addr, outputsPhysicalDisplays := physical, onApply := fun n r => (r + k, n + 1) }

/-- A sorted registry of three filters at positions 1, 2 and 3. -/
def threeFilters : FilterManager Nat Nat :=
  { mFilters := [⟨addingFilter 101 1 false, 1⟩, ⟨addingFilter 102 10 false, 2⟩,
      ⟨addingFilter 103 100 false, 3⟩]
    mLock := false
    mOldContent := [] }

/-- A build in which the blocks under `#ifdef uncomment` are compiled and the
fatal checks are compiled out. -/
def uncheckedBuild : Build :=
  { uncomment := true, internalBuild := false, fatalChecks := false, displayManager := 5 }

/-- A registry in which the filter at address 101 is registered twice. -/
def twiceRegistered : FilterManager Nat Nat :=
  { mFilters := [⟨addingFilter 101 1 false, 1⟩, ⟨addingFilter 102 10 false, 2⟩,
      ⟨addingFilter 101 1 false, 3⟩]
    mLock := false
    mOldContent := [] }

/-- The layer of scenario B: destination `(0,0,100,100)`, visible regions
`(10,10,40,40)` and `(60,60,90,90)`. -/
def scenarioB : Layer :=
  { mDst := ⟨0, 0, 100, 100⟩, mVisibleRegions := [⟨10, 10, 40, 40⟩, ⟨60, 60, 90, 90⟩],
    mFrameState := 7 }

/-- The content of scenario A: one enabled display with one layer whose
destination `(0,0,100,100)` is its only visible region. -/
def scenarioA : Content :=
  [{ mbEnabled := true, mFrameIndex := 4, mbGeometryChanged := false,
     mLayerStack := [{ mDst := ⟨0, 0, 100, 100⟩, mVisibleRegions := [⟨0, 0, 100, 100⟩],
                       mFrameState := 1 }] }]

/-- A layer without area whose destination `(0,0,0,0)` is its only visible
region. -/
def pointLayer : Layer :=
  { mDst := ⟨0, 0, 0, 0⟩, mVisibleRegions := [⟨0, 0, 0, 0⟩], mFrameState := 3 }

/-- The layer of scenario C: destination `(0,0,10,10)`, visible region
`(50,50,60,60)`. -/
def scenarioC : Layer :=
  { mDst := ⟨0, 0, 10, 10⟩, mVisibleRegions := [⟨50, 50, 60, 60⟩], mFrameState := 5 }

/-- An enabled display with the given layers. -/
def enabledDisplay (layers : List Layer) : Display :=
  { mbEnabled := true, mFrameIndex := 4, mbGeometryChanged := false, mLayerStack := layers }

/-- A filter that has not run yet: no owned content, empty scratch arrays. -/
def freshFilter : VisibleRectFilter :=
  { mReference := [], mDisplayState := fun _ => [] }

/-- The content behind the reference `n`: one enabled display with frame
index `n`, the geometry-changed flag clear, and `n` copies of the layer of
scenario B. -/
def framesOf (_state : Nat) (n : Nat) : Content :=
  [{ mbEnabled := true, mFrameIndex := n, mbGeometryChanged := false,
     mLayerStack := List.replicate n scenarioB }]

/-- Two displays match when their layer stacks are equal. -/
def sameLayers (oldDisplay newDisplay : Display) : Bool :=
  decide (oldDisplay.mLayerStack = newDisplay.mLayerStack)

/-- The empty registry with a free lock. -/
def emptyManager (σ ρ : Type) : FilterManager σ ρ :=
  { mFilters := [], mLock := false, mOldContent := [] }

/-- A content of one enabled display with the given frame index,
geometry-changed flag and layers. -/
def frameContent (frameIndex : Nat) (geometryChanged : Bool) (layers : List Layer) : Content :=
  [{ mbEnabled := true, mFrameIndex := frameIndex, mbGeometryChanged := geometryChanged,
     mLayerStack := layers }]

/-- A layer whose destination `(0,0,100,100)` is its only visible region. -/
def boxedLayer : Layer :=
  { mDst := ⟨0, 0, 100, 100⟩, mVisibleRegions := [⟨0, 0, 100, 100⟩], mFrameState := 1 }

/-- A filter whose scratch array of display 0 has one slot, left by an earlier
frame with one layer. -/
def staleFilter : VisibleRectFilter :=
  { mReference := [], mDisplayState := fun d => if d = 0 then [default] else [] }

/-- A disabled display with the given layers. -/
def disabledDisplay (layers : List Layer) : Display :=
  { mbEnabled := false, mFrameIndex := 9, mbGeometryChanged := true, mLayerStack := layers }

/-- A registry that is not in ascending order: position 5 before position 1. -/
def unsortedFilters : FilterManager Nat Nat :=
  { mFilters := [⟨addingFilter 105 1 false, 5⟩, ⟨addingFilter 101 10 false, 1⟩]
    mLock := false
    mOldContent := [] }

/-- An entry at the given position. -/
def entryAt (position : Nat) : Entry Nat Nat :=
  { mpFilter := addingFilter 101 1 false, mPosition := position }

/-! ## The layer loop with its index uses -/

/-- One use of an index by the layer loop of `VisibleRectFilter::onApply`: the
index and the size of the indexed vector at that moment, for
`layerStack.getLayer(ly)`, `visibleRegions[0]`, `displayState.mLayers[ly]`,
`layerStack.setLayer(ly, ...)` and `layerStack.removeLayer(ly)`. -/
inductive IndexUse where
  | getLayer (ly size : Nat)
  | visibleRegion (r size : Nat)
  | scratch (ly size : Nat)
  | setLayer (ly size : Nat)
  | removeLayer (ly size : Nat)
deriving DecidableEq, Repr

/-- The index of the use is below the size of the vector. -/
def IndexUse.inBounds : IndexUse → Bool
  | .getLayer ly size => decide (ly < size)
  | .visibleRegion r size => decide (r < size)
  | .scratch ly size => decide (ly < size)
  | .setLayer ly size => decide (ly < size)
  | .removeLayer ly size => decide (ly < size)

/-- A run of the layer loop together with what it did on the way: the index
uses in order, the layers read by `getLayer` in order, and for every iteration
the number `layerStack.size() - ly` of layers not yet visited when the
iteration began. -/
structure LayerTrace where
  result : Except Abort LayerPass
  uses : List IndexUse
  examined : List Layer
  remaining : List Nat

/-- The trace of an iteration followed by the trace of the rest of the
loop. -/
def LayerTrace.after (t : LayerTrace) (uses : List IndexUse) (layer : Layer) (left : Nat) :
    LayerTrace :=
  { result := t.result, uses := uses ++ t.uses, examined := layer :: t.examined,
    remaining := left :: t.remaining }

/-- The layer loop of `VisibleRectFilter::onApply` as in `layerLoop`, recording
its index uses, the layers it examines and the number of layers not yet
visited at each iteration. -/
def layerLoopTrace (clip : Layer → HwcRect → Layer × Bool) :
    Nat → Nat → LayerPass → LayerTrace
  | 0, ly, s =>
    { result := if ly < s.layerStack.length then .error .steps else .ok s
      uses := [], examined := [], remaining := [] }
  | n + 1, ly, s =>
    match s.layerStack[ly]? with
    | none => { result := .ok s, uses := [], examined := [], remaining := [] }
    | some layer =>
      match getVisibleRegionBoundingBox layer with
      | .error a =>
        { result := .error a
          uses := [.getLayer ly s.layerStack.length,
                   .visibleRegion 0 layer.mVisibleRegions.length]
          examined := [layer]
          remaining := [s.layerStack.length - ly] }
      | .ok visibleRect =>
        if layer.mDst = visibleRect then
          (layerLoopTrace clip n (ly + 1) s).after
            [.getLayer ly s.layerStack.length, .visibleRegion 0 layer.mVisibleRegions.length]
            layer (s.layerStack.length - ly)
        else if ly < s.mLayers.length then
          let clipped := clip (Layer.onUpdateFrameState layer layer) visibleRect
          if clipped.2 then
            (layerLoopTrace clip n (ly + 1)
              { layerStack := s.layerStack.set ly clipped.1
                mLayers := s.mLayers.set ly clipped.1
                bModified := true }).after
              [.getLayer ly s.layerStack.length, .visibleRegion 0 layer.mVisibleRegions.length,
               .scratch ly s.mLayers.length, .setLayer ly s.layerStack.length]
              layer (s.layerStack.length - ly)
          else
            (layerLoopTrace clip n ly
              { layerStack := s.layerStack.eraseIdx ly
                mLayers := s.mLayers.set ly clipped.1
                bModified := true }).after
              [.getLayer ly s.layerStack.length, .visibleRegion 0 layer.mVisibleRegions.length,
               .scratch ly s.mLayers.length, .removeLayer ly s.layerStack.length]
              layer (s.layerStack.length - ly)
        else
          { result := .error .outOfBounds
            uses := [.getLayer ly s.layerStack.length,
                     .visibleRegion 0 layer.mVisibleRegions.length,
                     .scratch ly s.mLayers.length]
            examined := [layer]
            remaining := [s.layerStack.length - ly] }

/-- The layers of a display with a layer to clip, a layer to remove and a
layer to keep. -/
def mixedLayers : List Layer := [scenarioB, scenarioC, boxedLayer]

/-- An internal build whose fatal checks are compiled out. -/
def uncheckedInternalBuild : Build :=
  { uncomment := true, internalBuild := true, fatalChecks := false, displayManager := 5 }

/-- An enabled display with the given frame index, geometry-changed flag and
layers. -/
def enabledDisplayAt (frameIndex : Nat) (geometryChanged : Bool) (layers : List Layer) :
    Display :=
  { mbEnabled := true, mFrameIndex := frameIndex, mbGeometryChanged := geometryChanged,
    mLayerStack := layers }

/-! ## The FilterManager operations with a log of the lock -/

/-- What happens to the lock during a `FilterManager` operation: `mLock.lock()`
has returned, `mLock.unlock()` was called, or a method of the filter at an
address was called (`onApply` in `onApply`, `onOpen` in `onOpen`, `dump` in
`dump`) while the lock flag had the value `held`. -/
inductive LockEvent where
  | acquire
  | release
  | invoke (filter : Nat) (held : Bool)
deriving DecidableEq, Repr

/-- The `SpinLock` of the manager together with the log of its events. -/
structure LockLog where
  atomic_lock_ : Bool
  events : List LockEvent
deriving DecidableEq, Repr

/-- The call `mLock.lock()`: `SpinLock::lock` on the flag; when it returns,
the acquisition is logged. -/
def LockLog.lock (l : LockLog) : Except Abort LockLog :=
  match SpinLock.lock l.atomic_lock_ with
  | .error a => .error a
  | .ok flag => .ok { atomic_lock_ := flag, events := l.events ++ [.acquire] }

/-- The call `mLock.unlock()`: `SpinLock::unlock` on the flag, logged. -/
def LockLog.unlock (l : LockLog) : LockLog :=
  { atomic_lock_ := SpinLock.unlock l.atomic_lock_, events := l.events ++ [.release] }

/-- A call of a method of the filter at the given address: the log records the
value the lock flag has at that moment. -/
def LockLog.call (l : LockLog) (filter : Nat) : LockLog :=
  { atomic_lock_ := l.atomic_lock_, events := l.events ++ [.invoke filter l.atomic_lock_] }

/-- An operation run with the logged lock: the lock with its log when the
operation ended, and what the operation returned or why it did not return. -/
structure Logged (α : Type) where
  lock : LockLog
  outcome : Except Abort α

/-- The loop of `FilterManager::onApply` as in `applyLoop`, with every call of
a filter's `onApply` logged on the lock. -/
def applyLoopLogged {σ ρ : Type} [DecidableEq ρ] (b : Build)
    (dispMatches : Display → Display → Bool) (deref : σ → ρ → Content) (first last : Nat) :
    List (Entry σ ρ) → Pass σ ρ → LockLog → Logged (Pass σ ρ)
  | [], s, l => { lock := l, outcome := .ok s }
  | e :: rest, s, l =>
    if e.mPosition < first then applyLoopLogged b dispMatches deref first last rest s l
    else if last < e.mPosition then { lock := l, outcome := .ok s }
    else
      let pFilter := e.mpFilter
      let out := pFilter.onApply s.state s.pRef
      let pNewRef := out.1
      let checked : Except Abort (Nat → Content) :=
        if b.internalBuild then
          match validateGeometryChange b dispMatches (deref out.2 pNewRef)
              (s.mOldOutput pFilter.addr) with
          | .error a => .error a
          | .ok r => .ok (fun a => if a = pFilter.addr then r.2 else s.mOldOutput a)
        else .ok s.mOldOutput
      match checked with
      | .error a => { lock := l.call pFilter.addr, outcome := .error a }
      | .ok old =>
        applyLoopLogged b dispMatches deref first last rest
          { pRef := if pNewRef ≠ s.pRef then pNewRef else s.pRef
            state := out.2
            mOldOutput := old
            invoked := s.invoked ++
              [{ filter := pFilter.addr, position := e.mPosition, input := s.pRef,
                 output := pNewRef }] }
          (l.call pFilter.addr)

/-- The method `FilterManager::onApply` as in `FilterManager.onApply`, run with
the logged lock: the validation at entry comes before `lock`, the loop runs
between `lock` and `unlock`. -/
def FilterManager.onApplyLogged {σ ρ : Type} [DecidableEq ρ] (b : Build)
    (dispMatches : Display → Display → Bool) (deref : σ → ρ → Content)
    (m : FilterManager σ ρ) (state : σ) (mOldOutput : Nat → Content)
    (ref : ρ) (first last : Nat) : Logged (Applied σ ρ) :=
  let mLock : LockLog := { atomic_lock_ := m.mLock, events := [] }
  let entry : Except Abort Content :=
    if b.internalBuild then
      match validateGeometryChange b dispMatches (deref state ref) m.mOldContent with
      | .error a => .error a
      | .ok r => .ok r.2
    else .ok m.mOldContent
  match entry with
  | .error a => { lock := mLock, outcome := .error a }
  | .ok old =>
    match mLock.lock with
    | .error a => { lock := mLock, outcome := .error a }
    | .ok locked =>
      let t := applyLoopLogged b dispMatches deref first last m.mFilters
        { pRef := ref, state := state, mOldOutput := mOldOutput, invoked := [] } locked
      match t.outcome with
      | .error a => { lock := t.lock, outcome := .error a }
      | .ok s =>
        { lock := t.lock.unlock
          outcome := .ok
            { ref := s.pRef
              manager := { m with mLock := t.lock.unlock.atomic_lock_, mOldContent := old }
              state := s.state
              mOldOutput := s.mOldOutput
              invoked := s.invoked } }

/-- The method `FilterManager::add` as in `FilterManager.add`, run with the
logged lock. -/
def FilterManager.addLogged {σ ρ : Type} (b : Build) (m : FilterManager σ ρ)
    (filter : AbstractFilter σ ρ) (position : Nat) : Logged (FilterManager σ ρ) :=
  let mLock : LockLog := { atomic_lock_ := m.mLock, events := [] }
  match mLock.lock with
  | .error a => { lock := mLock, outcome := .error a }
  | .ok locked =>
    match addBody b m.mFilters filter position with
    | .error a => { lock := locked, outcome := .error a }
    | .ok fs =>
      { lock := locked.unlock
        outcome := .ok { m with mFilters := fs, mLock := locked.unlock.atomic_lock_ } }

/-- The method `FilterManager::remove` as in `FilterManager.remove`, run with
the logged lock; its loop calls no filter method, whether it ends by the
`break` or at the end of the registry. -/
def FilterManager.removeLogged {σ ρ : Type} (b : Build) (m : FilterManager σ ρ)
    (filter : AbstractFilter σ ρ) : Logged (FilterManager σ ρ) :=
  let mLock : LockLog := { atomic_lock_ := m.mLock, events := [] }
  match mLock.lock with
  | .error a => { lock := mLock, outcome := .error a }
  | .ok locked =>
    { lock := locked.unlock
      outcome := .ok { m with mFilters := removeLoop b filter.addr m.mFilters,
                              mLock := locked.unlock.atomic_lock_ } }

/-- The loop of `FilterManager::onOpen`: `onOpen(hwc)` of every registered
filter in registry order. `openOf filter state` is the state after the
`onOpen` of the filter at that address, a virtual method that is not in
`src`. -/
def onOpenLoop {σ ρ : Type} (openOf : Nat → σ → σ) :
    List (Entry σ ρ) → σ → LockLog → σ × LockLog
  | [], state, l => (state, l)
  | e :: rest, state, l =>
    onOpenLoop openOf rest (openOf e.mpFilter.addr state) (l.call e.mpFilter.addr)

/-- The method `FilterManager::onOpen`, run with the logged lock: the manager
and the state of the filters afterwards. -/
def FilterManager.onOpen {σ ρ : Type} (openOf : Nat → σ → σ) (m : FilterManager σ ρ)
    (state : σ) : Logged (FilterManager σ ρ × σ) :=
  let mLock : LockLog := { atomic_lock_ := m.mLock, events := [] }
  match mLock.lock with
  | .error a => { lock := mLock, outcome := .error a }
  | .ok locked =>
    let r := onOpenLoop openOf m.mFilters state locked
    { lock := r.2.unlock
      outcome := .ok ({ m with mLock := r.2.unlock.atomic_lock_ }, r.1) }

/-- The loop of `FilterManager::dump`: the `dump()` of every registered filter
in registry order, added to the output with the filter's name when it is not
empty. `nameOf` and `dumpOf` are `getName()` and `dump()` of the filter at an
address, virtual methods that are not in `src`. -/
def dumpLoop {σ ρ : Type} (nameOf : Nat → String) (dumpOf : Nat → σ → String) (state : σ) :
    List (Entry σ ρ) → String → LockLog → String × LockLog
  | [], output, l => (output, l)
  | f :: rest, output, l =>
    let fdump := dumpOf f.mpFilter.addr state
    if fdump.length ≠ 0 then
      dumpLoop nameOf dumpOf state rest
        (output ++ nameOf f.mpFilter.addr ++ ": " ++ fdump ++ "\n") (l.call f.mpFilter.addr)
    else dumpLoop nameOf dumpOf state rest output (l.call f.mpFilter.addr)

/-- The method `FilterManager::dump`, run with the logged lock: without
`sbInternalBuild` it returns the empty text before `lock`. -/
def FilterManager.dump {σ ρ : Type} (sbInternalBuild : Bool) (nameOf : Nat → String)
    (dumpOf : Nat → σ → String) (m : FilterManager σ ρ) (state : σ) :
    Logged (String × FilterManager σ ρ) :=
  let mLock : LockLog := { atomic_lock_ := m.mLock, events := [] }
  if !sbInternalBuild then { lock := mLock, outcome := .ok ("", m) }
  else
    match mLock.lock with
    | .error a => { lock := mLock, outcome := .error a }
    | .ok locked =>
      let r := dumpLoop nameOf dumpOf state m.mFilters "" locked
      { lock := r.2.unlock
        outcome := .ok (r.1, { m with mLock := r.2.unlock.atomic_lock_ }) }

/-- The number of times the events acquire the lock. -/
def acquisitions (events : List LockEvent) : Nat :=
  events.countP (fun e => decide (e = .acquire))

/-- Every filter call among the events was made while the lock flag was
set. -/
def callsUnderLock (events : List LockEvent) : Bool :=
  events.all (fun e =>
    match e with
    | .invoke _ held => held
    | _ => true)

/-- The addresses of the filters called among the events, in order. -/
def calledFilters (events : List LockEvent) : List Nat :=
  events.filterMap (fun e =>
    match e with
    | .invoke filter _ => some filter
    | _ => none)

/-- The lock flag after the events, starting from the given flag: `acquire` is
`SpinLock::lock` and `release` is `SpinLock::unlock`. -/
def replayLock : Bool → List LockEvent → Except Abort Bool
  | flag, [] => .ok flag
  | flag, .acquire :: rest =>
    match SpinLock.lock flag with
    | .error a => .error a
    | .ok held => replayLock held rest
  | flag, .release :: rest => replayLock (SpinLock.unlock flag) rest
  | flag, .invoke _ _ :: rest => replayLock flag rest

/-- The lock with its log after an operation that started with the lock free
is in one of three states: untouched; taken once, filter methods called under
it, and still held (the operation was stopped inside); or taken once, filter
methods called under it, and given back. -/
def OneSection (l : LockLog) : Prop :=
  l = { atomic_lock_ := false, events := [] } ∨
  (∃ calls : List Nat,
    l = { atomic_lock_ := true
          events := .acquire :: calls.map (fun a => LockEvent.invoke a true) }) ∨
  (∃ calls : List Nat,
    l = { atomic_lock_ := false
          events := .acquire :: calls.map (fun a => LockEvent.invoke a true) ++ [.release] })

end hwcomposer

namespace hwcomposer

/-! ## Dispatch -/

theorem validateGeometryChange_ok_of_no_checks (b : Build) (dispMatches : Display → Display → Bool)
    (newContent oldContent : Content) (h : b.fatalChecks = false) :
    ∃ r, validateGeometryChange b dispMatches newContent oldContent = .ok r := by
  simp [validateGeometryChange, h]

theorem filter_inRange_eq_nil_of_lt {σ ρ : Type} (p1 p2 : Nat) (l : List (Entry σ ρ)) (p : Nat)
    (hp : p2 < p) (hall : ∀ e ∈ l, p ≤ e.mPosition) : l.filter (inRange p1 p2) = [] := by
  rw [List.filter_eq_nil_iff]
  intro e he
  have := hall e he
  simp only [inRange, Bool.and_eq_true, decide_eq_true_eq, not_and, not_le]
  intro _; omega

theorem invocationsOf_all_unchanged {σ ρ : Type} (l : List (Entry σ ρ)) (state : σ) (ref : ρ)
    (h : ∀ i ∈ invocationsOf l state ref, i.output = i.input) :
    (applyIndividually l state ref).1 = ref := by
  induction l generalizing state ref with
  | nil => rfl
  | cons e rest ih =>
    simp only [invocationsOf, List.mem_cons, forall_eq_or_imp] at h
    simp only [applyIndividually]
    rw [ih _ _ h.2]; exact h.1

theorem invocationsOf_position {σ ρ : Type} (l : List (Entry σ ρ)) (state : σ) (ref : ρ) :
    ∀ i ∈ invocationsOf l state ref, ∃ e ∈ l, i.position = e.mPosition ∧ i.filter = e.mpFilter.addr := by
  induction l generalizing state ref with
  | nil => intro i hi; simp [invocationsOf] at hi
  | cons e rest ih =>
    intro i hi
    simp only [invocationsOf, List.mem_cons] at hi
    rcases hi with hi | hi
    · exact ⟨e, List.mem_cons_self _ _, by rw [hi], by rw [hi]⟩
    · obtain ⟨e', he', h1, h2⟩ := ih _ _ i hi
      exact ⟨e', List.mem_cons_of_mem _ he', h1, h2⟩

theorem applyLoop_ok {σ ρ : Type} [DecidableEq ρ] (b : Build) (dispMatches : Display → Display → Bool)
    (deref : σ → ρ → Content) (p1 p2 : Nat) (l : List (Entry σ ρ)) (hs : Ascending l)
    (s s' : Pass σ ρ) (h : applyLoop b dispMatches deref p1 p2 l s = .ok s') :
    s'.invoked = s.invoked ++ invocationsOf (l.filter (inRange p1 p2)) s.state s.pRef ∧
    s'.pRef = (applyIndividually (l.filter (inRange p1 p2)) s.state s.pRef).1 ∧
    s'.state = (applyIndividually (l.filter (inRange p1 p2)) s.state s.pRef).2 := by
  induction l generalizing s with
  | nil =>
    simp only [applyLoop, Except.ok.injEq] at h
    subst h
    simp [invocationsOf, applyIndividually]
  | cons e rest ih =>
    have hs' : Ascending rest := (List.pairwise_cons.mp hs).2
    have hge : ∀ x ∈ rest, e.mPosition ≤ x.mPosition := (List.pairwise_cons.mp hs).1
    simp only [applyLoop] at h
    by_cases h1 : e.mPosition < p1
    · rw [if_pos h1] at h
      have hout : inRange p1 p2 e = false := by
        simp only [inRange, Bool.and_eq_false_imp, decide_eq_true_eq, decide_eq_false_iff_not]
        intro; omega
      rw [List.filter_cons_of_neg (by simp [hout])]
      exact ih hs' s h
    · rw [if_neg h1] at h
      by_cases h2 : p2 < e.mPosition
      · rw [if_pos h2] at h
        simp only [Except.ok.injEq] at h
        subst h
        rw [filter_inRange_eq_nil_of_lt p1 p2 (e :: rest) e.mPosition h2
          (by intro x hx; rcases List.mem_cons.mp hx with hx | hx
              · rw [hx]
              · exact hge x hx)]
        simp [invocationsOf, applyIndividually]
      · rw [if_neg h2] at h
        have hin : inRange p1 p2 e = true := by
          simp only [inRange, Bool.and_eq_true, decide_eq_true_eq]; omega
        rw [List.filter_cons_of_pos hin]
        have hp : (if (e.mpFilter.onApply s.state s.pRef).1 ≠ s.pRef
            then (e.mpFilter.onApply s.state s.pRef).1 else s.pRef)
            = (e.mpFilter.onApply s.state s.pRef).1 := by
          by_cases hc : (e.mpFilter.onApply s.state s.pRef).1 = s.pRef
          · simp [hc]
          · simp [hc]
        split at h
        · exact absurd h (by simp)
        · rename_i old _
          have := ih hs' _ h
          simp only [hp] at this
          simp only [invocationsOf, applyIndividually]
          refine ⟨?_, this.2.1, this.2.2⟩
          rw [this.1]; simp

theorem applyLoop_returns {σ ρ : Type} [DecidableEq ρ] (b : Build) (dispMatches : Display → Display → Bool)
    (deref : σ → ρ → Content) (p1 p2 : Nat) (l : List (Entry σ ρ))
    (hb : b.internalBuild = false ∨ b.fatalChecks = false) (s : Pass σ ρ) :
    ∃ s', applyLoop b dispMatches deref p1 p2 l s = .ok s' := by
  induction l generalizing s with
  | nil => exact ⟨s, rfl⟩
  | cons e rest ih =>
    simp only [applyLoop]
    split
    · exact ih s
    · split
      · exact ⟨s, rfl⟩
      · by_cases hi : b.internalBuild = true
        · have hf : b.fatalChecks = false := by
            rcases hb with hb | hb
            · rw [hb] at hi; exact absurd hi (by simp)
            · exact hb
          obtain ⟨r, hr⟩ := validateGeometryChange_ok_of_no_checks b dispMatches
            (deref (e.mpFilter.onApply s.state s.pRef).2 (e.mpFilter.onApply s.state s.pRef).1)
            (s.mOldOutput e.mpFilter.addr) hf
          simp only [hi, if_true, hr]
          exact ih _
        · simp only [hi]
          exact ih _

theorem applyLoop_error {σ ρ : Type} [DecidableEq ρ] (b : Build)
    (dispMatches : Display → Display → Bool) (deref : σ → ρ → Content) (p1 p2 : Nat)
    (l : List (Entry σ ρ)) (s : Pass σ ρ) (a : Abort)
    (h : applyLoop b dispMatches deref p1 p2 l s = .error a) :
    a = .fatal ∧ b.internalBuild = true ∧ b.fatalChecks = true := by
  induction l generalizing s with
  | nil => simp [applyLoop] at h
  | cons e rest ih =>
    simp only [applyLoop] at h
    split at h
    · exact ih s h
    · split at h
      · simp at h
      · by_cases hi : b.internalBuild = true
        · simp only [hi, if_true] at h
          by_cases hf : b.fatalChecks = true
          · split at h
            · rename_i a' hv
              split at hv
              · rename_i a'' hv'
                simp only [validateGeometryChange] at hv'
                split at hv'
                · simp only [Except.error.injEq] at hv' hv h
                  subst hv' hv h
                  exact ⟨rfl, hi, hf⟩
                · simp at hv'
              · simp at hv
            · exact ih _ h
          · have hf' : b.fatalChecks = false := by simpa using hf
            obtain ⟨r, hr⟩ := validateGeometryChange_ok_of_no_checks b dispMatches
              (deref (e.mpFilter.onApply s.state s.pRef).2 (e.mpFilter.onApply s.state s.pRef).1)
              (s.mOldOutput e.mpFilter.addr) hf'
            simp only [hr] at h
            exact ih _ h
        · simp only [hi] at h
          exact ih _ h

/-- C1: on a registry in ascending order of position with the lock free,
`FilterManager::onApply(ref, p1, p2)` with `p1 ≤ p2` returns in every build
whose validator cannot stop the process, and never fails otherwise than by
that validator; whenever it returns, the invocations it made are exactly those
of applying the entries with position in `[p1, p2]` one by one in registry
order (each entry once, each fed the reference returned by the one before), no
invoked entry lies outside `[p1, p2]`, and the returned reference and filter
state are those of that one-by-one application: the input reference when no
entry is in range or when no invoked filter changes the reference. -/
theorem onApply_applies_range {σ ρ : Type} [DecidableEq ρ] (b : Build)
    (dispMatches : Display → Display → Bool) (deref : σ → ρ → Content)
    (m : FilterManager σ ρ) (state : σ) (mOldOutput : Nat → Content) (ref : ρ) (p1 p2 : Nat)
    (hsorted : Ascending m.mFilters) (hrange : p1 ≤ p2) (hlock : m.mLock = false) :
    ((b.internalBuild = false ∨ b.fatalChecks = false) →
      ∃ r, m.onApply b dispMatches deref state mOldOutput ref p1 p2 = .ok r) ∧
    (∀ a, m.onApply b dispMatches deref state mOldOutput ref p1 p2 = .error a →
      a = .fatal ∧ b.internalBuild = true ∧ b.fatalChecks = true) ∧
    (∀ r, m.onApply b dispMatches deref state mOldOutput ref p1 p2 = .ok r →
      r.invoked = invocationsOf (m.mFilters.filter (inRange p1 p2)) state ref ∧
      (∀ i ∈ r.invoked, p1 ≤ i.position ∧ i.position ≤ p2) ∧
      r.ref = (applyIndividually (m.mFilters.filter (inRange p1 p2)) state ref).1 ∧
      r.state = (applyIndividually (m.mFilters.filter (inRange p1 p2)) state ref).2 ∧
      (m.mFilters.filter (inRange p1 p2) = [] → r.ref = ref) ∧
      ((∀ i ∈ r.invoked, i.output = i.input) → r.ref = ref) ∧
      r.manager.mFilters = m.mFilters ∧ r.manager.mLock = false) := by
  have _ := hrange
  refine ⟨?_, ?_, ?_⟩
  · intro hb
    simp only [FilterManager.onApply, SpinLock.lock, hlock]
    obtain ⟨s', hs'⟩ := applyLoop_returns b dispMatches deref p1 p2 m.mFilters hb
      { pRef := ref, state := state, mOldOutput := mOldOutput, invoked := [] }
    by_cases hi : b.internalBuild = true
    · have hf : b.fatalChecks = false := by
        rcases hb with hb | hb
        · rw [hb] at hi; exact absurd hi (by simp)
        · exact hb
      obtain ⟨r, hr⟩ := validateGeometryChange_ok_of_no_checks b dispMatches
        (deref state ref) m.mOldContent hf
      simp [hi, hr, hs']
    · simp [hi, hs']
  · intro a h
    simp only [FilterManager.onApply, SpinLock.lock, hlock] at h
    split at h
    · rename_i a' he
      split at he
      · rename_i hi
        split at he
        · rename_i a'' hv
          simp only [validateGeometryChange] at hv
          split at hv
          · rename_i hc
            simp only [Except.error.injEq] at hv he h
            subst hv he h
            simp only [Bool.and_eq_true] at hc
            exact ⟨rfl, hi, hc.2⟩
          · simp at hv
        · simp at he
      · simp at he
    · simp only [Bool.false_eq_true, if_false] at h
      split at h
      · rename_i a' hl
        simp only [Except.error.injEq] at h
        subst h
        exact applyLoop_error b dispMatches deref p1 p2 m.mFilters _ _ hl
      · simp at h
  · intro r h
    simp only [FilterManager.onApply, SpinLock.lock, hlock] at h
    split at h
    · simp at h
    · simp only [Bool.false_eq_true, if_false] at h
      split at h
      · simp at h
      · rename_i s hl
        simp only [Except.ok.injEq] at h
        subst h
        obtain ⟨h1, h2, h3⟩ := applyLoop_ok b dispMatches deref p1 p2 m.mFilters hsorted _ s hl
        simp only [List.nil_append] at h1
        refine ⟨h1, ?_, h2, h3, ?_, ?_, rfl, rfl⟩
        · intro i hi
          simp only at hi
          rw [h1] at hi
          obtain ⟨e, he, hp, _⟩ := invocationsOf_position _ _ _ i hi
          have := (List.mem_filter.mp he).2
          simp only [inRange, Bool.and_eq_true, decide_eq_true_eq] at this
          rw [hp]; exact this
        · intro hnil
          simp only [h2, hnil, applyIndividually]
        · intro hall
          simp only at hall
          rw [h1] at hall
          simp only [h2]
          exact invocationsOf_all_unchanged _ _ _ hall

theorem onApply_applies_range_witness :
    Ascending threeFilters.mFilters ∧ (2 : Nat) ≤ 3 ∧ threeFilters.mLock = false ∧
    ∃ r, threeFilters.onApply productionBuild (fun _ _ => true) (fun _ _ => []) 0
        (fun _ => []) 0 2 3 = .ok r ∧
      r.ref = 110 ∧ r.invoked.map (fun i => i.filter) = [102, 103] := by
  have h := onApply_applies_range productionBuild (fun _ _ => true) (fun _ _ => [])
    threeFilters 0 (fun _ => []) 0 2 3 (by decide) (by decide) rfl
  obtain ⟨r, hr⟩ := h.1 (Or.inl rfl)
  have hprop := h.2.2 r hr
  refine ⟨by decide, by decide, rfl, r, hr, ?_, ?_⟩
  · rw [hprop.2.2.1]; rfl
  · rw [hprop.1]; rfl

theorem onApply_stopped_by_validator :
    { threeFilters with mOldContent := framesOf 0 0 }.onApply internalBuild sameLayers framesOf
      0 (fun _ => []) 1 2 3 = .error .fatal := rfl

/-! ## Registration -/

/-- C2 (the code at the failing input): in a build that does not define
`uncomment`, adding filters at positions 3, 1 and 2 to the empty registry
leaves the registry empty, and a full-range apply then invokes no filter and
returns its input. -/
theorem add_registers_nothing_without_uncomment :
    ∃ m r, addAll productionBuild (emptyManager Nat Nat)
        [(addingFilter 103 100 false, 3), (addingFilter 101 1 false, 1),
         (addingFilter 102 10 false, 2)] = .ok m ∧
      m.mFilters.length = 0 ∧
      m.onApply productionBuild (fun _ _ => true) (fun _ _ => []) 0 (fun _ => []) 0 0
        maxPosition = .ok r ∧
      r.invoked = [] ∧ r.ref = 0 :=
  ⟨_, _, rfl, rfl, rfl, rfl, rfl⟩

theorem compareFilterPositions_pos_iff {σ ρ : Type} (x e : Entry σ ρ)
    (hx : x.mPosition < 2 ^ 31) (he : e.mPosition < 2 ^ 31) :
    0 < compareFilterPositions x e ↔ e.mPosition < x.mPosition := by
  unfold compareFilterPositions toInt32
  simp only [Nat.reducePow] at *
  split <;> omega

theorem sortInsert_perm {α : Type} (cmp : α → α → Int) (e : α) (l : List α) :
    (sortInsert cmp e l).Perm (e :: l) := by
  induction l with
  | nil => exact List.Perm.refl _
  | cons x xs ih =>
    simp only [sortInsert]
    split
    · exact List.Perm.refl _
    · exact (List.Perm.cons x ih).trans (List.Perm.swap e x xs)

theorem vectorSort_perm {α : Type} (cmp : α → α → Int) (l : List α) :
    (vectorSort cmp l).Perm l := by
  induction l with
  | nil => exact List.Perm.refl _
  | cons x xs ih =>
    simp only [vectorSort]
    exact (sortInsert_perm cmp x _).trans (List.Perm.cons x ih)

theorem sortInsert_ascending {σ ρ : Type} (e : Entry σ ρ) (l : List (Entry σ ρ))
    (he : e.mPosition < 2 ^ 31) (hl : ∀ x ∈ l, x.mPosition < 2 ^ 31) (hs : Ascending l) :
    Ascending (sortInsert compareFilterPositions e l) := by
  induction l with
  | nil => simp [sortInsert, Ascending]
  | cons x xs ih =>
    have hx : x.mPosition < 2 ^ 31 := hl x (List.mem_cons_self _ _)
    have hxs : ∀ y ∈ xs, y.mPosition < 2 ^ 31 := fun y hy => hl y (List.mem_cons_of_mem _ hy)
    have hp := List.pairwise_cons.mp hs
    simp only [sortInsert]
    by_cases hc : 0 < compareFilterPositions x e
    · rw [if_pos hc]
      have hlt := (compareFilterPositions_pos_iff x e hx he).mp hc
      refine List.pairwise_cons.mpr ⟨?_, hs⟩
      intro y hy
      rcases List.mem_cons.mp hy with hy | hy
      · rw [hy]; omega
      · have := hp.1 y hy; omega
    · rw [if_neg hc]
      have hle : x.mPosition ≤ e.mPosition := by
        have := (compareFilterPositions_pos_iff x e hx he).not.mp hc
        omega
      refine List.pairwise_cons.mpr ⟨?_, ih hxs hp.2⟩
      intro y hy
      rcases List.mem_cons.mp ((sortInsert_perm compareFilterPositions e xs).mem_iff.mp hy)
        with hy | hy
      · rw [hy]; exact hle
      · exact hp.1 y hy

theorem vectorSort_ascending {σ ρ : Type} (l : List (Entry σ ρ))
    (hl : ∀ x ∈ l, x.mPosition < 2 ^ 31) :
    Ascending (vectorSort compareFilterPositions l) := by
  induction l with
  | nil => simp [vectorSort, Ascending]
  | cons x xs ih =>
    simp only [vectorSort]
    refine sortInsert_ascending x _ (hl x (List.mem_cons_self _ _)) ?_
      (ih (fun y hy => hl y (List.mem_cons_of_mem _ hy)))
    intro y hy
    exact hl y (List.mem_cons_of_mem _ ((vectorSort_perm compareFilterPositions xs).mem_iff.mp hy))

theorem removeLoop_sublist {σ ρ : Type} (b : Build) (filter : Nat) (l : List (Entry σ ρ)) :
    (removeLoop b filter l).Sublist l := by
  induction l with
  | nil => exact List.Sublist.refl _
  | cons e rest ih =>
    simp only [removeLoop]
    split
    · split
      · exact List.sublist_cons_self _ _
      · exact List.Sublist.refl _
    · exact List.Sublist.cons₂ e ih

theorem add_ok_iff {σ ρ : Type} (b : Build) (m m' : FilterManager σ ρ)
    (filter : AbstractFilter σ ρ) (position : Nat) (hlock : m.mLock = false) :
    m.add b filter position = .ok m' ↔
      ∃ fs, addBody b m.mFilters filter position = .ok fs ∧
        m' = { m with mFilters := fs, mLock := false } := by
  simp only [FilterManager.add, SpinLock.lock, hlock, SpinLock.unlock]
  constructor
  · intro h
    split at h
    · simp at h
    · rename_i held hh
      split at h
      · simp at h
      · rename_i fs hfs
        simp only [Except.ok.injEq] at h
        exact ⟨fs, hfs, h.symm⟩
  · rintro ⟨fs, hfs, rfl⟩
    simp [hfs]

theorem remove_eq {σ ρ : Type} (b : Build) (m : FilterManager σ ρ)
    (filter : AbstractFilter σ ρ) (hlock : m.mLock = false) :
    m.remove b filter =
      .ok { m with mFilters := removeLoop b filter.addr m.mFilters, mLock := false } := by
  simp [FilterManager.remove, SpinLock.lock, hlock, SpinLock.unlock]

theorem addBody_ok {σ ρ : Type} (b : Build) (l fs : List (Entry σ ρ))
    (filter : AbstractFilter σ ρ) (position : Nat)
    (h : addBody b l filter position = .ok fs) :
    fs = if b.uncomment then
      vectorSort compareFilterPositions (l ++ [{ mpFilter := filter, mPosition := position }])
      else l := by
  simp only [addBody] at h
  split at h
  · split at h
    · simp at h
    · split at h
      · simp at h
      · rename_i hu _ _
        simp only [Except.ok.injEq] at h
        rw [if_pos hu, h]
  · rename_i hu
    simp only [Except.ok.injEq] at h
    rw [if_neg hu, h]

theorem addBody_invariant {σ ρ : Type} (b : Build) (l fs : List (Entry σ ρ))
    (filter : AbstractFilter σ ρ) (position : Nat)
    (hpos : b.uncomment = true → position < 2 ^ 31)
    (hs : Ascending l) (hl : b.uncomment = true → ∀ x ∈ l, x.mPosition < 2 ^ 31)
    (h : addBody b l filter position = .ok fs) :
    Ascending fs ∧ (b.uncomment = true → ∀ x ∈ fs, x.mPosition < 2 ^ 31) := by
  have hfs := addBody_ok b l fs filter position h
  by_cases hu : b.uncomment = true
  · rw [if_pos hu] at hfs
    have hall : ∀ x ∈ l ++ [({ mpFilter := filter, mPosition := position } : Entry σ ρ)],
        x.mPosition < 2 ^ 31 := by
      intro x hx
      rcases List.mem_append.mp hx with hx | hx
      · exact hl hu x hx
      · rw [List.mem_singleton.mp hx]; exact hpos hu
    subst hfs
    refine ⟨vectorSort_ascending _ hall, fun _ x hx => ?_⟩
    exact hall x ((vectorSort_perm compareFilterPositions _).mem_iff.mp hx)
  · rw [if_neg hu] at hfs
    subst hfs
    exact ⟨hs, fun h' => absurd h' hu⟩

/-- C4 (counterexample): a filter that outputs physical displays, added at
position 1 below `FilterPosition::DisplayManager = 5`, contradicts its
position, yet `add` returns normally both in a build without `uncomment`
(where nothing is registered) and in a build whose fatal checks are compiled
out (where the filter is registered). -/
theorem add_contradiction_not_fatal :
    contradictsPosition productionBuild (addingFilter 101 1 true) 1 = true ∧
    (∃ m, (emptyManager Nat Nat).add productionBuild (addingFilter 101 1 true) 1 = .ok m ∧
      m.mFilters.length = 0) ∧
    contradictsPosition uncheckedBuild (addingFilter 101 1 true) 1 = true ∧
    (∃ m, (emptyManager Nat Nat).add uncheckedBuild (addingFilter 101 1 true) 1 = .ok m ∧
      m.mFilters.map (fun e => e.mPosition) = [1]) :=
  ⟨rfl, ⟨_, rfl, rfl⟩, rfl, ⟨_, rfl, rfl⟩⟩

theorem addBody_fatal_iff {σ ρ : Type} (b : Build) (l : List (Entry σ ρ))
    (filter : AbstractFilter σ ρ) (position : Nat) (hu : b.uncomment = true) :
    addBody b l filter position = .error .fatal ↔
      (b.fatalChecks = true ∧ contradictsPosition b filter position = true) := by
  simp only [addBody, hu, if_true, contradictsPosition]
  cases b.fatalChecks <;> cases filter.outputsPhysicalDisplays <;>
    by_cases h1 : position < b.displayManager <;>
    by_cases h2 : b.displayManager ≤ position <;> simp [h1, h2]

theorem addBody_error {σ ρ : Type} (b : Build) (l : List (Entry σ ρ))
    (filter : AbstractFilter σ ρ) (position : Nat) (a : Abort)
    (h : addBody b l filter position = .error a) : a = .fatal := by
  simp only [addBody] at h
  split at h
  · split at h
    · simp only [Except.error.injEq] at h; exact h.symm
    · split at h
      · simp only [Except.error.injEq] at h; exact h.symm
      · simp at h
  · simp at h

theorem addAll_with_uncomment {σ ρ : Type} (b : Build)
    (calls : List (AbstractFilter σ ρ × Nat)) (hu : b.uncomment = true)
    (hagree : ∀ c ∈ calls, contradictsPosition b c.1 c.2 = false)
    (hpos : ∀ c ∈ calls, c.2 < 2 ^ 31) :
    ∀ m : FilterManager σ ρ, m.mLock = false → Ascending m.mFilters →
      (∀ x ∈ m.mFilters, x.mPosition < 2 ^ 31) →
      ∃ m', addAll b m calls = .ok m' ∧ m'.mLock = false ∧ Ascending m'.mFilters ∧
        m'.mFilters.Perm (m.mFilters ++ calls.map (fun c => ⟨c.1, c.2⟩)) := by
  induction calls with
  | nil =>
    intro m hlock hs _
    exact ⟨m, rfl, hlock, hs, by simp⟩
  | cons c rest ih =>
    intro m hlock hs hl
    have hc := hagree c (List.mem_cons_self _ _)
    cases hb : addBody b m.mFilters c.1 c.2 with
    | error a =>
      have := addBody_error b _ _ _ _ hb
      subst this
      have := ((addBody_fatal_iff b m.mFilters c.1 c.2 hu).mp hb).2
      rw [hc] at this
      exact absurd this (by simp)
    | ok fs =>
      have hadd := (add_ok_iff b m _ c.1 c.2 hlock).mpr ⟨fs, hb, rfl⟩
      have hinv := addBody_invariant b m.mFilters fs c.1 c.2
        (fun _ => hpos c (List.mem_cons_self _ _)) hs (fun _ => hl) hb
      have hfs := addBody_ok b _ _ _ _ hb
      rw [if_pos hu] at hfs
      obtain ⟨m', hm', h1, h2, h3⟩ := ih (fun x hx => hagree x (List.mem_cons_of_mem _ hx))
        (fun x hx => hpos x (List.mem_cons_of_mem _ hx))
        { m with mFilters := fs, mLock := false } rfl hinv.1 (hinv.2 hu)
      refine ⟨m', ?_, h1, h2, ?_⟩
      · simp only [addAll, hadd, hm']
      · refine h3.trans ?_
        simp only [List.map_cons]
        rw [hfs]
        have := vectorSort_perm (compareFilterPositions (σ := σ) (ρ := ρ))
          (m.mFilters ++ [{ mpFilter := c.1, mPosition := c.2 }])
        refine (List.Perm.append_right _ this).trans ?_
        simp

theorem add_sorts_with_uncomment :
    ∃ m r, addAll uncheckedBuild (emptyManager Nat Nat)
        [(addingFilter 103 100 false, 3), (addingFilter 101 1 false, 1),
         (addingFilter 102 10 false, 2)] = .ok m ∧
      m.onApply uncheckedBuild (fun _ _ => true) (fun _ _ => []) 0 (fun _ => []) 0 0
        maxPosition = .ok r ∧
      r.invoked.map (fun i => i.position) = [1, 2, 3] ∧ r.ref = 111 :=
  ⟨_, _, rfl, rfl, rfl, rfl⟩

/-- C4 (amended): in a build that compiles the registration block, `add` on a
free lock fails only fatally, and it does so exactly when the fatal checks
stop the process and the filter's output space contradicts its position; then
no manager state is returned (the filter is not registered). Otherwise `add`
succeeds, the lock is free again, and the registry is a rearrangement of the
old entries and the new one. -/
theorem add_fatal_iff_contradiction {σ ρ : Type} (b : Build) (m : FilterManager σ ρ)
    (filter : AbstractFilter σ ρ) (position : Nat)
    (hu : b.uncomment = true) (hlock : m.mLock = false) :
    (m.add b filter position = .error .fatal ↔
      (b.fatalChecks = true ∧ contradictsPosition b filter position = true)) ∧
    (∀ a, m.add b filter position = .error a → a = .fatal) ∧
    ((b.fatalChecks = true ∧ contradictsPosition b filter position = true) →
      ∀ m', m.add b filter position ≠ .ok m') ∧
    (¬ (b.fatalChecks = true ∧ contradictsPosition b filter position = true) →
      ∃ m', m.add b filter position = .ok m' ∧ m'.mLock = false ∧
        m'.mFilters.Perm (m.mFilters ++ [{ mpFilter := filter, mPosition := position }])) := by
  have hadd : m.add b filter position =
      match addBody b m.mFilters filter position with
      | .error a => .error a
      | .ok fs => .ok { m with mFilters := fs, mLock := false } := by
    simp [FilterManager.add, SpinLock.lock, hlock, SpinLock.unlock]
  have hfatal : m.add b filter position = .error .fatal ↔
      (b.fatalChecks = true ∧ contradictsPosition b filter position = true) := by
    rw [← addBody_fatal_iff b m.mFilters filter position hu, hadd]
    constructor
    · intro h
      split at h
      · rename_i a ha
        simp only [Except.error.injEq] at h
        rw [ha, h]
      · simp at h
    · intro h
      rw [h]
  refine ⟨hfatal, ?_, ?_, ?_⟩
  · intro a h
    rw [hadd] at h
    split at h
    · rename_i a' ha'
      simp only [Except.error.injEq] at h
      subst h
      exact addBody_error b _ _ _ _ ha'
    · simp at h
  · intro hc m' h
    rw [hfatal.mpr hc] at h
    simp at h
  · intro hc
    cases hb : addBody b m.mFilters filter position with
    | error a =>
      have := addBody_error b _ _ _ _ hb
      subst this
      exact absurd ((addBody_fatal_iff b m.mFilters filter position hu).mp hb) hc
    | ok fs =>
      refine ⟨{ m with mFilters := fs, mLock := false }, ?_, rfl, ?_⟩
      · rw [hadd, hb]
      · have := addBody_ok b _ _ _ _ hb
        rw [if_pos hu] at this
        simp only
        rw [this]
        exact vectorSort_perm _ _

theorem add_fatal_iff_contradiction_witness :
    checkedBuild.uncomment = true ∧ (emptyManager Nat Nat).mLock = false ∧
    (emptyManager Nat Nat).add checkedBuild (addingFilter 101 1 true) 1 = .error .fatal ∧
    ∃ m', (emptyManager Nat Nat).add checkedBuild (addingFilter 101 1 false) 1 = .ok m' ∧
      m'.mLock = false := by
  have h1 := add_fatal_iff_contradiction checkedBuild (emptyManager Nat Nat)
    (addingFilter 101 1 true) 1 rfl rfl
  have h2 := add_fatal_iff_contradiction checkedBuild (emptyManager Nat Nat)
    (addingFilter 101 1 false) 1 rfl rfl
  obtain ⟨m', hm', hl, _⟩ := h2.2.2.2 (by decide)
  exact ⟨rfl, rfl, h1.1.mpr (by decide), m', hm', hl⟩

/-- C5 (counterexample): in a build that compiles `removeAt`, removing a filter
registered at positions 1 and 3 leaves the entry at position 3, which still
refers to the filter; in a build without `uncomment`, removing the only
registered filter leaves its entry in the registry. -/
theorem remove_leaves_entry_of_filter :
    (∃ m, twiceRegistered.remove checkedBuild (addingFilter 101 1 false) = .ok m ∧
      m.mFilters.map (fun e => (e.mpFilter.addr, e.mPosition)) = [(102, 2), (101, 3)]) ∧
    (∃ m, threeFilters.remove productionBuild (addingFilter 101 1 false) = .ok m ∧
      m.mFilters.map (fun e => (e.mpFilter.addr, e.mPosition)) =
        [(101, 1), (102, 2), (103, 3)]) :=
  ⟨⟨_, rfl, rfl⟩, ⟨_, rfl, rfl⟩⟩

theorem removeLoop_others {σ ρ : Type} (b : Build) (filter : Nat) (l : List (Entry σ ρ)) :
    (removeLoop b filter l).filter (fun e => !refersTo filter e) =
      l.filter (fun e => !refersTo filter e) := by
  induction l with
  | nil => rfl
  | cons e rest ih =>
    simp only [removeLoop]
    by_cases h : e.mpFilter.addr = filter
    · rw [if_pos h]
      split
      · rw [List.filter_cons_of_neg (by simp [refersTo, h])]
      · rfl
    · rw [if_neg h, List.filter_cons_of_pos (by simp [refersTo, h]),
        List.filter_cons_of_pos (by simp [refersTo, h]), ih]

theorem removeLoop_absent {σ ρ : Type} (b : Build) (filter : Nat) (l : List (Entry σ ρ))
    (h : ∀ e ∈ l, e.mpFilter.addr ≠ filter) : removeLoop b filter l = l := by
  induction l with
  | nil => rfl
  | cons e rest ih =>
    simp only [removeLoop]
    rw [if_neg (h e (List.mem_cons_self _ _)), ih (fun x hx => h x (List.mem_cons_of_mem _ hx))]

theorem removeLoop_count {σ ρ : Type} (b : Build) (filter : Nat) (l : List (Entry σ ρ))
    (hu : b.uncomment = true) :
    (removeLoop b filter l).countP (refersTo filter) = l.countP (refersTo filter) - 1 := by
  induction l with
  | nil => rfl
  | cons e rest ih =>
    simp only [removeLoop]
    by_cases h : e.mpFilter.addr = filter
    · rw [if_pos h, if_pos hu, List.countP_cons_of_pos _ _ (by simp [refersTo, h])]
      omega
    · rw [if_neg h, List.countP_cons_of_neg _ _ (by simp [refersTo, h]),
        List.countP_cons_of_neg _ _ (by simp [refersTo, h]), ih]

theorem removeLoop_eq_eraseP {σ ρ : Type} (b : Build) (filter : Nat) (l : List (Entry σ ρ))
    (hu : b.uncomment = true) : removeLoop b filter l = l.eraseP (refersTo filter) := by
  induction l with
  | nil => rfl
  | cons e rest ih =>
    simp only [removeLoop]
    by_cases h : e.mpFilter.addr = filter
    · rw [if_pos h, if_pos hu, List.eraseP_cons_of_pos (by simp [refersTo, h])]
    · rw [if_neg h, List.eraseP_cons_of_neg (by simp [refersTo, h]), ih]

theorem removeLoop_first {σ ρ : Type} (b : Build) (filter : Nat)
    (before after : List (Entry σ ρ)) (e : Entry σ ρ) (hu : b.uncomment = true)
    (he : e.mpFilter.addr = filter) (hbefore : ∀ x ∈ before, x.mpFilter.addr ≠ filter) :
    removeLoop b filter (before ++ e :: after) = before ++ after := by
  induction before with
  | nil => simp [removeLoop, he, hu]
  | cons x xs ih =>
    have hx := hbefore x (List.mem_cons_self _ _)
    have ih' := ih (fun y hy => hbefore y (List.mem_cons_of_mem _ hy))
    rw [List.cons_append, removeLoop, if_neg hx, ih']
    rfl

/-- C5 (amended): `remove(filter)` on a free lock returns with the lock free;
the registry afterwards is a sublist of the one before, the entries that do
not refer to the filter are all kept in their original relative order, and a
filter that is not registered leaves the registry unchanged. In a build that
compiles `removeAt`, exactly the first entry referring to the filter is taken
out: if the registry is `before ++ e :: after` with `e` the first entry that
refers to the filter, the registry afterwards is `before ++ after`; the number
of entries referring to the filter drops by one, so that none is left when the
filter was registered at most once. -/
theorem remove_takes_first_entry {σ ρ : Type} (b : Build) (m : FilterManager σ ρ)
    (filter : AbstractFilter σ ρ) (hlock : m.mLock = false) :
    ∃ m', m.remove b filter = .ok m' ∧ m'.mLock = false ∧
      m'.mFilters.Sublist m.mFilters ∧
      m'.mFilters.filter (fun e => !refersTo filter.addr e) =
        m.mFilters.filter (fun e => !refersTo filter.addr e) ∧
      ((∀ e ∈ m.mFilters, e.mpFilter.addr ≠ filter.addr) → m'.mFilters = m.mFilters) ∧
      (b.uncomment = true →
        m'.mFilters.countP (refersTo filter.addr) =
          m.mFilters.countP (refersTo filter.addr) - 1) ∧
      (b.uncomment = true → m.mFilters.countP (refersTo filter.addr) ≤ 1 →
        ∀ e ∈ m'.mFilters, e.mpFilter.addr ≠ filter.addr) ∧
      (b.uncomment = true →
        ∀ (before after : List (Entry σ ρ)) (e : Entry σ ρ),
          m.mFilters = before ++ e :: after → e.mpFilter.addr = filter.addr →
          (∀ x ∈ before, x.mpFilter.addr ≠ filter.addr) →
          m'.mFilters = before ++ after) ∧
      (b.uncomment = true → m'.mFilters = m.mFilters.eraseP (refersTo filter.addr)) := by
  refine ⟨_, remove_eq b m filter hlock, rfl, removeLoop_sublist _ _ _,
    removeLoop_others _ _ _, removeLoop_absent _ _ _, removeLoop_count _ _ _, ?_, ?_, ?_⟩
  · intro hu hle e he hrefers
    have hc := removeLoop_count b filter.addr m.mFilters hu
    have hpos : 0 < (removeLoop b filter.addr m.mFilters).countP (refersTo filter.addr) :=
      List.countP_pos_iff.mpr ⟨e, he, by simp [refersTo, hrefers]⟩
    omega
  · intro hu before after e hm he hbefore
    simp only
    rw [hm]
    exact removeLoop_first b filter.addr before after e hu he hbefore
  · intro hu
    exact removeLoop_eq_eraseP b filter.addr m.mFilters hu

theorem remove_takes_first_entry_witness :
    twiceRegistered.mLock = false ∧
    ∃ m', twiceRegistered.remove checkedBuild (addingFilter 101 1 false) = .ok m' ∧
      m'.mFilters.map (fun e => (e.mpFilter.addr, e.mPosition)) = [(102, 2), (101, 3)] := by
  obtain ⟨m', hm', _, _, _, _, _, _, hfirst, _⟩ :=
    remove_takes_first_entry checkedBuild twiceRegistered (addingFilter 101 1 false) rfl
  refine ⟨rfl, m', hm', ?_⟩
  rw [hfirst rfl [] [⟨addingFilter 102 10 false, 2⟩, ⟨addingFilter 101 1 false, 3⟩]
    ⟨addingFilter 101 1 false, 1⟩ rfl rfl (by simp)]
  rfl

/-! ## Bounding box -/

theorem foldl_extendBox_bounds (l : List HwcRect) (acc : HwcRect) :
    ((l.foldl extendBox acc).left ≤ acc.left ∧ ∀ r ∈ l, (l.foldl extendBox acc).left ≤ r.left) ∧
    ((l.foldl extendBox acc).top ≤ acc.top ∧ ∀ r ∈ l, (l.foldl extendBox acc).top ≤ r.top) ∧
    (acc.right ≤ (l.foldl extendBox acc).right ∧
      ∀ r ∈ l, r.right ≤ (l.foldl extendBox acc).right) ∧
    (acc.bottom ≤ (l.foldl extendBox acc).bottom ∧
      ∀ r ∈ l, r.bottom ≤ (l.foldl extendBox acc).bottom) := by
  induction l generalizing acc with
  | nil => simp
  | cons x xs ih =>
    obtain ⟨⟨h1, h1'⟩, ⟨h2, h2'⟩, ⟨h3, h3'⟩, ⟨h4, h4'⟩⟩ := ih (extendBox acc x)
    simp only [List.foldl_cons, List.mem_cons, forall_eq_or_imp]
    have e1 : (extendBox acc x).left = min acc.left x.left := rfl
    have e2 : (extendBox acc x).top = min acc.top x.top := rfl
    have e3 : (extendBox acc x).right = max acc.right x.right := rfl
    have e4 : (extendBox acc x).bottom = max acc.bottom x.bottom := rfl
    refine ⟨⟨?_, ?_, h1'⟩, ⟨?_, ?_, h2'⟩, ⟨?_, ?_, h3'⟩, ⟨?_, ?_, h4'⟩⟩ <;> omega

theorem foldl_extendBox_attained (l : List HwcRect) (acc : HwcRect) :
    (∃ r ∈ acc :: l, (l.foldl extendBox acc).left = r.left) ∧
    (∃ r ∈ acc :: l, (l.foldl extendBox acc).top = r.top) ∧
    (∃ r ∈ acc :: l, (l.foldl extendBox acc).right = r.right) ∧
    (∃ r ∈ acc :: l, (l.foldl extendBox acc).bottom = r.bottom) := by
  induction l generalizing acc with
  | nil => exact ⟨⟨acc, by simp, rfl⟩, ⟨acc, by simp, rfl⟩, ⟨acc, by simp, rfl⟩, ⟨acc, by simp, rfl⟩⟩
  | cons x xs ih =>
    obtain ⟨⟨r1, m1, e1⟩, ⟨r2, m2, e2⟩, ⟨r3, m3, e3⟩, ⟨r4, m4, e4⟩⟩ := ih (extendBox acc x)
    simp only [List.foldl_cons]
    refine ⟨?_, ?_, ?_, ?_⟩
    · rcases List.mem_cons.mp m1 with h | h
      · subst h
        rcases min_choice acc.left x.left with hc | hc
        · exact ⟨acc, by simp, by rw [e1]; exact hc⟩
        · exact ⟨x, by simp, by rw [e1]; exact hc⟩
      · exact ⟨r1, by simp [h], e1⟩
    · rcases List.mem_cons.mp m2 with h | h
      · subst h
        rcases min_choice acc.top x.top with hc | hc
        · exact ⟨acc, by simp, by rw [e2]; exact hc⟩
        · exact ⟨x, by simp, by rw [e2]; exact hc⟩
      · exact ⟨r2, by simp [h], e2⟩
    · rcases List.mem_cons.mp m3 with h | h
      · subst h
        rcases max_choice acc.right x.right with hc | hc
        · exact ⟨acc, by simp, by rw [e3]; exact hc⟩
        · exact ⟨x, by simp, by rw [e3]; exact hc⟩
      · exact ⟨r3, by simp [h], e3⟩
    · rcases List.mem_cons.mp m4 with h | h
      · subst h
        rcases max_choice acc.bottom x.bottom with hc | hc
        · exact ⟨acc, by simp, by rw [e4]; exact hc⟩
        · exact ⟨x, by simp, by rw [e4]; exact hc⟩
      · exact ⟨r4, by simp [h], e4⟩

/-- C6: for a layer with at least one visible region,
`getVisibleRegionBoundingBox` returns a rectangle whose left and top are the
minimum left and top over the regions (a lower bound that one region attains)
and whose right and bottom are the maximum right and bottom (an upper bound
that one region attains); it contains every region, and every rectangle that
contains every region contains it. -/
theorem boundingBox_is_smallest_cover (layer : Layer) (h : layer.mVisibleRegions ≠ []) :
    ∃ box, getVisibleRegionBoundingBox layer = .ok box ∧
      ((∀ r ∈ layer.mVisibleRegions, box.left ≤ r.left) ∧
        ∃ r ∈ layer.mVisibleRegions, box.left = r.left) ∧
      ((∀ r ∈ layer.mVisibleRegions, box.top ≤ r.top) ∧
        ∃ r ∈ layer.mVisibleRegions, box.top = r.top) ∧
      ((∀ r ∈ layer.mVisibleRegions, r.right ≤ box.right) ∧
        ∃ r ∈ layer.mVisibleRegions, box.right = r.right) ∧
      ((∀ r ∈ layer.mVisibleRegions, r.bottom ≤ box.bottom) ∧
        ∃ r ∈ layer.mVisibleRegions, box.bottom = r.bottom) ∧
      (∀ r ∈ layer.mVisibleRegions, box.contains r) ∧
      (∀ c : HwcRect, (∀ r ∈ layer.mVisibleRegions, c.contains r) → c.contains box) := by
  cases hv : layer.mVisibleRegions with
  | nil => exact absurd hv h
  | cons r0 rest =>
    obtain ⟨⟨b1, b1'⟩, ⟨b2, b2'⟩, ⟨b3, b3'⟩, ⟨b4, b4'⟩⟩ := foldl_extendBox_bounds rest r0
    obtain ⟨a1, a2, a3, a4⟩ := foldl_extendBox_attained rest r0
    have hl : ∀ r ∈ r0 :: rest, (rest.foldl extendBox r0).left ≤ r.left := by
      intro r hr; rcases List.mem_cons.mp hr with e | e
      · rw [e]; exact b1
      · exact b1' r e
    have ht : ∀ r ∈ r0 :: rest, (rest.foldl extendBox r0).top ≤ r.top := by
      intro r hr; rcases List.mem_cons.mp hr with e | e
      · rw [e]; exact b2
      · exact b2' r e
    have hr : ∀ r ∈ r0 :: rest, r.right ≤ (rest.foldl extendBox r0).right := by
      intro r hr; rcases List.mem_cons.mp hr with e | e
      · rw [e]; exact b3
      · exact b3' r e
    have hb : ∀ r ∈ r0 :: rest, r.bottom ≤ (rest.foldl extendBox r0).bottom := by
      intro r hr; rcases List.mem_cons.mp hr with e | e
      · rw [e]; exact b4
      · exact b4' r e
    refine ⟨rest.foldl extendBox r0, ?_, ⟨hl, a1⟩, ⟨ht, a2⟩, ⟨hr, a3⟩, ⟨hb, a4⟩, ?_, ?_⟩
    · simp [getVisibleRegionBoundingBox, hv]
    · intro r hm
      exact ⟨hl r hm, ht r hm, hr r hm, hb r hm⟩
    · intro c hc
      obtain ⟨r1, m1, e1⟩ := a1
      obtain ⟨r2, m2, e2⟩ := a2
      obtain ⟨r3, m3, e3⟩ := a3
      obtain ⟨r4, m4, e4⟩ := a4
      refine ⟨?_, ?_, ?_, ?_⟩
      · rw [e1]; exact (hc r1 m1).1
      · rw [e2]; exact (hc r2 m2).2.1
      · rw [e3]; exact (hc r3 m3).2.2.1
      · rw [e4]; exact (hc r4 m4).2.2.2

theorem boundingBox_is_smallest_cover_witness :
    scenarioB.mVisibleRegions ≠ [] ∧
    getVisibleRegionBoundingBox scenarioB = .ok ⟨10, 10, 90, 90⟩ ∧
    ∀ r ∈ scenarioB.mVisibleRegions, (⟨10, 10, 90, 90⟩ : HwcRect).contains r := by
  have hne : scenarioB.mVisibleRegions ≠ [] := by decide
  obtain ⟨box, hbox, _, _, _, _, hcontains, _⟩ := boundingBox_is_smallest_cover scenarioB hne
  have hval : getVisibleRegionBoundingBox scenarioB = .ok ⟨10, 10, 90, 90⟩ := rfl
  rw [hval] at hbox
  simp only [Except.ok.injEq] at hbox
  rw [← hbox] at hcontains
  exact ⟨hne, hval, hcontains⟩

/-! ## The layer loop of VisibleRectFilter -/

theorem getElem?_append_length {α : Type} (done rest : List α) (x : α) :
    (done ++ x :: rest)[done.length]? = some x := by
  induction done with
  | nil => simp
  | cons a as ih => simpa using ih

theorem getElem?_length_self {α : Type} (done : List α) : done[done.length]? = none := by
  simp

theorem set_append_length {α : Type} (done rest : List α) (x c : α) :
    (done ++ x :: rest).set done.length c = done ++ c :: rest := by
  induction done with
  | nil => rfl
  | cons a as ih => simp

theorem eraseIdx_append_length {α : Type} (done rest : List α) (x : α) :
    (done ++ x :: rest).eraseIdx done.length = done ++ rest := by
  induction done with
  | nil => rfl
  | cons a as ih => simpa using ih

theorem boundingBox_ok_of_regions (layer : Layer) (h : layer.mVisibleRegions ≠ []) :
    ∃ box, getVisibleRegionBoundingBox layer = .ok box := by
  cases hv : layer.mVisibleRegions with
  | nil => exact absurd hv h
  | cons r0 rest => exact ⟨rest.foldl extendBox r0, by simp [getVisibleRegionBoundingBox, hv]⟩

theorem layerLoop_spec (clip : Layer → HwcRect → Layer × Bool) (todo : List Layer) :
    ∀ (n : Nat) (done mLayers : List Layer) (bModified : Bool),
      todo.length ≤ n →
      (∀ l ∈ todo, l.mVisibleRegions ≠ []) →
      (done.length + todo.length ≤ mLayers.length ∨ ∀ l ∈ todo, dstIsBox l = true) →
      ∃ s, layerLoop clip n done.length
          { layerStack := done ++ todo, mLayers := mLayers, bModified := bModified } = .ok s ∧
        s.layerStack = done ++ todo.filterMap (layerStep clip) ∧
        s.bModified = (bModified || todo.any (fun l => !dstIsBox l)) ∧
        s.mLayers.length = mLayers.length := by
  induction todo with
  | nil =>
    intro n done mLayers bModified _ _ _
    refine ⟨{ layerStack := done ++ [], mLayers := mLayers, bModified := bModified }, ?_, ?_, ?_, rfl⟩
    · cases n with
      | zero => simp [layerLoop]
      | succ k => simp [layerLoop]
    · simp
    · simp
  | cons x rest ih =>
    intro n done mLayers bModified hn hregions hscratch
    obtain ⟨box, hbox⟩ := boundingBox_ok_of_regions x (hregions x (List.mem_cons_self _ _))
    have hregions' : ∀ l ∈ rest, l.mVisibleRegions ≠ [] :=
      fun l hl => hregions l (List.mem_cons_of_mem _ hl)
    cases n with
    | zero => simp at hn
    | succ k =>
      have hk : rest.length ≤ k := by simp only [List.length_cons] at hn; omega
      simp only [layerLoop, getElem?_append_length, hbox]
      by_cases hd : x.mDst = box
      · have hx : dstIsBox x = true := by simp [dstIsBox, hbox, hd]
        have hscratch' : (done ++ [x]).length + rest.length ≤ mLayers.length ∨
            ∀ l ∈ rest, dstIsBox l = true := by
          rcases hscratch with h | h
          · left; simp only [List.length_append, List.length_cons, List.length_nil] at h ⊢; omega
          · right; exact fun l hl => h l (List.mem_cons_of_mem _ hl)
        obtain ⟨s, hs, h1, h2, h3⟩ := ih k (done ++ [x]) mLayers bModified hk hregions' hscratch'
        refine ⟨s, ?_, ?_, ?_, h3⟩
        · rw [if_pos hd]
          simpa using hs
        · rw [h1]; simp [layerStep, hbox, hd]
        · rw [h2]; simp [hx]
      · have hx : dstIsBox x = false := by simp [dstIsBox, hbox, hd]
        have hlen : done.length + (x :: rest).length ≤ mLayers.length := by
          rcases hscratch with h | h
          · exact h
          · have := h x (List.mem_cons_self _ _)
            rw [hx] at this; exact absurd this (by simp)
        have hly : done.length < mLayers.length := by
          simp only [List.length_cons] at hlen; omega
        rw [if_neg hd, if_pos hly]
        by_cases hv : (clip (Layer.onUpdateFrameState x x) box).2 = true
        · rw [if_pos hv, set_append_length]
          have hscratch' : (done ++ [(clip (Layer.onUpdateFrameState x x) box).1]).length +
              rest.length ≤ (mLayers.set done.length
                (clip (Layer.onUpdateFrameState x x) box).1).length ∨
              ∀ l ∈ rest, dstIsBox l = true := by
            left
            simp only [List.length_append, List.length_cons, List.length_nil,
              List.length_set] at hlen ⊢
            omega
          obtain ⟨s, hs, h1, h2, h3⟩ := ih k
            (done ++ [(clip (Layer.onUpdateFrameState x x) box).1])
            (mLayers.set done.length (clip (Layer.onUpdateFrameState x x) box).1) true hk
            hregions' hscratch'
          refine ⟨s, ?_, ?_, ?_, ?_⟩
          · simpa using hs
          · rw [h1]; simp [layerStep, hbox, hd, hv]
          · rw [h2]; simp [hx]
          · rw [h3]; simp
        · rw [if_neg hv, eraseIdx_append_length]
          have hscratch' : done.length + rest.length ≤ (mLayers.set done.length
                (clip (Layer.onUpdateFrameState x x) box).1).length ∨
              ∀ l ∈ rest, dstIsBox l = true := by
            left
            simp only [List.length_cons, List.length_set] at hlen ⊢
            omega
          obtain ⟨s, hs, h1, h2, h3⟩ := ih k done
            (mLayers.set done.length (clip (Layer.onUpdateFrameState x x) box).1) true hk
            hregions' hscratch'
          refine ⟨s, hs, ?_, ?_, ?_⟩
          · rw [h1]; simp [layerStep, hbox, hd, hv]
          · rw [h2]; simp [hx]
          · rw [h3]; simp

theorem vectorResize_length (mLayers : List Layer) (layerCount : Nat) :
    (vectorResize true mLayers layerCount).length = layerCount := by
  simp only [vectorResize]
  by_cases h2 : layerCount ≤ mLayers.length
  · simp [h2]
  · simp [h2]; omega

theorem displayStatePrepare_length (mLayers : List Layer) (layerCount : Nat) :
    (displayStatePrepare true mLayers layerCount).2.length = layerCount := by
  simp only [displayStatePrepare]
  by_cases h : mLayers.length = layerCount
  · simp [h]
  · rw [if_pos h]
    simp only [vectorResize_length, Nat.lt_irrefl, if_false]

theorem dstIsBox_iff (layer : Layer) :
    dstIsBox layer = true ↔ getVisibleRegionBoundingBox layer = .ok layer.mDst := by
  unfold dstIsBox
  split
  · rename_i box hbox
    simp only [decide_eq_true_eq, hbox, Except.ok.injEq]
    exact ⟨fun h => h.symm, fun h => h.symm⟩
  · rename_i a ha
    simp [ha]

theorem layerStep_of_dstIsBox (clip : Layer → HwcRect → Layer × Bool) (layer : Layer)
    (h : dstIsBox layer = true) : layerStep clip layer = some layer := by
  have := (dstIsBox_iff layer).mp h
  simp [layerStep, this]

theorem filterMap_layerStep_of_dstIsBox (clip : Layer → HwcRect → Layer × Bool)
    (l : List Layer) (h : ∀ x ∈ l, dstIsBox x = true) : l.filterMap (layerStep clip) = l := by
  induction l with
  | nil => rfl
  | cons x xs ih =>
    rw [List.filterMap_cons, layerStep_of_dstIsBox clip x (h x (List.mem_cons_self _ _))]
    simp only
    rw [ih (fun y hy => h y (List.mem_cons_of_mem _ hy))]

theorem displayStep_of_not_needsClipping (clip : Layer → HwcRect → Layer × Bool)
    (display : Display) (h : needsClipping display = false) :
    displayStep clip display = display := by
  unfold displayStep
  by_cases he : display.mbEnabled = true
  · rw [if_pos he]
    have hall : ∀ x ∈ display.mLayerStack, dstIsBox x = true := by
      intro x hx
      simp only [needsClipping, he, Bool.true_and, List.any_eq_false, Bool.not_eq_true',
        Bool.not_eq_false] at h
      simpa using h x hx
    rw [filterMap_layerStep_of_dstIsBox clip _ hall]
  · rw [if_neg he]

theorem allDstAreBoxes_iff (ref : Content) :
    AllDstAreBoxes ref ↔ ref.any needsClipping = false := by
  simp only [AllDstAreBoxes, List.any_eq_false, needsClipping, Bool.and_eq_true, List.any_eq_true,
    Bool.not_eq_true', not_and, not_exists, ← dstIsBox_iff]
  constructor
  · intro h d hd he x hx
    have := h d hd he x hx
    simp [this]
  · intro h d hd he x hx
    have := h d hd he x hx
    simpa using this

theorem displayLoop_spec (clip : Layer → HwcRect → Layer × Bool) (alloc : Nat → Bool)
    (displays : List Display) :
    ∀ (d : Nat) (mDisplayState : Nat → List Layer) (bModified : Bool),
      HasVisibleRegions displays →
      ((∀ i, alloc i = true) ∨ displays.any needsClipping = false) →
      ∃ p, displayLoop clip alloc displays d mDisplayState bModified = .ok p ∧
        p.displays = displays.map (displayStep clip) ∧
        p.bModified = (bModified || displays.any needsClipping) := by
  induction displays with
  | nil =>
    intro d mDisplayState bModified _ _
    exact ⟨_, rfl, rfl, by simp⟩
  | cons display rest ih =>
    intro d mDisplayState bModified hw ha
    have hw' : HasVisibleRegions rest := fun x hx => hw x (List.mem_cons_of_mem _ hx)
    have ha' : (∀ i, alloc i = true) ∨ rest.any needsClipping = false := by
      rcases ha with h | h
      · exact Or.inl h
      · right
        simp only [List.any_cons, Bool.or_eq_false_iff] at h
        exact h.2
    simp only [displayLoop]
    by_cases he : display.mbEnabled = true
    · rw [if_pos he]
      have hscratch : ([] : List Layer).length + display.mLayerStack.length ≤
          (displayStatePrepare (alloc d) (mDisplayState d) display.mLayerStack.length).2.length ∨
          ∀ l ∈ display.mLayerStack, dstIsBox l = true := by
        rcases ha with h | h
        · left
          rw [h d, displayStatePrepare_length]
          simp
        · right
          intro l hl
          simp only [List.any_cons, Bool.or_eq_false_iff] at h
          have h1 := h.1
          simp only [needsClipping, he, Bool.true_and, List.any_eq_false, Bool.not_eq_true',
            Bool.not_eq_false] at h1
          simpa using h1 l hl
      obtain ⟨s, hs, h1, h2, _⟩ := layerLoop_spec clip display.mLayerStack
        display.mLayerStack.length []
        (displayStatePrepare (alloc d) (mDisplayState d) display.mLayerStack.length).2
        bModified (Nat.le_refl _) (hw display (List.mem_cons_self _ _) he) hscratch
      simp only [List.length_nil, List.nil_append] at hs h1
      rw [hs]
      obtain ⟨p, hp, hp1, hp2⟩ := ih (d + 1)
        (fun i => if i = d then s.mLayers else mDisplayState i) s.bModified hw' ha'
      simp only [hp]
      refine ⟨_, rfl, ?_, ?_⟩
      · simp only [List.map_cons, hp1, h1, displayStep, he, if_true]
      · simp only [hp2, h2, List.any_cons, needsClipping, he, Bool.true_and, Bool.or_assoc]
    · rw [if_neg he]
      obtain ⟨p, hp, hp1, hp2⟩ := ih (d + 1) mDisplayState bModified hw' ha'
      simp only [hp]
      refine ⟨_, rfl, ?_, ?_⟩
      · simp only [List.map_cons, hp1, displayStep, he]
        simp
      · have hf : display.mbEnabled = false := by simpa using he
        simp only [hp2, List.any_cons, needsClipping, hf, Bool.false_and, Bool.false_or]

theorem map_displayStep_of_allDstAreBoxes (clip : Layer → HwcRect → Layer × Bool)
    (ref : Content) (h : ref.any needsClipping = false) : ref.map (displayStep clip) = ref := by
  induction ref with
  | nil => rfl
  | cons d rest ih =>
    simp only [List.any_cons, Bool.or_eq_false_iff] at h
    rw [List.map_cons, displayStep_of_not_needsClipping clip d h.1, ih h.2]

theorem onApply_spec (clip : Layer → HwcRect → Layer × Bool) (alloc : Nat → Bool)
    (self : VisibleRectFilter) (ref : Content) (hw : HasVisibleRegions ref)
    (ha : (∀ i, alloc i = true) ∨ ref.any needsClipping = false) :
    ∃ r, self.onApply clip alloc ref = .ok r ∧
      r.returnsInput = !(ref.any needsClipping) ∧
      r.content = ref.map (displayStep clip) ∧
      (ref.any needsClipping = false → r.self.mReference = []) ∧
      (ref.any needsClipping = true → r.self.mReference = r.content) := by
  obtain ⟨p, hp, hp1, hp2⟩ := displayLoop_spec clip alloc ref 0 self.mDisplayState false hw ha
  simp only [Bool.false_or] at hp2
  simp only [VisibleRectFilter.onApply, hp]
  by_cases hm : ref.any needsClipping = true
  · have hpm : p.bModified = true := by rw [hp2, hm]
    rw [if_neg (by simp [hpm])]
    refine ⟨_, rfl, by simp [hm], hp1, ?_, ?_⟩
    · intro h; rw [hm] at h; exact absurd h (by simp)
    · intro _; rfl
  · have hm' : ref.any needsClipping = false := by simpa using hm
    have hpm : p.bModified = false := by rw [hp2, hm']
    rw [if_pos hpm]
    refine ⟨_, rfl, by simp [hm'], ?_, ?_, ?_⟩
    · simp only
      rw [map_displayStep_of_allDstAreBoxes clip ref hm']
    · intro _
      simp only
      split
      · rfl
      · rename_i hl
        simp only [ne_eq, Decidable.not_not] at hl
        exact List.eq_nil_of_length_eq_zero hl
    · intro h; rw [hm'] at h; exact absurd h (by simp)

/-- C7: for a content whose layers in enabled displays each have a visible
region, and with the scratch arrays growable whenever some layer has to be
clipped, `VisibleRectFilter::onApply` returns, and it returns the input
reference exactly when in every enabled display every layer's destination
equals its bounding box; in that case the content behind the returned
reference is the input and the filter's own content has size zero afterwards,
and otherwise the returned reference is the filter's own content. -/
theorem onApply_returns_input_iff (clip : Layer → HwcRect → Layer × Bool)
    (alloc : Nat → Bool) (self : VisibleRectFilter) (ref : Content)
    (hw : HasVisibleRegions ref) (ha : ¬ AllDstAreBoxes ref → ∀ i, alloc i = true) :
    ∃ r, self.onApply clip alloc ref = .ok r ∧
      (r.returnsInput = true ↔ AllDstAreBoxes ref) ∧
      (AllDstAreBoxes ref → r.content = ref ∧ r.self.mReference.length = 0) ∧
      (¬ AllDstAreBoxes ref → r.returnsInput = false ∧ r.self.mReference = r.content) := by
  have ha' : (∀ i, alloc i = true) ∨ ref.any needsClipping = false := by
    by_cases h : AllDstAreBoxes ref
    · exact Or.inr ((allDstAreBoxes_iff ref).mp h)
    · exact Or.inl (ha h)
  obtain ⟨r, hr, h1, h2, h3, h4⟩ := onApply_spec clip alloc self ref hw ha'
  refine ⟨r, hr, ?_, ?_, ?_⟩
  · rw [h1, allDstAreBoxes_iff]; simp
  · intro h
    have hn := (allDstAreBoxes_iff ref).mp h
    refine ⟨?_, ?_⟩
    · rw [h2, map_displayStep_of_allDstAreBoxes clip ref hn]
    · rw [h3 hn]; rfl
  · intro h
    have hn : ref.any needsClipping = true := by
      rw [allDstAreBoxes_iff] at h
      simpa using h
    exact ⟨by rw [h1, hn]; rfl, h4 hn⟩

theorem onApply_returns_input_iff_witness :
    HasVisibleRegions scenarioA ∧ AllDstAreBoxes scenarioA ∧
    ∃ r, freshFilter.onApply clipLayerToDestRect (fun _ => false) scenarioA = .ok r ∧
      r.returnsInput = true ∧ r.content = scenarioA ∧ r.self.mReference.length = 0 := by
  have hw : HasVisibleRegions scenarioA := by
    intro d hd _ l hl
    simp only [scenarioA, List.mem_singleton] at hd
    subst hd
    simp only [List.mem_singleton] at hl
    subst hl
    simp
  have hall : AllDstAreBoxes scenarioA := by
    intro d hd _ l hl
    simp only [scenarioA, List.mem_singleton] at hd
    subst hd
    simp only [List.mem_singleton] at hl
    subst hl
    rfl
  obtain ⟨r, hr, h1, h2, _⟩ := onApply_returns_input_iff clipLayerToDestRect (fun _ => false)
    freshFilter scenarioA hw (fun h => absurd hall h)
  exact ⟨hw, hall, r, hr, h1.mpr hall, (h2 hall).1, (h2 hall).2⟩

/-! ## Clipping with `clipLayerToDestRect` -/

theorem onUpdateFrameState_self (layer : Layer) : Layer.onUpdateFrameState layer layer = layer := by
  cases layer; rfl

theorem layerStep_clipLayerToDestRect (layer : Layer) :
    layerStep clipLayerToDestRect layer = clippedLayer layer := by
  unfold layerStep clippedLayer
  split
  · rfl
  · rename_i box hbox
    by_cases hd : layer.mDst = box
    · rw [if_pos hd, if_pos hd]
    · rw [if_neg hd, if_neg hd, onUpdateFrameState_self]
      by_cases he : (layer.mDst.intersect box).isEmpty = true
      · simp [clipLayerToDestRect, he]
      · simp [clipLayerToDestRect, he]

theorem map_displayStep_clipLayerToDestRect (ref : Content) :
    ref.map (displayStep clipLayerToDestRect) = clippedContent ref := by
  unfold clippedContent
  apply List.map_congr_left
  intro d _
  unfold displayStep
  have : layerStep clipLayerToDestRect = clippedLayer := funext layerStep_clipLayerToDestRect
  rw [this]

theorem intersect_intersect (a b : HwcRect) : (a.intersect b).intersect b = a.intersect b := by
  simp only [HwcRect.intersect, HwcRect.mk.injEq]
  refine ⟨?_, ?_, ?_, ?_⟩ <;> omega

theorem clippedLayer_eq_none_iff (layer : Layer) (h : layer.mVisibleRegions ≠ []) :
    clippedLayer layer = none ↔ vanishes layer = true := by
  obtain ⟨box, hbox⟩ := boundingBox_ok_of_regions layer h
  simp only [clippedLayer, vanishes, dstIsBox, emptyIntersection, hbox]
  by_cases hd : layer.mDst = box
  · simp [hd]
  · by_cases he : (layer.mDst.intersect box).isEmpty = true
    · simp [hd, he]
    · simp [hd, he]

theorem not_mem_filterMap_clippedLayer (layer : Layer) (layers : List Layer)
    (hv : vanishes layer = true) : layer ∉ layers.filterMap clippedLayer := by
  intro hmem
  obtain ⟨m, _, hcl⟩ := List.mem_filterMap.mp hmem
  simp only [vanishes, Bool.and_eq_true, Bool.not_eq_true'] at hv
  obtain ⟨hnot, hempty⟩ := hv
  unfold clippedLayer at hcl
  split at hcl
  · simp at hcl
  · rename_i box hbox
    by_cases hd : m.mDst = box
    · rw [if_pos hd] at hcl
      simp only [Option.some.injEq] at hcl
      subst hcl
      have : dstIsBox m = true := by simp [dstIsBox, hbox, hd]
      rw [this] at hnot
      exact absurd hnot (by simp)
    · rw [if_neg hd] at hcl
      by_cases he : (m.mDst.intersect box).isEmpty = true
      · rw [if_pos he] at hcl
        simp at hcl
      · rw [if_neg he] at hcl
        simp only [Option.some.injEq] at hcl
        subst hcl
        have hb : getVisibleRegionBoundingBox { m with mDst := m.mDst.intersect box } = .ok box :=
          hbox
        simp only [emptyIntersection, hb, intersect_intersect] at hempty
        exact he hempty

theorem length_filterMap_clippedLayer (layers : List Layer)
    (h : ∀ l ∈ layers, l.mVisibleRegions ≠ []) :
    (layers.filterMap clippedLayer).length + layers.countP vanishes = layers.length := by
  induction layers with
  | nil => rfl
  | cons x xs ih =>
    have ih' := ih (fun l hl => h l (List.mem_cons_of_mem _ hl))
    have hx := clippedLayer_eq_none_iff x (h x (List.mem_cons_self _ _))
    rw [List.filterMap_cons]
    cases hc : clippedLayer x with
    | none =>
      have hv : vanishes x = true := hx.mp hc
      simp only [List.countP_cons_of_pos _ _ hv, List.length_cons]
      omega
    | some y =>
      have hv : ¬ vanishes x = true := by
        intro hv
        rw [hx.mpr hv] at hc
        exact absurd hc (by simp)
      simp only [List.countP_cons_of_neg _ _ hv, List.length_cons]
      omega

/-- C8 (counterexample): a layer whose destination `(0,0,0,0)` equals its
bounding box has an empty intersection with that box, yet the filter keeps it:
the output is the input, with one layer and not none. -/
theorem boxed_empty_layer_is_kept :
    emptyIntersection pointLayer = true ∧
    ∃ r, freshFilter.onApply clipLayerToDestRect (fun _ => true)
        [enabledDisplay [pointLayer]] = .ok r ∧
      r.content = [enabledDisplay [pointLayer]] ∧
      (enabledDisplay [pointLayer]).mLayerStack.countP emptyIntersection = 1 :=
  ⟨rfl, _, rfl, rfl, rfl⟩

/-- C8 (amended): for a content whose layers in enabled displays each have a
visible region, with the scratch arrays growable, the output of
`VisibleRectFilter::onApply` has as many displays as the input, and in every
enabled display every layer whose destination differs from its bounding box
and has an empty intersection with it is absent from the output layer list,
whose length is the input length minus the number of such layers. -/
theorem onApply_drops_vanishing_layers (alloc : Nat → Bool) (self : VisibleRectFilter)
    (ref : Content) (hw : HasVisibleRegions ref) (ha : ∀ i, alloc i = true) :
    ∃ r, self.onApply clipLayerToDestRect alloc ref = .ok r ∧
      r.content.length = ref.length ∧
      ∀ (i : Nat) (input : Display), ref[i]? = some input → input.mbEnabled = true →
        ∃ output : Display, r.content[i]? = some output ∧
          (∀ l ∈ input.mLayerStack, vanishes l = true → l ∉ output.mLayerStack) ∧
          output.mLayerStack.length =
            input.mLayerStack.length - input.mLayerStack.countP vanishes := by
  obtain ⟨r, hr, _, h2, _, _⟩ := onApply_spec clipLayerToDestRect alloc self ref hw (Or.inl ha)
  rw [map_displayStep_clipLayerToDestRect] at h2
  refine ⟨r, hr, ?_, ?_⟩
  · rw [h2]; simp [clippedContent]
  · intro i input hi he
    have hmem : input ∈ ref := List.mem_iff_getElem?.mpr ⟨i, hi⟩
    refine ⟨{ input with mLayerStack := input.mLayerStack.filterMap clippedLayer }, ?_, ?_, ?_⟩
    · rw [h2]
      simp only [clippedContent, List.getElem?_map, hi, Option.map_some', he, if_true]
    · intro l _ hv
      exact not_mem_filterMap_clippedLayer l _ hv
    · have := length_filterMap_clippedLayer input.mLayerStack (hw input hmem he)
      simp only
      omega

theorem onApply_drops_vanishing_layers_witness :
    HasVisibleRegions [enabledDisplay [scenarioC]] ∧ (∀ i : Nat, (fun _ => true) i = true) ∧
    vanishes scenarioC = true ∧
    ∃ r, freshFilter.onApply clipLayerToDestRect (fun _ => true)
        [enabledDisplay [scenarioC]] = .ok r ∧
      ∃ output : Display, r.content[0]? = some output ∧ output.mLayerStack.length = 0 := by
  have hw : HasVisibleRegions [enabledDisplay [scenarioC]] := by
    intro d hd _ l hl
    simp only [List.mem_singleton] at hd
    subst hd
    simp only [enabledDisplay, List.mem_singleton] at hl
    subst hl
    simp [scenarioC]
  obtain ⟨r, hr, _, h⟩ := onApply_drops_vanishing_layers (fun _ => true) freshFilter
    [enabledDisplay [scenarioC]] hw (fun _ => rfl)
  obtain ⟨output, ho, _, hlen⟩ := h 0 (enabledDisplay [scenarioC]) rfl rfl
  exact ⟨hw, fun _ => rfl, rfl, r, hr, output, ho, hlen⟩

/-- C9: for a content whose layers in enabled displays each have a visible
region, with the scratch arrays growable whenever some layer has to be
clipped, `VisibleRectFilter::onApply` with `clipLayerToDestRect` returns the
content in which every enabled display's layer list is the input list walked
once in original order, a layer whose destination is its bounding box kept as
it is, a layer whose destination differs from the bounding box but intersects
it replaced at its slot by a copy whose destination is the intersection, and
only layers with an empty intersection dropped. -/
theorem onApply_clips_layer_lists (alloc : Nat → Bool) (self : VisibleRectFilter)
    (ref : Content) (hw : HasVisibleRegions ref)
    (ha : ¬ AllDstAreBoxes ref → ∀ i, alloc i = true) :
    ∃ r, self.onApply clipLayerToDestRect alloc ref = .ok r ∧
      r.content = clippedContent ref ∧
      ∀ (i : Nat) (input : Display), ref[i]? = some input → input.mbEnabled = true →
        ∃ output : Display, r.content[i]? = some output ∧
          output.mLayerStack = input.mLayerStack.filterMap clippedLayer ∧
          (∀ l ∈ input.mLayerStack, clippedLayer l = none → emptyIntersection l = true) := by
  have ha' : (∀ i, alloc i = true) ∨ ref.any needsClipping = false := by
    by_cases h : AllDstAreBoxes ref
    · exact Or.inr ((allDstAreBoxes_iff ref).mp h)
    · exact Or.inl (ha h)
  obtain ⟨r, hr, _, h2, _, _⟩ := onApply_spec clipLayerToDestRect alloc self ref hw ha'
  rw [map_displayStep_clipLayerToDestRect] at h2
  refine ⟨r, hr, h2, ?_⟩
  intro i input hi he
  have hmem : input ∈ ref := List.mem_iff_getElem?.mpr ⟨i, hi⟩
  refine ⟨{ input with mLayerStack := input.mLayerStack.filterMap clippedLayer }, ?_, rfl, ?_⟩
  · rw [h2]
    simp only [clippedContent, List.getElem?_map, hi, Option.map_some', he, if_true]
  · intro l hl hnone
    have hv := (clippedLayer_eq_none_iff l (hw input hmem he l hl)).mp hnone
    simp only [vanishes, Bool.and_eq_true] at hv
    exact hv.2

theorem onApply_clips_layer_lists_witness :
    HasVisibleRegions [enabledDisplay [scenarioB]] ∧
    ∃ r, freshFilter.onApply clipLayerToDestRect (fun _ => true)
        [enabledDisplay [scenarioB]] = .ok r ∧
      r.content = [enabledDisplay [{ scenarioB with mDst := ⟨10, 10, 90, 90⟩ }]] := by
  have hw : HasVisibleRegions [enabledDisplay [scenarioB]] := by
    intro d hd _ l hl
    simp only [List.mem_singleton] at hd
    subst hd
    simp only [enabledDisplay, List.mem_singleton] at hl
    subst hl
    simp [scenarioB]
  obtain ⟨r, hr, hc, _⟩ := onApply_clips_layer_lists (fun _ => true) freshFilter
    [enabledDisplay [scenarioB]] hw (fun _ _ => rfl)
  refine ⟨hw, r, hr, ?_⟩
  rw [hc]; rfl

/-! ## Validation of the geometry-change flag -/

theorem validateLoop_cons (dispMatches : Display → Display → Bool) (oldContent : Content)
    (newDisplay : Display) (rest : List Display) (d : Nat) (bError bWarning : Bool) :
    validateLoop dispMatches oldContent (newDisplay :: rest) d (bError, bWarning) =
      validateLoop dispMatches oldContent rest (d + 1)
        (bError || (match oldContent[d]? with
                    | some oldDisplay => errs dispMatches oldDisplay newDisplay
                    | none => false),
         bWarning || (match oldContent[d]? with
                      | some oldDisplay => warns dispMatches oldDisplay newDisplay
                      | none => false)) := by
  simp only [validateLoop]
  cases ho : oldContent[d]? with
  | none => simp
  | some oldDisplay =>
    simp only [errs, warns, compared]
    cases oldDisplay.mbEnabled <;> cases newDisplay.mbEnabled <;>
      cases dispMatches oldDisplay newDisplay <;> cases newDisplay.mbGeometryChanged <;>
      by_cases hf : newDisplay.mFrameIndex = frameAfter oldDisplay.mFrameIndex <;> simp [hf]

theorem validateLoop_spec (dispMatches : Display → Display → Bool) (oldContent : Content)
    (l : List Display) :
    ∀ (d : Nat) (bError bWarning : Bool),
      ((validateLoop dispMatches oldContent l d (bError, bWarning)).1 = true ↔
        bError = true ∨ ∃ (i : Nat) (oldDisplay newDisplay : Display),
          oldContent[d + i]? = some oldDisplay ∧ l[i]? = some newDisplay ∧
          errs dispMatches oldDisplay newDisplay = true) ∧
      ((validateLoop dispMatches oldContent l d (bError, bWarning)).2 = true ↔
        bWarning = true ∨ ∃ (i : Nat) (oldDisplay newDisplay : Display),
          oldContent[d + i]? = some oldDisplay ∧ l[i]? = some newDisplay ∧
          warns dispMatches oldDisplay newDisplay = true) := by
  induction l with
  | nil =>
    intro d bError bWarning
    simp [validateLoop]
  | cons x rest ih =>
    intro d bError bWarning
    rw [validateLoop_cons]
    obtain ⟨h1, h2⟩ := ih (d + 1) _ _
    rw [h1, h2]
    constructor
    · constructor
      · rintro (h | ⟨i, o, n, ho, hn, he⟩)
        · rw [Bool.or_eq_true] at h
          rcases h with h | h
          · exact Or.inl h
          · right
            cases hc : oldContent[d]? with
            | none => rw [hc] at h; simp at h
            | some o => rw [hc] at h; exact ⟨0, o, x, by simpa using hc, by simp, h⟩
        · right
          exact ⟨i + 1, o, n, by rw [← ho]; congr 1; omega, by simpa using hn, he⟩
      · rintro (h | ⟨i, o, n, ho, hn, he⟩)
        · left; simp [h]
        · cases i with
          | zero =>
            left
            simp only [Nat.add_zero] at ho
            simp only [List.getElem?_cons_zero, Option.some.injEq] at hn
            subst hn
            rw [ho]; simp [he]
          | succ j =>
            right
            exact ⟨j, o, n, by rw [← ho]; congr 1; omega, by simpa using hn, he⟩
    · constructor
      · rintro (h | ⟨i, o, n, ho, hn, he⟩)
        · rw [Bool.or_eq_true] at h
          rcases h with h | h
          · exact Or.inl h
          · right
            cases hc : oldContent[d]? with
            | none => rw [hc] at h; simp at h
            | some o => rw [hc] at h; exact ⟨0, o, x, by simpa using hc, by simp, h⟩
        · right
          exact ⟨i + 1, o, n, by rw [← ho]; congr 1; omega, by simpa using hn, he⟩
      · rintro (h | ⟨i, o, n, ho, hn, he⟩)
        · left; simp [h]
        · cases i with
          | zero =>
            left
            simp only [Nat.add_zero] at ho
            simp only [List.getElem?_cons_zero, Option.some.injEq] at hn
            subst hn
            rw [ho]; simp [he]
          | succ j =>
            right
            exact ⟨j, o, n, by rw [← ho]; congr 1; omega, by simpa using hn, he⟩

theorem validateLoop_error_iff (dispMatches : Display → Display → Bool)
    (newContent oldContent : Content) :
    (validateLoop dispMatches oldContent newContent 0 (false, false)).1 = true ↔
      ErrorFired dispMatches newContent oldContent := by
  rw [(validateLoop_spec dispMatches oldContent newContent 0 false false).1]
  simp [ErrorFired]

theorem validateLoop_warning_iff (dispMatches : Display → Display → Bool)
    (newContent oldContent : Content) :
    (validateLoop dispMatches oldContent newContent 0 (false, false)).2 = true ↔
      WarningFired dispMatches newContent oldContent := by
  rw [(validateLoop_spec dispMatches oldContent newContent 0 false false).2]
  simp [WarningFired]

theorem flagsRight_iff (dispMatches : Display → Display → Bool)
    (newContent oldContent : Content) :
    FlagsRight dispMatches newContent oldContent ↔
      ¬ (WarningFired dispMatches newContent oldContent ∨
         ErrorFired dispMatches newContent oldContent) := by
  constructor
  · intro h hfired
    rcases hfired with ⟨d, o, n, ho, hn, hw⟩ | ⟨d, o, n, ho, hn, he⟩
    · simp only [warns, compared, Bool.and_eq_true, decide_eq_true_eq] at hw
      obtain ⟨⟨⟨⟨h1, h2⟩, h3⟩, h4⟩, h5⟩ := hw
      have := (h d o n ho hn h1 h2 h3).mp h4
      rw [h5] at this; exact absurd this (by simp)
    · simp only [errs, compared, Bool.and_eq_true, decide_eq_true_eq, Bool.not_eq_true'] at he
      obtain ⟨⟨⟨⟨h1, h2⟩, h3⟩, h4⟩, h5⟩ := he
      have := (h d o n ho hn h1 h2 h3).mpr h5
      rw [h4] at this; exact absurd this (by simp)
  · intro h d o n ho hn h1 h2 h3
    constructor
    · intro hm
      by_contra hg
      exact h (Or.inl ⟨d, o, n, ho, hn, by simp [warns, compared, h1, h2, h3, hm, hg]⟩)
    · intro hg
      by_contra hm
      exact h (Or.inr ⟨d, o, n, ho, hn, by simp [errs, compared, h1, h2, h3, hm, hg]⟩)

/-- C10 (counterexample): with the old frame index `2 ^ 32 - 1` and the new
frame index 0, no display has a new frame index equal to the old one plus
one, so the condition of the claim holds; yet the code compares the pair, the
displays do not match while the flag is false, the error fires and the call
returns false. And in a build whose fatal checks stop the process, frames 7
and 8 fire the error and the call does not return false: it does not
return. -/
theorem validateGeometryChange_wraps_frame_index :
    (∀ (d : Nat) (oldDisplay newDisplay : Display),
      (frameContent 4294967295 false [scenarioC])[d]? = some oldDisplay →
      (frameContent 0 false [scenarioB])[d]? = some newDisplay →
      oldDisplay.mbEnabled = true → newDisplay.mbEnabled = true →
      newDisplay.mFrameIndex = oldDisplay.mFrameIndex + 1 →
      (sameLayers oldDisplay newDisplay = true ↔ newDisplay.mbGeometryChanged = false)) ∧
    validateGeometryChange uncheckedInternalBuild sameLayers (frameContent 0 false [scenarioB])
      (frameContent 4294967295 false [scenarioC]) =
        .ok (false, frameContent 0 false [scenarioB]) ∧
    validateGeometryChange internalBuild sameLayers (frameContent 8 false [scenarioB])
      (frameContent 7 false [scenarioC]) = .error .fatal := by
  refine ⟨?_, rfl, rfl⟩
  intro d o n ho hn _ _ hf
  cases d with
  | zero =>
    simp only [frameContent, List.getElem?_cons_zero, Option.some.injEq] at ho hn
    subst ho hn
    simp at hf
  | succ k => simp [frameContent] at ho

/-- C10 (amended): `validateGeometryChange` returns true exactly when, for
every display index present in both contents whose old and new displays are
both enabled and whose new frame index is the old one plus one in unsigned
32-bit arithmetic (the index after `2 ^ 32 - 1` is 0), the displays match if
and only if the new geometry-changed flag is false; whenever it returns, the
value is false if and only if a warning or an error fired; it returns in every
build whose fatal checks do not stop the process; and a pair of displays one
of which is disabled, or whose frame indices are not sequential in that
arithmetic, fires neither a warning nor an error. -/
theorem validateGeometryChange_true_iff (b : Build) (dispMatches : Display → Display → Bool)
    (newContent oldContent : Content) :
    ((∃ snapshot, validateGeometryChange b dispMatches newContent oldContent =
        .ok (true, snapshot)) ↔ FlagsRight dispMatches newContent oldContent) ∧
    (∀ value snapshot, validateGeometryChange b dispMatches newContent oldContent =
        .ok (value, snapshot) →
      (value = false ↔ (WarningFired dispMatches newContent oldContent ∨
        ErrorFired dispMatches newContent oldContent))) ∧
    (b.fatalChecks = false → ∃ value snapshot,
      validateGeometryChange b dispMatches newContent oldContent = .ok (value, snapshot)) ∧
    (∀ oldDisplay newDisplay : Display,
      (oldDisplay.mbEnabled = false ∨ newDisplay.mbEnabled = false ∨
        newDisplay.mFrameIndex ≠ frameAfter oldDisplay.mFrameIndex) →
      warns dispMatches oldDisplay newDisplay = false ∧
        errs dispMatches oldDisplay newDisplay = false) := by
  have he := validateLoop_error_iff dispMatches newContent oldContent
  have hw := validateLoop_warning_iff dispMatches newContent oldContent
  have hvalue : ∀ value snapshot,
      validateGeometryChange b dispMatches newContent oldContent = .ok (value, snapshot) →
      (value = false ↔ (WarningFired dispMatches newContent oldContent ∨
        ErrorFired dispMatches newContent oldContent)) := by
    intro value snapshot h
    simp only [validateGeometryChange] at h
    split at h
    · simp at h
    · simp only [Except.ok.injEq, Prod.mk.injEq] at h
      rw [← h.1, ← he, ← hw]
      cases (validateLoop dispMatches oldContent newContent 0 (false, false)).1 <;>
        cases (validateLoop dispMatches oldContent newContent 0 (false, false)).2 <;> simp
  refine ⟨?_, hvalue, ?_, ?_⟩
  · rw [flagsRight_iff]
    constructor
    · rintro ⟨snapshot, h⟩
      have := (hvalue true snapshot h).not
      simpa using this
    · intro h
      rw [← he, ← hw] at h
      refine ⟨snapshotOf newContent, ?_⟩
      simp only [validateGeometryChange]
      cases h1 : (validateLoop dispMatches oldContent newContent 0 (false, false)).1 <;>
        cases h2 : (validateLoop dispMatches oldContent newContent 0 (false, false)).2 <;>
        simp_all
  · intro hf
    simp [validateGeometryChange, hf]
  · intro o n h
    simp only [warns, errs, compared]
    rcases h with h | h | h
    · simp [h]
    · simp [h]
    · simp [h]

theorem validateGeometryChange_error (b : Build) (dispMatches : Display → Display → Bool)
    (newContent oldContent : Content) (a : Abort)
    (h : validateGeometryChange b dispMatches newContent oldContent = .error a) :
    a = .fatal ∧ b.fatalChecks = true ∧ ErrorFired dispMatches newContent oldContent := by
  simp only [validateGeometryChange] at h
  split at h
  · rename_i hc
    simp only [Bool.and_eq_true] at hc
    simp only [Except.error.injEq] at h
    exact ⟨h.symm, hc.2, (validateLoop_error_iff dispMatches newContent oldContent).mp hc.1⟩
  · simp at h

theorem validateGeometryChange_ok (b : Build) (dispMatches : Display → Display → Bool)
    (newContent oldContent : Content)
    (h : ¬ (ErrorFired dispMatches newContent oldContent ∧ b.fatalChecks = true)) :
    validateGeometryChange b dispMatches newContent oldContent =
      .ok (!(validateLoop dispMatches oldContent newContent 0 (false, false)).1 &&
           !(validateLoop dispMatches oldContent newContent 0 (false, false)).2,
           snapshotOf newContent) := by
  simp only [validateGeometryChange]
  rw [if_neg]
  intro hc
  simp only [Bool.and_eq_true] at hc
  exact h ⟨(validateLoop_error_iff dispMatches newContent oldContent).mp hc.1, hc.2⟩

/-- C11 (counterexample): in an internal build whose `ALOG_ASSERT` is compiled
out, frames 7 and 8 of a display enabled on both sides do not match while the
new flag is false, and the call returns false instead of ending fatally. And
in a build whose `ALOG_ASSERT` stops the process the call ends fatally for the
old frame index `2 ^ 32 - 1` and the new frame index 0, although no display
has a new frame index equal to the old one plus one. -/
theorem validateGeometryChange_error_not_fatal :
    validateGeometryChange uncheckedInternalBuild sameLayers (frameContent 8 false [scenarioB])
      (frameContent 7 false [scenarioC]) = .ok (false, frameContent 8 false [scenarioB]) ∧
    errs sameLayers (enabledDisplayAt 7 false [scenarioC])
      (enabledDisplayAt 8 false [scenarioB]) = true ∧
    validateGeometryChange internalBuild sameLayers (frameContent 0 false [scenarioB])
      (frameContent 4294967295 false [scenarioC]) = .error .fatal ∧
    (∀ (d : Nat) (oldDisplay newDisplay : Display),
      (frameContent 4294967295 false [scenarioC])[d]? = some oldDisplay →
      (frameContent 0 false [scenarioB])[d]? = some newDisplay →
      newDisplay.mFrameIndex ≠ oldDisplay.mFrameIndex + 1) := by
  refine ⟨rfl, rfl, rfl, ?_⟩
  intro d o n ho hn
  cases d with
  | zero =>
    simp only [frameContent, List.getElem?_cons_zero, Option.some.injEq] at ho hn
    subst ho hn
    simp
  | succ k => simp [frameContent] at ho

/-- C11 (amended): `validateGeometryChange` ends in the fatal outcome if and
only if the build's `ALOG_ASSERT` stops the process and the error fired, that
is, some display index present in both contents, enabled on both sides and
with the new frame index equal to the old one plus one in unsigned 32-bit
arithmetic, does not match while its new geometry-changed flag is false; it
has no other way not to return, and in a build whose `ALOG_ASSERT` is compiled
out it always returns; a pair of displays that fires the warning does not fire
the error, and a call in which only warnings fired returns false and is not
fatal. -/
theorem validateGeometryChange_fatal_iff (b : Build) (dispMatches : Display → Display → Bool)
    (newContent oldContent : Content) :
    (validateGeometryChange b dispMatches newContent oldContent = .error .fatal ↔
      (b.fatalChecks = true ∧ ErrorFired dispMatches newContent oldContent)) ∧
    (ErrorFired dispMatches newContent oldContent ↔
      ∃ (d : Nat) (oldDisplay newDisplay : Display), oldContent[d]? = some oldDisplay ∧
        newContent[d]? = some newDisplay ∧ oldDisplay.mbEnabled = true ∧
        newDisplay.mbEnabled = true ∧
        newDisplay.mFrameIndex = (oldDisplay.mFrameIndex + 1) % 2 ^ 32 ∧
        dispMatches oldDisplay newDisplay = false ∧ newDisplay.mbGeometryChanged = false) ∧
    (∀ a, validateGeometryChange b dispMatches newContent oldContent = .error a → a = .fatal) ∧
    (b.fatalChecks = false → ∃ value snapshot,
      validateGeometryChange b dispMatches newContent oldContent = .ok (value, snapshot)) ∧
    (∀ oldDisplay newDisplay : Display, warns dispMatches oldDisplay newDisplay = true →
      errs dispMatches oldDisplay newDisplay = false) ∧
    (WarningFired dispMatches newContent oldContent →
      ¬ ErrorFired dispMatches newContent oldContent →
      ∃ snapshot, validateGeometryChange b dispMatches newContent oldContent =
        .ok (false, snapshot)) := by
  refine ⟨?_, ?_, ?_, ?_, ?_, ?_⟩
  · constructor
    · intro h
      have := validateGeometryChange_error b dispMatches newContent oldContent _ h
      exact ⟨this.2.1, this.2.2⟩
    · rintro ⟨hchecks, h⟩
      have := (validateLoop_error_iff dispMatches newContent oldContent).mpr h
      simp [validateGeometryChange, this, hchecks]
  · simp only [ErrorFired, errs, compared, frameAfter, Bool.and_eq_true, decide_eq_true_eq,
      Bool.not_eq_true']
    constructor
    · rintro ⟨d, o, n, ho, hn, ⟨⟨⟨h1, h2⟩, h3⟩, h4⟩, h5⟩
      exact ⟨d, o, n, ho, hn, h1, h2, h3, h4, h5⟩
    · rintro ⟨d, o, n, ho, hn, h1, h2, h3, h4, h5⟩
      exact ⟨d, o, n, ho, hn, ⟨⟨⟨h1, h2⟩, h3⟩, h4⟩, h5⟩
  · intro a h
    exact (validateGeometryChange_error b dispMatches newContent oldContent a h).1
  · intro hf
    simp [validateGeometryChange, hf]
  · intro o n h
    simp only [warns, Bool.and_eq_true] at h
    simp [errs, h.1.2]
  · intro hw he
    refine ⟨snapshotOf newContent, ?_⟩
    rw [validateGeometryChange_ok b dispMatches newContent oldContent (fun h => he h.1)]
    have := (validateLoop_warning_iff dispMatches newContent oldContent).mpr hw
    simp [this]

theorem validateGeometryChange_scenarioD :
    validateGeometryChange internalBuild sameLayers (frameContent 8 false [scenarioB])
      (frameContent 7 false [scenarioB]) = .ok (true, frameContent 8 false [scenarioB]) ∧
    validateGeometryChange internalBuild sameLayers (frameContent 8 true [scenarioB])
      (frameContent 7 false [scenarioB]) = .ok (false, frameContent 8 true [scenarioB]) ∧
    validateGeometryChange internalBuild sameLayers (frameContent 8 false [scenarioB])
      (frameContent 7 false [scenarioC]) = .error .fatal :=
  ⟨rfl, rfl, rfl⟩

/-- C12: `validateGeometryChange` either ends in the fatal outcome or returns
with the snapshot equal to the new content, whatever warnings fired and
whichever displays were skipped: the snapshot has as many displays as the new
content and each display with its layers equals the new one, so the next call
against the snapshot is the call against the frame just validated. The fatal
outcome needs a build whose `ALOG_ASSERT` stops the process and an error. -/
theorem validateGeometryChange_snapshot (b : Build) (dispMatches : Display → Display → Bool)
    (newContent oldContent : Content) :
    (validateGeometryChange b dispMatches newContent oldContent = .error .fatal ∨
      ∃ value, validateGeometryChange b dispMatches newContent oldContent =
        .ok (value, newContent)) ∧
    (∀ value snapshot, validateGeometryChange b dispMatches newContent oldContent =
        .ok (value, snapshot) →
      snapshot = newContent ∧ snapshot.length = newContent.length ∧
      (∀ d : Nat, snapshot[d]? = newContent[d]?) ∧
      ∀ next : Content, validateGeometryChange b dispMatches next snapshot =
        validateGeometryChange b dispMatches next newContent) ∧
    (¬ (ErrorFired dispMatches newContent oldContent ∧ b.fatalChecks = true) →
      ∃ value, validateGeometryChange b dispMatches newContent oldContent =
        .ok (value, newContent)) := by
  have hok : ¬ (ErrorFired dispMatches newContent oldContent ∧ b.fatalChecks = true) →
      ∃ value, validateGeometryChange b dispMatches newContent oldContent =
        .ok (value, newContent) := by
    intro h
    exact ⟨_, validateGeometryChange_ok b dispMatches newContent oldContent h⟩
  refine ⟨?_, ?_, hok⟩
  · by_cases h : ErrorFired dispMatches newContent oldContent ∧ b.fatalChecks = true
    · left
      have := (validateLoop_error_iff dispMatches newContent oldContent).mpr h.1
      simp [validateGeometryChange, this, h.2]
    · exact Or.inr (hok h)
  · intro value snapshot h
    have hs : snapshot = newContent := by
      simp only [validateGeometryChange] at h
      split at h
      · simp at h
      · simp only [Except.ok.injEq, Prod.mk.injEq] at h
        exact h.2.symm
    subst hs
    exact ⟨rfl, rfl, fun _ => rfl, fun _ => rfl⟩

/-! ## Failed preparation of the scratch array -/

/-- C13 (the code at the failing input): with one scratch slot left from an
earlier frame and a display of two layers, `displayStatePrepare` fails to grow
the array and returns false, yet `onApply` runs the layer loop on the display:
the first layer is replaced by its clipped copy and the filter's own content
is returned. With no scratch slot at all the same call indexes the scratch
array out of bounds. -/
theorem onApply_ignores_failed_prepare :
    displayStatePrepare false (staleFilter.mDisplayState 0)
      [scenarioB, boxedLayer].length = (false, [default]) ∧
    (∃ r, staleFilter.onApply clipLayerToDestRect (fun _ => false)
        [enabledDisplay [scenarioB, boxedLayer]] = .ok r ∧
      r.returnsInput = false ∧
      r.content = [enabledDisplay [{ scenarioB with mDst := ⟨10, 10, 90, 90⟩ }, boxedLayer]]) ∧
    freshFilter.onApply clipLayerToDestRect (fun _ => false)
      [enabledDisplay [scenarioB, boxedLayer]] = .error .outOfBounds :=
  ⟨rfl, ⟨_, rfl, rfl, rfl⟩, rfl⟩

/-! ## Dispatch on an unsorted registry -/

/-- C14: there is a registry that is not in ascending order, with position 5
before position 1, and a range `[1, 2]` such that `onApply` returns normally
in every build without invoking any filter, although the entry at position 1
lies in the range. -/
theorem early_exit_skips_filter_when_unsorted :
    ¬ Ascending unsortedFilters.mFilters ∧
    (∃ e ∈ unsortedFilters.mFilters, inRange 1 2 e = true ∧ e.mpFilter.addr = 101) ∧
    ∀ b : Build, ∃ r, unsortedFilters.onApply b sameLayers (fun _ _ => []) 0 (fun _ => [])
        0 1 2 = .ok r ∧
      r.invoked = [] ∧ r.ref = 0 ∧ r.manager.mLock = false := by
  refine ⟨by decide, ⟨⟨addingFilter 101 10 false, 1⟩, by simp [unsortedFilters], rfl, rfl⟩, ?_⟩
  intro b
  cases hb : b.internalBuild with
  | false =>
    exact ⟨_, by simp [FilterManager.onApply, hb, unsortedFilters, SpinLock.lock, applyLoop]; rfl,
      rfl, rfl, rfl⟩
  | true =>
    exact ⟨_, by simp [FilterManager.onApply, hb, unsortedFilters, SpinLock.lock, applyLoop,
      validateGeometryChange, validateLoop]; rfl, rfl, rfl, rfl⟩

/-! ## Sizing of the scratch array -/

/-- C15 (counterexample): a scratch array of three slots prepared for a
display of one layer is cut down to its first slot. -/
theorem displayStatePrepare_shrinks :
    displayStatePrepare true [scenarioB, scenarioC, pointLayer] 1 = (true, [scenarioB]) ∧
    displayStatePrepare false [scenarioB, scenarioC, pointLayer] 1 = (true, [scenarioB]) :=
  ⟨rfl, rfl⟩

/-- C15 (amended): `displayStatePrepare` leaves the scratch array as it is
when the layer count equals the array's size; when the layer count is smaller
it cuts the array down to its first `layerCount` slots; when the layer count
is larger it grows the array to exactly the layer count, keeping the slots it
had, if the allocation succeeds, and leaves it as it is and returns false if
the allocation fails. In every case but the last it returns true. -/
theorem displayStatePrepare_resizes_to_match (ok : Bool) (mLayers : List Layer)
    (layerCount : Nat) :
    (mLayers.length = layerCount →
      displayStatePrepare ok mLayers layerCount = (true, mLayers)) ∧
    (layerCount < mLayers.length →
      displayStatePrepare ok mLayers layerCount = (true, mLayers.take layerCount)) ∧
    (mLayers.length < layerCount → ok = true →
      (displayStatePrepare ok mLayers layerCount).1 = true ∧
      (displayStatePrepare ok mLayers layerCount).2.length = layerCount ∧
      (displayStatePrepare ok mLayers layerCount).2.take mLayers.length = mLayers) ∧
    (mLayers.length < layerCount → ok = false →
      displayStatePrepare ok mLayers layerCount = (false, mLayers)) := by
  refine ⟨?_, ?_, ?_, ?_⟩
  · intro h
    simp [displayStatePrepare, h]
  · intro h
    have hne : mLayers.length ≠ layerCount := by omega
    have hle : layerCount ≤ mLayers.length := by omega
    simp only [displayStatePrepare, vectorResize, if_pos hne, if_pos hle, List.length_take]
    rw [if_neg (by omega)]
  · intro h hok
    subst hok
    have hne : mLayers.length ≠ layerCount := by omega
    have hle : ¬ layerCount ≤ mLayers.length := by omega
    simp only [displayStatePrepare, vectorResize, if_pos hne, if_neg hle, if_true,
      List.length_append, List.length_replicate]
    rw [if_neg (by omega)]
    refine ⟨rfl, by simp only [List.length_append, List.length_replicate]; omega, ?_⟩
    simp
  · intro h hok
    subst hok
    have hne : mLayers.length ≠ layerCount := by omega
    have hle : ¬ layerCount ≤ mLayers.length := by omega
    simp only [displayStatePrepare, vectorResize, if_pos hne, if_neg hle, if_pos h]
    simp [h]

/-! ## Displays the filter does not touch -/

/-- C16: for a content whose layers in enabled displays each have a visible
region, with the scratch arrays growable whenever some layer has to be
clipped, the content returned by `VisibleRectFilter::onApply` has as many
displays as the input, every display keeps its enabled flag, frame index and
geometry-changed flag, and every disabled display is identical to its input,
whatever its layers are. -/
theorem onApply_keeps_displays (clip : Layer → HwcRect → Layer × Bool) (alloc : Nat → Bool)
    (self : VisibleRectFilter) (ref : Content) (hw : HasVisibleRegions ref)
    (ha : ¬ AllDstAreBoxes ref → ∀ i, alloc i = true) :
    ∃ r, self.onApply clip alloc ref = .ok r ∧
      r.content.length = ref.length ∧
      ∀ (d : Nat) (input : Display), ref[d]? = some input →
        ∃ output : Display, r.content[d]? = some output ∧
          output.mbEnabled = input.mbEnabled ∧
          output.mFrameIndex = input.mFrameIndex ∧
          output.mbGeometryChanged = input.mbGeometryChanged ∧
          (input.mbEnabled = false → output = input) := by
  have ha' : (∀ i, alloc i = true) ∨ ref.any needsClipping = false := by
    by_cases h : AllDstAreBoxes ref
    · exact Or.inr ((allDstAreBoxes_iff ref).mp h)
    · exact Or.inl (ha h)
  obtain ⟨r, hr, _, h2, _, _⟩ := onApply_spec clip alloc self ref hw ha'
  refine ⟨r, hr, by rw [h2]; simp, ?_⟩
  intro d input hd
  refine ⟨displayStep clip input, by rw [h2]; simp [hd], ?_, ?_, ?_, ?_⟩
  · unfold displayStep; split <;> rfl
  · unfold displayStep; split <;> rfl
  · unfold displayStep; split <;> rfl
  · intro he
    simp [displayStep, he]

theorem onApply_keeps_displays_witness :
    HasVisibleRegions [disabledDisplay [scenarioB, scenarioC], enabledDisplay [scenarioB]] ∧
    ∃ r, freshFilter.onApply clipLayerToDestRect (fun _ => true)
        [disabledDisplay [scenarioB, scenarioC], enabledDisplay [scenarioB]] = .ok r ∧
      r.returnsInput = false ∧
      r.content[0]? = some (disabledDisplay [scenarioB, scenarioC]) ∧
      r.content.length = 2 := by
  have hw : HasVisibleRegions
      [disabledDisplay [scenarioB, scenarioC], enabledDisplay [scenarioB]] := by
    intro d hd he l hl
    simp only [List.mem_cons, List.mem_singleton, List.not_mem_nil, or_false] at hd
    rcases hd with hd | hd
    · subst hd; exact absurd he (by decide)
    · subst hd
      simp only [enabledDisplay, List.mem_singleton] at hl
      subst hl
      decide
  obtain ⟨r, hr, hlen, h⟩ := onApply_keeps_displays clipLayerToDestRect (fun _ => true)
    freshFilter [disabledDisplay [scenarioB, scenarioC], enabledDisplay [scenarioB]] hw
    (fun _ _ => rfl)
  obtain ⟨output, ho, _, _, _, hsame⟩ := h 0 (disabledDisplay [scenarioB, scenarioC]) rfl
  have hfalse : r.returnsInput = false := by
    have hr' : freshFilter.onApply clipLayerToDestRect (fun _ => true)
        [disabledDisplay [scenarioB, scenarioC], enabledDisplay [scenarioB]] =
        .ok { returnsInput := false
              content := [disabledDisplay [scenarioB, scenarioC],
                enabledDisplay [{ scenarioB with mDst := ⟨10, 10, 90, 90⟩ }]]
              self := { mReference := [disabledDisplay [scenarioB, scenarioC],
                          enabledDisplay [{ scenarioB with mDst := ⟨10, 10, 90, 90⟩ }]]
                        mDisplayState := fun i =>
                          if i = 1 then [{ scenarioB with mDst := ⟨10, 10, 90, 90⟩ }]
                          else freshFilter.mDisplayState i } } := rfl
    rw [hr'] at hr
    simp only [Except.ok.injEq] at hr
    rw [← hr]
  refine ⟨hw, r, hr, hfalse, ?_, hlen⟩
  rw [ho, hsame rfl]

/-! ## The comparator -/

/-- C19 (counterexample): position 0 against position `2 ^ 31 + 1` compares
positive although it is the smaller one, and position `2 ^ 31` against position
0 compares negative although it is the larger one. -/
theorem compareFilterPositions_wrong_sign :
    0 < compareFilterPositions (entryAt 0) (entryAt (2 ^ 31 + 1)) ∧
    compareFilterPositions (entryAt (2 ^ 31)) (entryAt 0) < 0 := by
  constructor <;> decide

/-- C19 (amended): for 32-bit positions, `compareFilterPositions` is zero
exactly when the positions are equal; and whenever the difference of the
positions fits a signed 32-bit int, the result is that difference, so it is
negative exactly when lhs position < rhs position and positive exactly when
lhs position > rhs position. -/
theorem compareFilterPositions_faithful_in_range {σ ρ : Type} (lhs rhs : Entry σ ρ)
    (hl : lhs.mPosition < 2 ^ 32) (hr : rhs.mPosition < 2 ^ 32) :
    (compareFilterPositions lhs rhs = 0 ↔ lhs.mPosition = rhs.mPosition) ∧
    (-(2 ^ 31 : Int) ≤ (lhs.mPosition : Int) - rhs.mPosition →
      (lhs.mPosition : Int) - rhs.mPosition < 2 ^ 31 →
      compareFilterPositions lhs rhs = (lhs.mPosition : Int) - rhs.mPosition ∧
      (compareFilterPositions lhs rhs < 0 ↔ lhs.mPosition < rhs.mPosition) ∧
      (0 < compareFilterPositions lhs rhs ↔ rhs.mPosition < lhs.mPosition)) := by
  unfold compareFilterPositions toInt32
  simp only [Nat.reducePow] at *
  constructor
  · split <;> omega
  · intro h1 h2
    split <;> omega

theorem compareFilterPositions_faithful_in_range_witness :
    (entryAt 3).mPosition < 2 ^ 32 ∧ (entryAt 7).mPosition < 2 ^ 32 ∧
    compareFilterPositions (entryAt 3) (entryAt 7) = -4 ∧
    compareFilterPositions (entryAt 3) (entryAt 7) < 0 := by
  have h := compareFilterPositions_faithful_in_range (entryAt 3) (entryAt 7)
    (by decide) (by decide)
  have h2 := h.2 (by decide) (by decide)
  exact ⟨by decide, by decide, by rw [h2.1]; rfl, h2.2.1.mpr (by decide)⟩

/-! ## Termination and index safety of the layer loop -/

theorem layerLoopTrace_result (clip : Layer → HwcRect → Layer × Bool) (n : Nat) :
    ∀ (ly : Nat) (s : LayerPass), (layerLoopTrace clip n ly s).result = layerLoop clip n ly s := by
  induction n with
  | zero => intro ly s; rfl
  | succ k ih =>
    intro ly s
    simp only [layerLoopTrace, layerLoop]
    split
    · rfl
    · split
      · rfl
      · split
        · simp only [LayerTrace.after, ih]
        · split
          · split
            · simp only [LayerTrace.after, ih]
            · simp only [LayerTrace.after, ih]
          · rfl

theorem length_append_sub (done todo : List Layer) :
    (done ++ todo).length - done.length = todo.length := by
  simp

theorem layerLoopTrace_progress (clip : Layer → HwcRect → Layer × Bool) (todo : List Layer) :
    ∀ (n : Nat) (done mLayers : List Layer) (bModified : Bool), todo.length ≤ n →
      ∀ t, t = layerLoopTrace clip n done.length
          { layerStack := done ++ todo, mLayers := mLayers, bModified := bModified } →
        t.result ≠ .error .steps ∧
        t.examined <+: todo ∧
        ((∃ s, t.result = .ok s) → t.examined = todo) ∧
        (∀ y ∈ t.remaining.head?, y = todo.length) ∧
        List.Chain' (fun a c => a = c + 1) t.remaining ∧
        t.remaining.length = t.examined.length := by
  induction todo with
  | nil =>
    intro n done mLayers bModified _ t ht
    have : t = { result := .ok { layerStack := done ++ [], mLayers := mLayers,
                                 bModified := bModified },
                 uses := [], examined := [], remaining := [] } := by
      rw [ht]
      cases n with
      | zero => simp [layerLoopTrace]
      | succ k => simp [layerLoopTrace]
    subst this
    simp
  | cons x rest ih =>
    intro n done mLayers bModified hn t ht
    cases n with
    | zero => simp at hn
    | succ k =>
      have hk : rest.length ≤ k := by simp only [List.length_cons] at hn; omega
      have hleft : (done ++ x :: rest).length - done.length = rest.length + 1 := by simp
      simp only [layerLoopTrace, getElem?_append_length, hleft] at ht
      cases hbox : getVisibleRegionBoundingBox x with
      | error a =>
        rw [hbox] at ht
        subst ht
        refine ⟨?_, ?_, ?_, ?_, ?_, ?_⟩
        · simp only [ne_eq, Except.error.injEq]
          intro h
          subst h
          simp only [getVisibleRegionBoundingBox] at hbox
          split at hbox <;> simp at hbox
        · simp [List.prefix_cons_inj]
        · rintro ⟨s, hs⟩; simp at hs
        · simp
        · simp
        · simp
      | ok box =>
        rw [hbox] at ht
        simp only at ht
        by_cases hd : x.mDst = box
        · rw [if_pos hd] at ht
          have hrec := ih k (done ++ [x]) mLayers bModified hk _ rfl
          simp only [List.length_append, List.length_cons, List.length_nil, Nat.zero_add,
            List.append_assoc, List.singleton_append] at hrec
          obtain ⟨h1, h2, h3, h4, h5, h6⟩ := hrec
          subst ht
          refine ⟨h1, ?_, ?_, ?_, ?_, ?_⟩
          · exact (List.prefix_cons_inj x).mpr h2
          · rintro ⟨s, hs⟩
            simp only [LayerTrace.after]
            rw [h3 ⟨s, hs⟩]
          · simp [LayerTrace.after]
          · simp only [LayerTrace.after]
            rw [List.chain'_cons']
            exact ⟨fun y hy => by rw [h4 y hy], h5⟩
          · simp [LayerTrace.after, h6]
        · rw [if_neg hd] at ht
          by_cases hly : done.length < mLayers.length
          · rw [if_pos hly] at ht
            by_cases hv : (clip (Layer.onUpdateFrameState x x) box).2 = true
            · rw [if_pos hv, set_append_length] at ht
              have hrec := ih k (done ++ [(clip (Layer.onUpdateFrameState x x) box).1])
                (mLayers.set done.length (clip (Layer.onUpdateFrameState x x) box).1) true hk
                _ rfl
              simp only [List.length_append, List.length_cons, List.length_nil, Nat.zero_add,
                List.append_assoc, List.singleton_append] at hrec
              obtain ⟨h1, h2, h3, h4, h5, h6⟩ := hrec
              subst ht
              refine ⟨h1, ?_, ?_, ?_, ?_, ?_⟩
              · exact (List.prefix_cons_inj x).mpr h2
              · rintro ⟨s, hs⟩
                simp only [LayerTrace.after]
                rw [h3 ⟨s, hs⟩]
              · simp [LayerTrace.after]
              · simp only [LayerTrace.after]
                rw [List.chain'_cons']
                exact ⟨fun y hy => by rw [h4 y hy], h5⟩
              · simp [LayerTrace.after, h6]
            · rw [if_neg hv, eraseIdx_append_length] at ht
              have hrec := ih k done
                (mLayers.set done.length (clip (Layer.onUpdateFrameState x x) box).1) true hk
                _ rfl
              obtain ⟨h1, h2, h3, h4, h5, h6⟩ := hrec
              subst ht
              refine ⟨h1, ?_, ?_, ?_, ?_, ?_⟩
              · exact (List.prefix_cons_inj x).mpr h2
              · rintro ⟨s, hs⟩
                simp only [LayerTrace.after]
                rw [h3 ⟨s, hs⟩]
              · simp [LayerTrace.after]
              · simp only [LayerTrace.after]
                rw [List.chain'_cons']
                exact ⟨fun y hy => by rw [h4 y hy], h5⟩
              · simp [LayerTrace.after, h6]
          · rw [if_neg hly] at ht
            subst ht
            refine ⟨by simp, ?_, ?_, by simp, by simp, by simp⟩
            · simp [List.prefix_cons_inj]
            · rintro ⟨s, hs⟩; simp at hs

theorem layerLoop_ne_steps (clip : Layer → HwcRect → Layer × Bool)
    (layerStack mLayers : List Layer) (bModified : Bool) :
    layerLoop clip layerStack.length 0
      { layerStack := layerStack, mLayers := mLayers, bModified := bModified } ≠
        .error .steps := by
  have h := (layerLoopTrace_progress clip layerStack layerStack.length [] mLayers bModified
    (Nat.le_refl _) _ rfl).1
  rw [layerLoopTrace_result] at h
  exact h

theorem displayLoop_ne_steps (clip : Layer → HwcRect → Layer × Bool) (alloc : Nat → Bool)
    (displays : List Display) :
    ∀ (d : Nat) (mDisplayState : Nat → List Layer) (bModified : Bool),
      displayLoop clip alloc displays d mDisplayState bModified ≠ .error .steps := by
  induction displays with
  | nil => intro d mDisplayState bModified; simp [displayLoop]
  | cons display rest ih =>
    intro d mDisplayState bModified
    simp only [displayLoop]
    split
    · split
      · rename_i a ha
        intro h
        simp only [Except.error.injEq] at h
        subst h
        exact layerLoop_ne_steps clip _ _ _ ha
      · rename_i s hs
        split
        · rename_i a ha
          intro h
          simp only [Except.error.injEq] at h
          subst h
          exact ih _ _ _ ha
        · simp
    · split
      · rename_i a ha
        intro h
        simp only [Except.error.injEq] at h
        subst h
        exact ih _ _ _ ha
      · simp

/-- C18: the layer loop of `VisibleRectFilter::onApply`, started at index 0 on
any layer list with any scratch array and any `clipLayerToDestRect`, ends
within as many iterations as the list has layers; the number of layers not yet
visited is the length of the list at the first iteration and goes down by
exactly one from each iteration to the next; the layers it examines are, in
order and each once, an initial part of the input list, and the whole list
whenever the loop runs to its end, as it does when every layer has a visible
region and the scratch array has a slot for every layer. Hence `onApply`
never runs out of steps on any content. -/
theorem layerLoop_terminates (clip : Layer → HwcRect → Layer × Bool)
    (layerStack mLayers : List Layer) (bModified : Bool) :
    layerLoop clip layerStack.length 0
      { layerStack := layerStack, mLayers := mLayers, bModified := bModified } ≠
        .error .steps ∧
    (layerLoopTrace clip layerStack.length 0
      { layerStack := layerStack, mLayers := mLayers, bModified := bModified }).result =
      layerLoop clip layerStack.length 0
        { layerStack := layerStack, mLayers := mLayers, bModified := bModified } ∧
    (∀ y ∈ (layerLoopTrace clip layerStack.length 0
      { layerStack := layerStack, mLayers := mLayers, bModified := bModified }).remaining.head?,
      y = layerStack.length) ∧
    List.Chain' (fun a c => a = c + 1) (layerLoopTrace clip layerStack.length 0
      { layerStack := layerStack, mLayers := mLayers, bModified := bModified }).remaining ∧
    (layerLoopTrace clip layerStack.length 0
      { layerStack := layerStack, mLayers := mLayers, bModified := bModified }).remaining.length =
      (layerLoopTrace clip layerStack.length 0
        { layerStack := layerStack, mLayers := mLayers, bModified := bModified }).examined.length ∧
    (layerLoopTrace clip layerStack.length 0
      { layerStack := layerStack, mLayers := mLayers, bModified := bModified }).examined <+:
        layerStack ∧
    ((∃ s, layerLoop clip layerStack.length 0
        { layerStack := layerStack, mLayers := mLayers, bModified := bModified } = .ok s) →
      (layerLoopTrace clip layerStack.length 0
        { layerStack := layerStack, mLayers := mLayers, bModified := bModified }).examined =
          layerStack) ∧
    ((∀ l ∈ layerStack, l.mVisibleRegions ≠ []) → layerStack.length ≤ mLayers.length →
      ∃ s, layerLoop clip layerStack.length 0
        { layerStack := layerStack, mLayers := mLayers, bModified := bModified } = .ok s) ∧
    (∀ (alloc : Nat → Bool) (self : VisibleRectFilter) (ref : Content),
      self.onApply clip alloc ref ≠ .error .steps) := by
  obtain ⟨_, h2, h3, h4, h5, h6⟩ := layerLoopTrace_progress clip layerStack layerStack.length []
    mLayers bModified (Nat.le_refl _) _ rfl
  refine ⟨layerLoop_ne_steps clip layerStack mLayers bModified, layerLoopTrace_result _ _ _ _,
    h4, h5, h6, h2, ?_, ?_, ?_⟩
  · intro hs
    apply h3
    rw [layerLoopTrace_result]
    exact hs
  · intro hregions hlen
    obtain ⟨s, hs, _⟩ := layerLoop_spec clip layerStack layerStack.length [] mLayers bModified
      (Nat.le_refl _) hregions (Or.inl (by simpa using hlen))
    exact ⟨s, hs⟩
  · intro alloc self ref h
    simp only [VisibleRectFilter.onApply] at h
    split at h
    · rename_i a ha
      simp only [Except.error.injEq] at h
      subst h
      exact displayLoop_ne_steps clip alloc ref 0 self.mDisplayState false ha
    · split at h <;> simp at h

theorem displayStatePrepare_true_length (ok : Bool) (mLayers : List Layer) (layerCount : Nat)
    (h : (displayStatePrepare ok mLayers layerCount).1 = true) :
    (displayStatePrepare ok mLayers layerCount).2.length = layerCount := by
  simp only [displayStatePrepare] at h ⊢
  by_cases he : mLayers.length = layerCount
  · simp [he]
  · rw [if_pos he] at h ⊢
    by_cases hlt : (vectorResize ok mLayers layerCount).length < layerCount
    · rw [if_pos hlt] at h; simp at h
    · rw [if_neg hlt]
      simp only [vectorResize] at hlt ⊢
      by_cases h2 : layerCount ≤ mLayers.length
      · simp [h2]
      · rw [if_neg h2] at hlt ⊢
        cases ok with
        | true => simp; omega
        | false => simp at hlt; omega

theorem layerLoopTrace_inBounds (clip : Layer → HwcRect → Layer × Bool) (todo : List Layer) :
    ∀ (n : Nat) (done mLayers : List Layer) (bModified : Bool), todo.length ≤ n →
      (∀ l ∈ todo, l.mVisibleRegions ≠ []) →
      done.length + todo.length ≤ mLayers.length →
      ∀ u ∈ (layerLoopTrace clip n done.length
          { layerStack := done ++ todo, mLayers := mLayers, bModified := bModified }).uses,
        u.inBounds = true := by
  induction todo with
  | nil =>
    intro n done mLayers bModified _ _ _ u hu
    cases n with
    | zero => simp [layerLoopTrace] at hu
    | succ k => simp [layerLoopTrace] at hu
  | cons x rest ih =>
    intro n done mLayers bModified hn hregions hscratch u hu
    obtain ⟨box, hbox⟩ := boundingBox_ok_of_regions x (hregions x (List.mem_cons_self _ _))
    have hx : 0 < x.mVisibleRegions.length :=
      List.length_pos.mpr (hregions x (List.mem_cons_self _ _))
    have hregions' : ∀ l ∈ rest, l.mVisibleRegions ≠ [] :=
      fun l hl => hregions l (List.mem_cons_of_mem _ hl)
    have hly : done.length < mLayers.length := by
      simp only [List.length_cons] at hscratch; omega
    have hstack : done.length < (done ++ x :: rest).length := by simp
    cases n with
    | zero => simp at hn
    | succ k =>
      have hk : rest.length ≤ k := by simp only [List.length_cons] at hn; omega
      simp only [layerLoopTrace, getElem?_append_length, hbox] at hu
      by_cases hd : x.mDst = box
      · rw [if_pos hd] at hu
        simp only [LayerTrace.after, List.mem_append, List.mem_cons, List.mem_singleton,
          List.not_mem_nil, or_false] at hu
        rcases hu with (hu | hu) | hu
        · subst hu; simp [IndexUse.inBounds]
        · subst hu; simpa [IndexUse.inBounds] using hx
        · have hrec := ih k (done ++ [x]) mLayers bModified hk hregions'
            (by simp only [List.length_append, List.length_cons, List.length_nil] at hscratch ⊢
                omega)
          simp only [List.length_append, List.length_cons, List.length_nil, Nat.zero_add,
            List.append_assoc, List.singleton_append] at hrec
          exact hrec u hu
      · rw [if_neg hd, if_pos hly] at hu
        by_cases hv : (clip (Layer.onUpdateFrameState x x) box).2 = true
        · rw [if_pos hv, set_append_length] at hu
          simp only [LayerTrace.after, List.mem_append, List.mem_cons, List.mem_singleton,
            List.not_mem_nil, or_false] at hu
          rcases hu with (hu | hu | hu | hu) | hu
          · subst hu; simp [IndexUse.inBounds]
          · subst hu; simpa [IndexUse.inBounds] using hx
          · subst hu; simpa [IndexUse.inBounds] using hly
          · subst hu; simp [IndexUse.inBounds]
          · have hrec := ih k (done ++ [(clip (Layer.onUpdateFrameState x x) box).1])
              (mLayers.set done.length (clip (Layer.onUpdateFrameState x x) box).1) true hk
              hregions'
              (by simp only [List.length_append, List.length_cons, List.length_nil,
                    List.length_set] at hscratch ⊢
                  omega)
            simp only [List.length_append, List.length_cons, List.length_nil, Nat.zero_add,
              List.append_assoc, List.singleton_append] at hrec
            exact hrec u hu
        · rw [if_neg hv, eraseIdx_append_length] at hu
          simp only [LayerTrace.after, List.mem_append, List.mem_cons, List.mem_singleton,
            List.not_mem_nil, or_false] at hu
          rcases hu with (hu | hu | hu | hu) | hu
          · subst hu; simp [IndexUse.inBounds]
          · subst hu; simpa [IndexUse.inBounds] using hx
          · subst hu; simpa [IndexUse.inBounds] using hly
          · subst hu; simp [IndexUse.inBounds]
          · exact ih k done
              (mLayers.set done.length (clip (Layer.onUpdateFrameState x x) box).1) true hk
              hregions'
              (by simp only [List.length_cons, List.length_set] at hscratch ⊢
                  omega) u hu

/-- C20: for a display whose layers each have at least one visible region,
once `displayStatePrepare` has returned true for the display's layer count the
scratch array has exactly that many slots, the layer loop runs to its end
reading every layer, and every index it uses is below the size of the vector
it indexes at that moment: the reads `getLayer(ly)`, the reads of visible
region 0, the scratch slots `mLayers[ly]`, and `setLayer(ly)` and
`removeLayer(ly)`, also after removals have shortened the layer list. -/
theorem layerLoop_indices_in_bounds (clip : Layer → HwcRect → Layer × Bool) (ok : Bool)
    (layers scratch : List Layer) (bModified : Bool)
    (hregions : ∀ l ∈ layers, l.mVisibleRegions ≠ [])
    (hprepared : (displayStatePrepare ok scratch layers.length).1 = true) :
    (displayStatePrepare ok scratch layers.length).2.length = layers.length ∧
    (∃ s, layerLoop clip layers.length 0
      { layerStack := layers, mLayers := (displayStatePrepare ok scratch layers.length).2,
        bModified := bModified } = .ok s) ∧
    (layerLoopTrace clip layers.length 0
      { layerStack := layers, mLayers := (displayStatePrepare ok scratch layers.length).2,
        bModified := bModified }).result =
      layerLoop clip layers.length 0
        { layerStack := layers, mLayers := (displayStatePrepare ok scratch layers.length).2,
          bModified := bModified } ∧
    (layerLoopTrace clip layers.length 0
      { layerStack := layers, mLayers := (displayStatePrepare ok scratch layers.length).2,
        bModified := bModified }).examined = layers ∧
    (∀ u ∈ (layerLoopTrace clip layers.length 0
      { layerStack := layers, mLayers := (displayStatePrepare ok scratch layers.length).2,
        bModified := bModified }).uses, u.inBounds = true) ∧
    (∀ l ∈ layers, 0 < l.mVisibleRegions.length ∧
      ∃ box, getVisibleRegionBoundingBox l = .ok box) := by
  have hlen := displayStatePrepare_true_length ok scratch layers.length hprepared
  obtain ⟨s, hs, _⟩ := layerLoop_spec clip layers layers.length []
    (displayStatePrepare ok scratch layers.length).2 bModified (Nat.le_refl _) hregions
    (Or.inl (by simp [hlen]))
  simp only [List.length_nil, List.nil_append] at hs
  refine ⟨hlen, ⟨s, hs⟩, layerLoopTrace_result _ _ _ _, ?_, ?_, ?_⟩
  · apply (layerLoopTrace_progress clip layers layers.length []
      (displayStatePrepare ok scratch layers.length).2 bModified (Nat.le_refl _) _ rfl).2.2.1
    exact ⟨s, by rw [layerLoopTrace_result]; exact hs⟩
  · exact layerLoopTrace_inBounds clip layers layers.length []
      (displayStatePrepare ok scratch layers.length).2 bModified (Nat.le_refl _) hregions
      (by simp [hlen])
  · intro l hl
    exact ⟨List.length_pos.mpr (hregions l hl), boundingBox_ok_of_regions l (hregions l hl)⟩

theorem layerLoop_indices_in_bounds_witness :
    (∀ l ∈ mixedLayers, l.mVisibleRegions ≠ []) ∧
    (displayStatePrepare true [] mixedLayers.length).1 = true ∧
    (layerLoopTrace clipLayerToDestRect mixedLayers.length 0
      { layerStack := mixedLayers, mLayers := (displayStatePrepare true [] mixedLayers.length).2,
        bModified := false }).uses =
      [.getLayer 0 3, .visibleRegion 0 2, .scratch 0 3, .setLayer 0 3,
       .getLayer 1 3, .visibleRegion 0 1, .scratch 1 3, .removeLayer 1 3,
       .getLayer 1 2, .visibleRegion 0 1] ∧
    ∀ u ∈ (layerLoopTrace clipLayerToDestRect mixedLayers.length 0
      { layerStack := mixedLayers, mLayers := (displayStatePrepare true [] mixedLayers.length).2,
        bModified := false }).uses, u.inBounds = true := by
  have hregions : ∀ l ∈ mixedLayers, l.mVisibleRegions ≠ [] := by decide
  have h := layerLoop_indices_in_bounds clipLayerToDestRect true mixedLayers [] false
    hregions rfl
  exact ⟨hregions, rfl, by decide, h.2.2.2.2.1⟩

/-! ## Lock discipline -/

theorem acquisitions_calls (calls : List Nat) (held : Bool) (rest : List LockEvent) :
    acquisitions (calls.map (fun a => LockEvent.invoke a held) ++ rest) = acquisitions rest := by
  induction calls with
  | nil => rfl
  | cons c cs ih =>
    simp only [acquisitions, List.map_cons, List.cons_append] at ih ⊢
    rw [List.countP_cons_of_neg _ _ (by simp)]
    exact ih

theorem callsUnderLock_calls (calls : List Nat) (rest : List LockEvent) :
    callsUnderLock (calls.map (fun a => LockEvent.invoke a true) ++ rest) =
      callsUnderLock rest := by
  induction calls with
  | nil => rfl
  | cons c cs ih =>
    simp only [callsUnderLock, List.map_cons, List.cons_append, List.all_cons] at ih ⊢
    simp

theorem calledFilters_calls (calls : List Nat) (held : Bool) (rest : List LockEvent) :
    calledFilters (calls.map (fun a => LockEvent.invoke a held) ++ rest) =
      calls ++ calledFilters rest := by
  induction calls with
  | nil => rfl
  | cons c cs ih =>
    simp only [calledFilters, List.map_cons, List.cons_append] at ih ⊢
    rw [List.filterMap_cons]
    simp only [List.cons_append, List.cons.injEq, true_and]
    exact ih

theorem replayLock_calls (flag : Bool) (calls : List Nat) (held : Bool)
    (rest : List LockEvent) :
    replayLock flag (calls.map (fun a => LockEvent.invoke a held) ++ rest) =
      replayLock flag rest := by
  induction calls with
  | nil => rfl
  | cons c cs ih => simpa [replayLock] using ih

theorem oneSection_discipline (l : LockLog) (h : OneSection l) :
    acquisitions l.events ≤ 1 ∧
    callsUnderLock l.events = true ∧
    replayLock false l.events = .ok l.atomic_lock_ ∧
    (l.atomic_lock_ = false → l.events ≠ [] →
      acquisitions l.events = 1 ∧ l.events.getLast? = some .release) := by
  rcases h with h | ⟨calls, h⟩ | ⟨calls, h⟩
  · subst h
    simp [acquisitions, callsUnderLock, replayLock]
  · subst h
    refine ⟨?_, ?_, ?_, ?_⟩
    · have := acquisitions_calls calls true []
      simp only [List.append_nil] at this
      simp only [acquisitions] at this ⊢
      rw [List.countP_cons_of_pos _ _ (by simp), this]
      simp
    · have := callsUnderLock_calls calls []
      simp only [List.append_nil] at this
      simp only [callsUnderLock, List.all_cons] at this ⊢
      rw [this]
      simp
    · have := replayLock_calls true calls true []
      simp only [List.append_nil] at this
      simp only [replayLock, SpinLock.lock, Bool.false_eq_true, if_false]
      rw [this]
      rfl
    · intro hf
      simp at hf
  · subst h
    have hacq : acquisitions (LockEvent.acquire ::
        List.map (fun a => LockEvent.invoke a true) calls ++ [LockEvent.release]) = 1 := by
      have := acquisitions_calls calls true [LockEvent.release]
      simp only [acquisitions] at this ⊢
      rw [List.cons_append, List.countP_cons_of_pos _ _ (by simp), this]
      simp
    refine ⟨by rw [hacq], ?_, ?_, ?_⟩
    · have := callsUnderLock_calls calls [LockEvent.release]
      simp only [callsUnderLock, List.cons_append, List.all_cons] at this ⊢
      rw [this]
      simp
    · have := replayLock_calls true calls true [LockEvent.release]
      simp only [List.cons_append, replayLock, SpinLock.lock, Bool.false_eq_true, if_false]
      exact this.trans (by simp [replayLock, SpinLock.unlock])
    · intro _ _
      refine ⟨hacq, ?_⟩
      show (LockEvent.acquire :: (List.map (fun a => LockEvent.invoke a true) calls ++
        [LockEvent.release])).getLast? = some LockEvent.release
      rw [← List.cons_append, List.getLast?_concat]

theorem applyLoopLogged_spec {σ ρ : Type} [DecidableEq ρ] (b : Build)
    (dispMatches : Display → Display → Bool) (deref : σ → ρ → Content) (first last : Nat)
    (entries : List (Entry σ ρ)) :
    ∀ (s : Pass σ ρ) (l : LockLog),
      (applyLoopLogged b dispMatches deref first last entries s l).outcome =
        applyLoop b dispMatches deref first last entries s ∧
      ∃ calls : List Nat,
        (applyLoopLogged b dispMatches deref first last entries s l).lock =
          { atomic_lock_ := l.atomic_lock_
            events := l.events ++ calls.map (fun a => LockEvent.invoke a l.atomic_lock_) } ∧
        ∀ s', applyLoop b dispMatches deref first last entries s = .ok s' →
          s'.invoked.map (fun i => i.filter) = s.invoked.map (fun i => i.filter) ++ calls := by
  induction entries with
  | nil =>
    intro s l
    refine ⟨rfl, [], by simp [applyLoopLogged], ?_⟩
    intro s' h
    simp only [applyLoop, Except.ok.injEq] at h
    subst h
    simp
  | cons e rest ih =>
    intro s l
    simp only [applyLoopLogged, applyLoop]
    by_cases h1 : e.mPosition < first
    · simp only [if_pos h1]
      exact ih s l
    · simp only [if_neg h1]
      by_cases h2 : last < e.mPosition
      · simp only [if_pos h2]
        refine ⟨by first | rfl | trivial, [], by simp, ?_⟩
        intro s' h
        simp only [Except.ok.injEq] at h
        subst h
        simp
      · simp only [if_neg h2]
        split
        · rename_i a hchecked
          refine ⟨rfl, [e.mpFilter.addr], by simp [LockLog.call], ?_⟩
          intro s' h
          simp at h
        · rename_i old hchecked
          obtain ⟨hout, calls, hlock, hinv⟩ := ih
            { pRef := if (e.mpFilter.onApply s.state s.pRef).1 ≠ s.pRef
                then (e.mpFilter.onApply s.state s.pRef).1 else s.pRef
              state := (e.mpFilter.onApply s.state s.pRef).2
              mOldOutput := old
              invoked := s.invoked ++
                [{ filter := e.mpFilter.addr, position := e.mPosition, input := s.pRef,
                   output := (e.mpFilter.onApply s.state s.pRef).1 }] }
            (l.call e.mpFilter.addr)
          refine ⟨hout, e.mpFilter.addr :: calls, ?_, ?_⟩
          · rw [hlock]
            simp [LockLog.call]
          · intro s' h
            rw [hinv s' h]
            simp

theorem onOpenLoop_lock {σ ρ : Type} (openOf : Nat → σ → σ) (entries : List (Entry σ ρ)) :
    ∀ (state : σ) (l : LockLog),
      (onOpenLoop openOf entries state l).2 =
        { atomic_lock_ := l.atomic_lock_
          events := l.events ++ (entries.map (fun e => e.mpFilter.addr)).map
            (fun a => LockEvent.invoke a l.atomic_lock_) } := by
  induction entries with
  | nil => intro state l; simp [onOpenLoop]
  | cons e rest ih =>
    intro state l
    simp only [onOpenLoop]
    rw [ih]
    simp [LockLog.call]

theorem dumpLoop_lock {σ ρ : Type} (nameOf : Nat → String) (dumpOf : Nat → σ → String)
    (state : σ) (entries : List (Entry σ ρ)) :
    ∀ (output : String) (l : LockLog),
      (dumpLoop nameOf dumpOf state entries output l).2 =
        { atomic_lock_ := l.atomic_lock_
          events := l.events ++ (entries.map (fun e => e.mpFilter.addr)).map
            (fun a => LockEvent.invoke a l.atomic_lock_) } := by
  induction entries with
  | nil => intro output l; simp [dumpLoop]
  | cons f rest ih =>
    intro output l
    simp only [dumpLoop]
    split
    · rw [ih]; simp [LockLog.call]
    · rw [ih]; simp [LockLog.call]

theorem onApplyLogged_section {σ ρ : Type} [DecidableEq ρ] (b : Build)
    (dispMatches : Display → Display → Bool) (deref : σ → ρ → Content)
    (m : FilterManager σ ρ) (state : σ) (mOldOutput : Nat → Content)
    (ref : ρ) (first last : Nat) (hlock : m.mLock = false) :
    OneSection (m.onApplyLogged b dispMatches deref state mOldOutput ref first last).lock ∧
    (m.onApplyLogged b dispMatches deref state mOldOutput ref first last).outcome =
      m.onApply b dispMatches deref state mOldOutput ref first last ∧
    ∀ r, (m.onApplyLogged b dispMatches deref state mOldOutput ref first last).outcome = .ok r →
      (m.onApplyLogged b dispMatches deref state mOldOutput ref first last).lock.atomic_lock_
        = false ∧
      r.manager.mLock = false ∧
      (m.onApplyLogged b dispMatches deref state mOldOutput ref first last).lock.events ≠ [] ∧
      calledFilters
        (m.onApplyLogged b dispMatches deref state mOldOutput ref first last).lock.events =
        r.invoked.map (fun i => i.filter) := by
  obtain ⟨hout, calls, hl, hinv⟩ := applyLoopLogged_spec b dispMatches deref first last
    m.mFilters { pRef := ref, state := state, mOldOutput := mOldOutput, invoked := [] }
    { atomic_lock_ := true, events := [LockEvent.acquire] }
  simp only [FilterManager.onApplyLogged, FilterManager.onApply, hlock, LockLog.lock,
    SpinLock.lock, Bool.false_eq_true, if_false, List.nil_append]
  split
  · rename_i a hentry
    refine ⟨Or.inl rfl, rfl, ?_⟩
    intro r h
    simp at h
  · rename_i old hentry
    simp only [hout]
    cases hloop : applyLoop b dispMatches deref first last m.mFilters
        { pRef := ref, state := state, mOldOutput := mOldOutput, invoked := [] } with
    | error a =>
      simp only [hl]
      refine ⟨Or.inr (Or.inl ⟨calls, rfl⟩), trivial, ?_⟩
      intro r h
      simp at h
    | ok s =>
      simp only [hl, LockLog.unlock, SpinLock.unlock]
      refine ⟨Or.inr (Or.inr ⟨calls, rfl⟩), trivial, ?_⟩
      intro r h
      simp only [Except.ok.injEq] at h
      subst h
      refine ⟨trivial, rfl, by simp, ?_⟩
      have hc := calledFilters_calls calls true [LockEvent.release]
      have hs := hinv s hloop
      simp only [List.map_nil, List.nil_append] at hs
      rw [hs]
      have hlist : calledFilters (LockEvent.acquire ::
          (List.map (fun a => LockEvent.invoke a true) calls ++ [LockEvent.release])) =
          calls := by
        rw [show calledFilters (LockEvent.acquire ::
          (List.map (fun a => LockEvent.invoke a true) calls ++ [LockEvent.release])) =
          calledFilters (List.map (fun a => LockEvent.invoke a true) calls ++
            [LockEvent.release]) from rfl, hc]
        simp [calledFilters]
      exact hlist

/-- C17: every operation of the FilterManager (`onApply`, `add`, `remove`,
`onOpen`, `dump`) that starts with the lock free takes the lock at most once,
calls every filter method while the flag set by `SpinLock::lock` is set, and
never waits for the lock; whenever the operation returns, the flag is clear
again, in the returned manager too. This holds on every path: the early exit
of the loop of `onApply`, the `break` of `remove` and the return of `dump`
before `lock` (where the lock is not touched at all). An operation that
returns after taking the lock took it exactly once and released it last; the
filters `onApply` called under the lock are exactly the invoked ones, and
`onOpen` calls every registered filter, in order, between `lock` and
`unlock`. The logged operations return what the operations themselves
return. -/
theorem operations_hold_lock_once {σ ρ : Type} [DecidableEq ρ] (b : Build)
    (dispMatches : Display → Display → Bool) (deref : σ → ρ → Content)
    (m : FilterManager σ ρ) (state : σ) (mOldOutput : Nat → Content)
    (ref : ρ) (first last : Nat) (filter : AbstractFilter σ ρ) (position : Nat)
    (openOf : Nat → σ → σ) (sbInternalBuild : Bool) (nameOf : Nat → String)
    (dumpOf : Nat → σ → String) (hlock : m.mLock = false) :
    (∀ l ∈ [(m.onApplyLogged b dispMatches deref state mOldOutput ref first last).lock,
            (m.addLogged b filter position).lock,
            (m.removeLogged b filter).lock,
            (m.onOpen openOf state).lock,
            (m.dump sbInternalBuild nameOf dumpOf state).lock],
      acquisitions l.events ≤ 1 ∧ callsUnderLock l.events = true ∧
      replayLock false l.events = .ok l.atomic_lock_) ∧
    ((m.onApplyLogged b dispMatches deref state mOldOutput ref first last).outcome =
        m.onApply b dispMatches deref state mOldOutput ref first last ∧
      (m.onApplyLogged b dispMatches deref state mOldOutput ref first last).outcome ≠
        .error .spin ∧
      ∀ r, (m.onApplyLogged b dispMatches deref state mOldOutput ref first last).outcome
          = .ok r →
        (m.onApplyLogged b dispMatches deref state mOldOutput ref first last).lock.atomic_lock_
          = false ∧
        r.manager.mLock = false ∧
        acquisitions
          (m.onApplyLogged b dispMatches deref state mOldOutput ref first last).lock.events
          = 1 ∧
        (m.onApplyLogged b dispMatches deref state mOldOutput ref first last).lock.events.getLast?
          = some .release ∧
        calledFilters
          (m.onApplyLogged b dispMatches deref state mOldOutput ref first last).lock.events =
          r.invoked.map (fun i => i.filter)) ∧
    ((m.addLogged b filter position).outcome = m.add b filter position ∧
      (m.addLogged b filter position).outcome ≠ .error .spin ∧
      ∀ m', (m.addLogged b filter position).outcome = .ok m' →
        (m.addLogged b filter position).lock =
          { atomic_lock_ := false, events := [.acquire, .release] } ∧
        m'.mLock = false) ∧
    ((m.removeLogged b filter).outcome = m.remove b filter ∧
      (m.removeLogged b filter).lock =
        { atomic_lock_ := false, events := [.acquire, .release] } ∧
      ∃ m', (m.removeLogged b filter).outcome = .ok m' ∧ m'.mLock = false) ∧
    ((m.onOpen openOf state).lock =
        { atomic_lock_ := false
          events := .acquire ::
            (m.mFilters.map (fun e => e.mpFilter.addr)).map
              (fun a => LockEvent.invoke a true) ++ [.release] } ∧
      ∃ m' state', (m.onOpen openOf state).outcome = .ok (m', state') ∧ m'.mLock = false) ∧
    ((m.dump sbInternalBuild nameOf dumpOf state).lock.atomic_lock_ = false ∧
      (∃ text m', (m.dump sbInternalBuild nameOf dumpOf state).outcome = .ok (text, m') ∧
        m'.mLock = false) ∧
      (sbInternalBuild = false →
        (m.dump sbInternalBuild nameOf dumpOf state).lock.events = [] ∧
        (m.dump sbInternalBuild nameOf dumpOf state).outcome = .ok ("", m)) ∧
      (sbInternalBuild = true →
        (m.dump sbInternalBuild nameOf dumpOf state).lock.events =
          .acquire :: (m.mFilters.map (fun e => e.mpFilter.addr)).map
            (fun a => LockEvent.invoke a true) ++ [.release])) := by
  have happly := onApplyLogged_section b dispMatches deref m state mOldOutput ref first last
    hlock
  have hadd : OneSection (m.addLogged b filter position).lock ∧
      (m.addLogged b filter position).outcome = m.add b filter position ∧
      ∀ m', (m.addLogged b filter position).outcome = .ok m' →
        (m.addLogged b filter position).lock =
          { atomic_lock_ := false, events := [.acquire, .release] } ∧
        m'.mLock = false := by
    simp only [FilterManager.addLogged, FilterManager.add, hlock, LockLog.lock,
      SpinLock.lock, Bool.false_eq_true, if_false, List.nil_append]
    cases hbody : addBody b m.mFilters filter position with
    | error a =>
      refine ⟨Or.inr (Or.inl ⟨[], rfl⟩), rfl, ?_⟩
      intro m' h
      simp at h
    | ok fs =>
      refine ⟨Or.inr (Or.inr ⟨[], rfl⟩), rfl, ?_⟩
      intro m' h
      simp only [Except.ok.injEq] at h
      subst h
      exact ⟨rfl, rfl⟩
  have hremove : (m.removeLogged b filter).outcome = m.remove b filter ∧
      (m.removeLogged b filter).lock =
        { atomic_lock_ := false, events := [.acquire, .release] } ∧
      ∃ m', (m.removeLogged b filter).outcome = .ok m' ∧ m'.mLock = false := by
    simp only [FilterManager.removeLogged, FilterManager.remove, hlock, LockLog.lock,
      SpinLock.lock, Bool.false_eq_true, if_false, List.nil_append]
    exact ⟨rfl, rfl, _, rfl, rfl⟩
  have hopen : (m.onOpen openOf state).lock =
        { atomic_lock_ := false
          events := .acquire ::
            (m.mFilters.map (fun e => e.mpFilter.addr)).map
              (fun a => LockEvent.invoke a true) ++ [.release] } ∧
      ∃ m' state', (m.onOpen openOf state).outcome = .ok (m', state') ∧ m'.mLock = false := by
    simp only [FilterManager.onOpen, hlock, LockLog.lock, SpinLock.lock, Bool.false_eq_true,
      if_false, List.nil_append, onOpenLoop_lock, LockLog.unlock, SpinLock.unlock]
    exact ⟨rfl, _, _, rfl, rfl⟩
  have hdump : OneSection (m.dump sbInternalBuild nameOf dumpOf state).lock ∧
      (m.dump sbInternalBuild nameOf dumpOf state).lock.atomic_lock_ = false ∧
      (∃ text m', (m.dump sbInternalBuild nameOf dumpOf state).outcome = .ok (text, m') ∧
        m'.mLock = false) ∧
      (sbInternalBuild = false →
        (m.dump sbInternalBuild nameOf dumpOf state).lock.events = [] ∧
        (m.dump sbInternalBuild nameOf dumpOf state).outcome = .ok ("", m)) ∧
      (sbInternalBuild = true →
        (m.dump sbInternalBuild nameOf dumpOf state).lock.events =
          .acquire :: (m.mFilters.map (fun e => e.mpFilter.addr)).map
            (fun a => LockEvent.invoke a true) ++ [.release]) := by
    cases sbInternalBuild with
    | false =>
      have e : m.dump false nameOf dumpOf state =
          { lock := { atomic_lock_ := false, events := [] }, outcome := .ok ("", m) } := by
        simp [FilterManager.dump, hlock]
      rw [e]
      exact ⟨Or.inl rfl, rfl, ⟨_, _, rfl, hlock⟩, fun _ => ⟨rfl, rfl⟩,
        fun h => Bool.noConfusion h⟩
    | true =>
      have e : m.dump true nameOf dumpOf state =
          { lock :=
              { atomic_lock_ := false
                events := .acquire :: (m.mFilters.map (fun e => e.mpFilter.addr)).map
                  (fun a => LockEvent.invoke a true) ++ [.release] }
            outcome := .ok
              ((dumpLoop nameOf dumpOf state m.mFilters ""
                  { atomic_lock_ := true, events := [.acquire] }).1,
                { m with mLock := false }) } := by
        simp [FilterManager.dump, hlock, LockLog.lock, SpinLock.lock, dumpLoop_lock,
          LockLog.unlock, SpinLock.unlock]
      rw [e]
      exact ⟨Or.inr (Or.inr ⟨_, rfl⟩), rfl, ⟨_, _, rfl, rfl⟩,
        fun h => Bool.noConfusion h, fun _ => rfl⟩
  have hopenSection : OneSection (m.onOpen openOf state).lock := by
    rw [hopen.1]
    exact Or.inr (Or.inr ⟨_, rfl⟩)
  have hremoveSection : OneSection (m.removeLogged b filter).lock := by
    rw [hremove.2.1]
    exact Or.inr (Or.inr ⟨[], rfl⟩)
  refine ⟨?_, ⟨happly.2.1, ?_, ?_⟩, ⟨hadd.2.1, ?_, hadd.2.2⟩, hremove, hopen,
    hdump.2.1, hdump.2.2.1, hdump.2.2.2.1, hdump.2.2.2.2⟩
  · intro l hl
    simp only [List.mem_cons, List.mem_singleton, List.not_mem_nil, or_false] at hl
    have hsec : OneSection l := by
      rcases hl with h | h | h | h | h
      · rw [h]; exact happly.1
      · rw [h]; exact hadd.1
      · rw [h]; exact hremoveSection
      · rw [h]; exact hopenSection
      · rw [h]; exact hdump.1
    have hd := oneSection_discipline l hsec
    exact ⟨hd.1, hd.2.1, hd.2.2.1⟩
  · rw [happly.2.1]
    intro h
    simp only [FilterManager.onApply, hlock, SpinLock.lock, Bool.false_eq_true, if_false] at h
    split at h
    · rename_i a hentry
      split at hentry
      · split at hentry
        · rename_i a' hv
          have := (validateGeometryChange_error _ _ _ _ _ hv).1
          simp only [Except.error.injEq] at hentry h
          subst this
          rw [← hentry] at h
          exact Abort.noConfusion h
        · simp at hentry
      · simp at hentry
    · split at h
      · rename_i a hloop
        have := (applyLoop_error _ _ _ _ _ _ _ _ hloop).1
        simp only [Except.error.injEq] at h
        subst this
        exact Abort.noConfusion h
      · simp at h
  · intro r hr
    obtain ⟨hflag, hm, hne, hcalled⟩ := happly.2.2 r hr
    have hd := (oneSection_discipline _ happly.1).2.2.2 hflag hne
    exact ⟨hflag, hm, hd.1, hd.2, hcalled⟩
  · rw [hadd.2.1]
    intro h
    simp only [FilterManager.add, hlock, SpinLock.lock, Bool.false_eq_true, if_false] at h
    split at h
    · rename_i a hbody
      have := addBody_error _ _ _ _ _ hbody
      simp only [Except.error.injEq] at h
      subst this
      exact Abort.noConfusion h
    · simp at h

theorem operations_hold_lock_once_witness :
    threeFilters.mLock = false ∧
    (threeFilters.onApplyLogged productionBuild (fun _ _ => true) (fun _ _ => []) 0
        (fun _ => []) 0 1 2).lock =
      { atomic_lock_ := false
        events := [.acquire, .invoke 101 true, .invoke 102 true, .release] } ∧
    acquisitions (threeFilters.onApplyLogged productionBuild (fun _ _ => true)
        (fun _ _ => []) 0 (fun _ => []) 0 1 2).lock.events ≤ 1 ∧
    callsUnderLock (threeFilters.onApplyLogged productionBuild (fun _ _ => true)
        (fun _ _ => []) 0 (fun _ => []) 0 1 2).lock.events = true ∧
    (threeFilters.onOpen (fun _ n => n + 1) 0).lock =
      { atomic_lock_ := false
        events := [.acquire, .invoke 101 true, .invoke 102 true, .invoke 103 true,
          .release] } ∧
    (threeFilters.removeLogged checkedBuild (addingFilter 101 1 false)).lock =
      { atomic_lock_ := false, events := [.acquire, .release] } ∧
    (threeFilters.dump false (fun _ => "filter") (fun _ _ => "state") 0).lock.events = [] := by
  have h := operations_hold_lock_once productionBuild (fun _ _ => true) (fun _ _ => [])
    threeFilters 0 (fun _ => []) 0 1 2 (addingFilter 101 1 false) 1 (fun _ n => n + 1)
    false (fun _ => "filter") (fun _ _ => "state") rfl
  have happly := h.1 _ (List.mem_cons_self _ _)
  exact ⟨rfl, rfl, happly.1, happly.2.1, h.2.2.2.2.1.1, rfl, (h.2.2.2.2.2.2.2.1 rfl).1⟩

/-- With the lock held, `SpinLock::lock` never comes back: every operation
that takes the lock waits in it, before any filter is called. -/
theorem held_lock_spins {σ ρ : Type} [DecidableEq ρ]
    (m : FilterManager σ ρ) (state : σ) (mOldOutput : Nat → Content)
    (ref : ρ) (first last : Nat) (filter : AbstractFilter σ ρ) (position : Nat)
    (openOf : Nat → σ → σ) (nameOf : Nat → String) (dumpOf : Nat → σ → String)
    (hlock : m.mLock = true) :
    m.onApplyLogged productionBuild (fun _ _ => true) (fun _ _ => []) state mOldOutput ref
        first last =
      { lock := { atomic_lock_ := true, events := [] }, outcome := .error .spin } ∧
    m.addLogged productionBuild filter position =
      { lock := { atomic_lock_ := true, events := [] }, outcome := .error .spin } ∧
    m.removeLogged productionBuild filter =
      { lock := { atomic_lock_ := true, events := [] }, outcome := .error .spin } ∧
    m.onOpen openOf state =
      { lock := { atomic_lock_ := true, events := [] }, outcome := .error .spin } ∧
    m.dump true nameOf dumpOf state =
      { lock := { atomic_lock_ := true, events := [] }, outcome := .error .spin } := by
  refine ⟨?_, ?_, ?_, ?_, ?_⟩
  · simp [FilterManager.onApplyLogged, hlock, LockLog.lock, SpinLock.lock, productionBuild]
  · simp [FilterManager.addLogged, hlock, LockLog.lock, SpinLock.lock]
  · simp [FilterManager.removeLogged, hlock, LockLog.lock, SpinLock.lock]
  · simp [FilterManager.onOpen, hlock, LockLog.lock, SpinLock.lock]
  · simp [FilterManager.dump, hlock, LockLog.lock, SpinLock.lock]

/-- With a stopping validator the process ends inside the loop of `onApply`:
the lock was taken once, the filter whose output failed the validation was
called under it, and nothing was released. -/
theorem onApplyLogged_stopped_by_validator :
    (threeFilters.onApplyLogged internalBuild sameLayers framesOf 0 (fun _ => framesOf 0 10)
      1 2 3).lock = { atomic_lock_ := true, events := [.acquire, .invoke 102 true] } ∧
    (threeFilters.onApplyLogged internalBuild sameLayers framesOf 0 (fun _ => framesOf 0 10)
      1 2 3).outcome = .error .fatal := ⟨rfl, rfl⟩

end hwcomposer
